import Mathlib

/-!
MINC volume input: dimension matching, read cursor and hyperslab placement.

A shallow embedding of `volume_io/Volumes/input_mnc.c` and of the valid-range
functions of `libsrc2/volume.c`.

Conventions of the embedding:

* C arrays are lists; a read `a[i]` is `a.getD i default`, a write is `List.set`.
* C `int` values that can be negative (`INVALID_AXIS`, lengths, cursor entries)
  are `Int`; positions in an array and loop counters are `Nat`.  The product
  `n_volumes_in_file` is kept in the range of a 32-bit `int` by `wrap_int`;
  the other `int` operations are described for the executions in which they
  do not overflow.
* A loop `for( d = n-1; d >= 0; --d )` is a recursion on `d+1`; a loop
  `for_less( d, 0, n )` is a left fold over `List.range n`.
* The `double` value `(Real) n_done / (Real) total` is the exact quotient in `ℚ`.
* Names that come from headers outside the two source files
  (`ANY_SPATIAL_DIMENSION`, `MIvector_dimension`, `MAX_VAR_DIMS`,
  `convert_dim_name_to_spatial_axis`, `MI_SIGNED`, `MI_UNSIGNED`) are fields of
  `HeaderConstants`; the values of `<limits.h>` and `<float.h>` are fields of
  `LimitsH`.
* A `double` that holds an attribute value or a range bound is a rational.
-/

namespace MincInput

/-! ## Constants -/

/-- The `#define INVALID_AXIS -1` of `input_mnc.c`. -/
def INVALID_AXIS : Int := -1

/-- The `#define MIN_SLAB_SIZE 10000`. -/
def MIN_SLAB_SIZE : Int := 10000

/-- The `#define MAX_SLAB_SIZE 400000`. -/
def MAX_SLAB_SIZE : Int := 400000

/-- The header-defined items the code consults: the wildcard
`ANY_SPATIAL_DIMENSION`, the name `MIvector_dimension`, the limit
`MAX_VAR_DIMS`, the test `convert_dim_name_to_spatial_axis` (only its
truth value is used here), and the sign markers `MI_SIGNED` and
`MI_UNSIGNED`. -/
structure HeaderConstants where
  ANY_SPATIAL_DIMENSION : String
  MIvector_dimension : String
  MAX_VAR_DIMS : Nat
  convert_dim_name_to_spatial_axis : String → Bool
  MI_SIGNED : String
  MI_UNSIGNED : String

/-- Modelled from the spec: the three canonical spatial axis names of the
scenarios (`xspace`, `yspace`, `zspace`), the wildcard "any spatial dimension"
the vector dimension name and the sign markers; the headers that define them
are not part of the two source files, and the value of `MAX_VAR_DIMS` is an
example. -/
def standardHeaders : HeaderConstants where
  ANY_SPATIAL_DIMENSION := "any_spatial_dimension"
  MIvector_dimension := "vector_dimension"
  MAX_VAR_DIMS := 100
  convert_dim_name_to_spatial_axis := fun s =>
    s == "xspace" || s == "yspace" || s == "zspace"
  MI_SIGNED := "signed__"
  MI_UNSIGNED := "unsigned"

/-! ## `match_dimension_names` -/

/-- The locals and the output array of `match_dimension_names`. -/
structure MatchState where
  to_volume_index : List Int
  to_file_index : List Int
  volume_dim_found : List Bool
  n_matches : Int
deriving DecidableEq

/-- The `switch( iteration )` that sets `match`. -/
def dims_match (env : HeaderConstants) (iteration : Nat)
    (volume_name file_name : String) : Bool :=
  match iteration with
  | 0 => volume_name == file_name
  | 1 => volume_name == env.ANY_SPATIAL_DIMENSION &&
           env.convert_dim_name_to_spatial_axis file_name
  | 2 => volume_name.length == 0
  | _ => false

/-- The loop `for( j = n_file_dims-1; j >= 0; --j )` for one volume dimension
`i`; the first argument is `j+1`.  On a match the state is updated and the
loop is left (`break`). -/
def match_file_loop (env : HeaderConstants) (iteration i : Nat)
    (volume_dimension_names file_dimension_names : List String) :
    Nat → MatchState → MatchState
  | 0, st => st
  | j + 1, st =>
    if st.to_volume_index.getD j INVALID_AXIS = INVALID_AXIS ∧
        dims_match env iteration (volume_dimension_names.getD i "")
          (file_dimension_names.getD j "") = true then
      { to_volume_index := st.to_volume_index.set j (i : Int)
        to_file_index := st.to_file_index.set i (j : Int)
        volume_dim_found := st.volume_dim_found.set i true
        n_matches := st.n_matches + 1 }
    else
      match_file_loop env iteration i volume_dimension_names file_dimension_names j st

/-- The loop `for( i = n_volume_dims-1; i >= 0; --i )` of one pass; the first
argument is `i+1`. -/
def match_volume_loop (env : HeaderConstants) (iteration : Nat)
    (volume_dimension_names file_dimension_names : List String) :
    Nat → MatchState → MatchState
  | 0, st => st
  | i + 1, st =>
    match_volume_loop env iteration volume_dimension_names file_dimension_names i
      (if st.volume_dim_found.getD i false = false then
        match_file_loop env iteration i volume_dimension_names file_dimension_names
          file_dimension_names.length st
      else st)

/-- The state of `match_dimension_names` before the passes. -/
def match_init (n_volume_dims n_file_dims : Nat) : MatchState where
  to_volume_index := List.replicate n_file_dims INVALID_AXIS
  to_file_index := List.replicate n_volume_dims (-1)
  volume_dim_found := List.replicate n_volume_dims false
  n_matches := 0

/-- The state after `for_less( iteration, 0, 3 )`. -/
def match_passes (env : HeaderConstants)
    (volume_dimension_names file_dimension_names : List String) : MatchState :=
  (List.range 3).foldl
    (fun st iteration =>
      match_volume_loop env iteration volume_dimension_names file_dimension_names
        volume_dimension_names.length st)
    (match_init volume_dimension_names.length file_dimension_names.length)

/-- The result of `match_dimension_names`: the returned flag, the output array
`to_volume_index`, and the volume dimension names after the copy-back. -/
structure MatchResult where
  matched : Bool
  to_volume_index : List Int
  volume_dimension_names : List String
deriving DecidableEq

/-- The function `match_dimension_names`; `n_volume_dims` and `n_file_dims` are
the lengths of the two name lists. -/
def match_dimension_names (env : HeaderConstants)
    (volume_dimension_names file_dimension_names : List String) : MatchResult :=
  let st := match_passes env volume_dimension_names file_dimension_names
  let n_volume_dims := volume_dimension_names.length
  { matched := decide (st.n_matches = (n_volume_dims : Int))
    to_volume_index := st.to_volume_index
    volume_dimension_names :=
      if st.n_matches = (n_volume_dims : Int) then
        (List.range n_volume_dims).foldl
          (fun names i =>
            if names.getD i "" == env.ANY_SPATIAL_DIMENSION ∨
                (names.getD i "").length = 0 then
              names.set i
                (file_dimension_names.getD (st.to_file_index.getD i (-1)).toNat "")
            else names)
          volume_dimension_names
      else volume_dimension_names }

/-! ## The session and `initialize_minc_input_from_minc_id` -/

/-- The options bag `minc_input_options`. -/
structure minc_input_options where
  promote_invalid_to_min_flag : Bool
  convert_vector_to_scalar_flag : Bool
  convert_vector_to_colour_flag : Bool
  dimension_size_for_colour_data : Int
  rgba_indices : List Int
deriving DecidableEq

/-- The function `set_default_minc_input_options`. -/
def set_default_minc_input_options : minc_input_options where
  promote_invalid_to_min_flag := true
  convert_vector_to_scalar_flag := true
  convert_vector_to_colour_flag := false
  dimension_size_for_colour_data := 3
  rgba_indices := [0, 1, 2, -1]

/-- The part of the `Volume` that the cursor and the matcher read or write:
its dimension names (their number is `get_volume_n_dimensions`), the extents
of its array (`set_volume_sizes`, `get_multidim_sizes`) and the flag
`is_cached_volume` as `input_more_minc_file` tests it. -/
structure Volume where
  dimension_names : List String
  sizes : List Int
  is_cached_volume : Bool
deriving DecidableEq

/-- The function `get_volume_n_dimensions`. -/
def get_volume_n_dimensions (volume : Volume) : Nat :=
  volume.dimension_names.length

/-- The fields of `minc_file_struct` that dimension matching, slab planning
and the read cursor use. -/
structure minc_file_struct where
  volume : Volume
  n_file_dimensions : Nat
  sizes_in_file : List Int
  dim_names : List String
  to_volume_index : List Int
  to_file_index : List Int
  valid_file_axes : List Nat
  n_volumes_in_file : Int
  indices : List Int
  end_volume_flag : Bool
  n_slab_dims : Nat
  converting_to_colour : Bool
  rgba_indices : List Int
deriving DecidableEq

/-- Lines 151-183: the handling of a trailing vector dimension.  The result is
`none` when an rgba index is out of range (the open returns NULL), otherwise
the pair of `n_file_dimensions` and `converting_to_colour`. -/
def vector_dimension_step (env : HeaderConstants) (dim_names : List String)
    (sizes_in_file : List Int) (options : minc_input_options) : Option (Nat × Bool) :=
  let n_file_dimensions := dim_names.length
  if dim_names.getD (n_file_dimensions - 1) "" == env.MIvector_dimension then
    if options.convert_vector_to_colour_flag = true ∧
        options.dimension_size_for_colour_data =
          sizes_in_file.getD (n_file_dimensions - 1) 0 then
      if (List.range 4).any
          (fun i => decide (options.rgba_indices.getD i 0 ≥
            options.dimension_size_for_colour_data)) then
        none
      else some (n_file_dimensions - 1, true)
    else if options.convert_vector_to_scalar_flag then
      some (n_file_dimensions - 1, false)
    else some (n_file_dimensions, false)
  else some (n_file_dimensions, false)

/-- Lines 225-232: the inverse map `to_file_index` built from
`to_volume_index`. -/
def build_to_file_index (n_vol_dims n_file_dimensions : Nat)
    (to_volume_index : List Int) : List Int :=
  (List.range n_file_dimensions).foldl
    (fun to_file_index d =>
      if to_volume_index.getD d INVALID_AXIS ≠ INVALID_AXIS then
        to_file_index.set (to_volume_index.getD d INVALID_AXIS).toNat (d : Int)
      else to_file_index)
    (List.replicate n_vol_dims INVALID_AXIS)

/-- Lines 238-270, the part that fills `valid_file_axes`: the matched file
dimensions in increasing order.  The pair is the array and `which_valid_axis`. -/
def build_valid_file_axes (n_file_dimensions : Nat) (to_volume_index : List Int) :
    List Nat × Nat :=
  (List.range n_file_dimensions).foldl
    (fun acc d =>
      if to_volume_index.getD d INVALID_AXIS ≠ INVALID_AXIS then
        (acc.1.set acc.2 d, acc.2 + 1)
      else acc)
    (List.replicate n_file_dimensions 0, 0)

/-- The value a 32-bit two's-complement `int` holds after an operation whose
exact result is `x`: `x` reduced modulo `2^32` into `[-2^31, 2^31)`. -/
def wrap_int (x : Int) : Int :=
  (x + 2147483648) % 4294967296 - 2147483648

/-- Lines 234 and 311-314: `n_volumes_in_file`, multiplied by the length of
every unmatched file dimension.  The field is an `int` and the product of line
313 is kept in its range. -/
def compute_n_volumes_in_file (n_file_dimensions : Nat) (to_volume_index : List Int)
    (sizes_in_file : List Int) : Int :=
  (List.range n_file_dimensions).foldl
    (fun n_volumes_in_file d =>
      if to_volume_index.getD d INVALID_AXIS = INVALID_AXIS then
        wrap_int (n_volumes_in_file * sizes_in_file.getD d 0)
      else n_volumes_in_file)
    1

/-- Lines 315-320 and 407: the local `sizes`, indexed by volume dimension,
which `set_volume_sizes` stores in the volume. -/
def compute_volume_sizes (n_vol_dims n_file_dimensions : Nat)
    (to_volume_index sizes_in_file : List Int) : List Int :=
  (List.range n_file_dimensions).foldl
    (fun sizes d =>
      if to_volume_index.getD d INVALID_AXIS = INVALID_AXIS then sizes
      else sizes.set (to_volume_index.getD d INVALID_AXIS).toNat (sizes_in_file.getD d 0))
    (List.replicate n_vol_dims 0)

/-- Lines 539-548: the `do ... while( d >= 0 && slab_size < MIN_SLAB_SIZE )`
loop; the first argument is `d+1` and the pair is `(n_slab_dims, slab_size)`. -/
def slab_loop (to_volume_index sizes_in_file : List Int) : Nat → Nat × Int → Nat × Int
  | 0, acc => acc
  | d + 1, acc =>
    let acc1 : Nat × Int :=
      if to_volume_index.getD d INVALID_AXIS ≠ INVALID_AXIS then
        (acc.1 + 1, acc.2 * sizes_in_file.getD d 0)
      else acc
    if 0 < d ∧ acc1.2 < MIN_SLAB_SIZE then
      slab_loop to_volume_index sizes_in_file d acc1
    else acc1

/-- Lines 533-553: the slab depth `n_slab_dims`. -/
def compute_n_slab_dims (n_file_dimensions : Nat) (to_volume_index sizes_in_file : List Int) :
    Nat :=
  let acc := slab_loop to_volume_index sizes_in_file n_file_dimensions (0, 1)
  if acc.2 > MAX_SLAB_SIZE ∧ acc.1 > 1 then acc.1 - 1 else acc.1

/-- The function `initialize_minc_input_from_minc_id`, restricted to dimension
reconciliation, slab planning and the cursor; `none` is the NULL result.
`file_dims` lists the image variable's dimensions (name and length) in file
order, as `ncvarinq` and `ncdiminq` report them; a NULL `options` pointer is
`none`.  The image variable has at least one dimension in every defined
execution (the code reads `dim_names[n_file_dimensions-1]`). -/
def initialize_minc_input_from_minc_id (env : HeaderConstants)
    (file_dims : List (String × Int)) (volume : Volume)
    (options : Option minc_input_options) : Option minc_file_struct :=
  let options := options.getD set_default_minc_input_options
  let all_names := file_dims.map Prod.fst
  let sizes_in_file := file_dims.map Prod.snd
  match vector_dimension_step env all_names sizes_in_file options with
  | none => none
  | some (n_file_dimensions, converting_to_colour) =>
    let dim_names := all_names.take n_file_dimensions
    let n_vol_dims := get_volume_n_dimensions volume
    if n_file_dimensions < n_vol_dims then none
    else if n_file_dimensions > env.MAX_VAR_DIMS then none
    else
      let m := match_dimension_names env volume.dimension_names dim_names
      if m.matched = false then none
      else
        some
          { volume :=
              { volume with
                dimension_names := m.volume_dimension_names
                sizes := compute_volume_sizes n_vol_dims n_file_dimensions
                  m.to_volume_index sizes_in_file }
            n_file_dimensions := n_file_dimensions
            sizes_in_file := sizes_in_file
            dim_names := dim_names
            to_volume_index := m.to_volume_index
            to_file_index := build_to_file_index n_vol_dims n_file_dimensions m.to_volume_index
            valid_file_axes := (build_valid_file_axes n_file_dimensions m.to_volume_index).1
            n_volumes_in_file :=
              compute_n_volumes_in_file n_file_dimensions m.to_volume_index sizes_in_file
            indices := List.replicate n_file_dimensions 0
            end_volume_flag := false
            n_slab_dims := compute_n_slab_dims n_file_dimensions m.to_volume_index sizes_in_file
            converting_to_colour := converting_to_colour
            rgba_indices := if converting_to_colour then options.rgba_indices else [] }

/-- The function `get_n_input_volumes`. -/
def get_n_input_volumes (file : minc_file_struct) : Int :=
  file.n_volumes_in_file

/-! ## `input_minc_hyperslab` and `input_slab` -/

/-- The `Status` values the code uses. -/
inductive Status where
  | OK
  | ERROR
deriving DecidableEq

/-- The locals of the contiguity scan of `input_minc_hyperslab`. -/
structure HyperslabScan where
  direct_to_array : Bool
  non_full_size_found : Bool
  expected_ind : Int
  tmp_ind : Int
  tmp_sizes : List Int
  vol1_indices : List Int
  used_start : List Int
  used_count : List Int
deriving DecidableEq

/-- One iteration (at `file_ind`) of the loop of lines 737-764. -/
def hyperslab_scan_body (sizes_in_file to_array start count : List Int)
    (file_ind : Nat) (st : HyperslabScan) : HyperslabScan :=
  let c := count.getD file_ind 0
  let size := sizes_in_file.getD file_ind 0
  let st := { st with
    used_start := st.used_start.set file_ind (start.getD file_ind 0)
    used_count := st.used_count.set file_ind c }
  let ind := to_array.getD file_ind INVALID_AXIS
  if ind ≠ INVALID_AXIS then
    let st :=
      if st.non_full_size_found = false ∧ c < size then
        { st with non_full_size_found := true }
      else if st.non_full_size_found = true ∧ c > 1 then
        { st with direct_to_array := false }
      else st
    let st :=
      if c > 1 ∧ ind ≠ st.expected_ind then { st with direct_to_array := false } else st
    let st :=
      if c ≠ 1 ∨ size = 1 then
        { st with
          tmp_sizes := st.tmp_sizes.set st.tmp_ind.toNat c
          vol1_indices := st.vol1_indices.set st.tmp_ind.toNat ind
          tmp_ind := st.tmp_ind - 1 }
      else st
    { st with expected_ind := st.expected_ind - 1 }
  else st

/-- The loop `for( file_ind = n_file_dims-1; file_ind >= 0; --file_ind )` of
lines 737-764; the first argument is `file_ind+1`. -/
def hyperslab_scan_loop (sizes_in_file to_array start count : List Int) :
    Nat → HyperslabScan → HyperslabScan
  | 0, st => st
  | file_ind + 1, st =>
    hyperslab_scan_loop sizes_in_file to_array start count file_ind
      (hyperslab_scan_body sizes_in_file to_array start count file_ind st)

/-- Lines 726-764: the contiguity scan of `input_minc_hyperslab`. -/
def hyperslab_scan (n_file_dims : Nat) (sizes_in_file : List Int) (n_array_dims : Nat)
    (to_array start count : List Int) : HyperslabScan :=
  hyperslab_scan_loop sizes_in_file to_array start count n_file_dims
    { direct_to_array := true
      non_full_size_found := false
      expected_ind := (n_array_dims : Int) - 1
      tmp_ind := (n_file_dims : Int) - 1
      tmp_sizes := List.replicate (n_file_dims + 1) 0
      vol1_indices := List.replicate (max n_array_dims n_file_dims) (-1)
      used_start := List.replicate (n_file_dims + 1) 0
      used_count := List.replicate (n_file_dims + 1) 0 }

/-- Lines 771-776: the shape `tmp_sizes` of the temporary buffer and the
permutation table `vol1_indices`, moved to the front of their arrays.  The
triple is `(n_tmp_dims, tmp_sizes, vol1_indices)`. -/
def buffer_layout (n_file_dims : Nat) (scan : HyperslabScan) : Nat × List Int × List Int :=
  let n_tmp_dims := ((n_file_dims : Int) - scan.tmp_ind - 1).toNat
  let moved := (List.range n_tmp_dims).foldl
    (fun (acc : List Int × List Int) dim =>
      (acc.1.set dim (acc.1.getD (dim + (scan.tmp_ind + 1).toNat) 0),
       acc.2.set dim (acc.2.getD (dim + (scan.tmp_ind + 1).toNat) (-1))))
    (scan.tmp_sizes, scan.vol1_indices)
  (n_tmp_dims, moved.1, moved.2)

/-- What one call of `input_minc_hyperslab` does: the returned status, whether
`void_ptr` was the destination itself (the direct path), the window handed to
`miicv_get`, and the layout of the temporary buffer on the buffered path. -/
structure HyperslabResult where
  status : Status
  direct : Bool
  used_start : List Int
  used_count : List Int
  n_tmp_dims : Nat
  tmp_sizes : List Int
  vol1_indices : List Int
deriving DecidableEq

/-- The function `input_minc_hyperslab`, up to the voxel values.  The storage
engine's read `miicv_get` is a parameter: it returns `true` for `MI_ERROR`. -/
def input_minc_hyperslab (miicv_get_fails : List Int → List Int → Bool)
    (file : minc_file_struct) (n_array_dims : Nat) (to_array start count : List Int) :
    HyperslabResult :=
  let n_file_dims := file.n_file_dimensions
  let scan := hyperslab_scan n_file_dims file.sizes_in_file n_array_dims to_array start count
  let buffered : Bool := !scan.direct_to_array || file.converting_to_colour
  let layout := if buffered then buffer_layout n_file_dims scan
    else (0, scan.tmp_sizes, scan.vol1_indices)
  let used_start :=
    if buffered ∧ file.converting_to_colour then scan.used_start.set n_file_dims 0
    else scan.used_start
  let used_count :=
    if buffered ∧ file.converting_to_colour then
      scan.used_count.set n_file_dims (file.sizes_in_file.getD n_file_dims 0)
    else scan.used_count
  let tmp_sizes :=
    if buffered ∧ file.converting_to_colour then
      layout.2.1.set layout.1 (file.sizes_in_file.getD n_file_dims 0)
    else layout.2.1
  { status := if miicv_get_fails used_start used_count then Status.ERROR else Status.OK
    direct := !buffered
    used_start := used_start
    used_count := used_count
    n_tmp_dims := layout.1
    tmp_sizes := tmp_sizes
    vol1_indices := layout.2.2 }

/-- The function `input_slab`: it calls `input_minc_hyperslab` on the volume's
array and discards the status (`(void) input_minc_hyperslab( ... )`); it
returns nothing. -/
def input_slab (miicv_get_fails : List Int → List Int → Bool) (file : minc_file_struct)
    (volume : Volume) (to_volume start count : List Int) : Unit :=
  let _status :=
    (input_minc_hyperslab miicv_get_fails file volume.sizes.length to_volume start count).status
  ()

/-- Modelled from the spec: the destination is a dense array in row-major
order, so the stride (in elements) of array dimension `a` is the product of
the extents of the dimensions after it; the array macros themselves
(`GET_MULTIDIM_PTR`) are not part of the source files. -/
def array_stride (array_sizes : List Int) (a : Nat) : Int :=
  (array_sizes.drop (a + 1)).prod

/-- The destination element (offset from `array_data_ptr`) that receives the
`k`-th value of the window, in file order, on the direct path: `miicv_get`
fills the memory at `void_ptr = array_data_ptr` consecutively. -/
def direct_path_offset (k : Nat) : Int :=
  (k : Int)

/-- Modelled from the spec: the copy-with-reordering of the buffered path
(`copy_multidim_data_reordered`, not part of the source files).  The `k`-th
value of the window lies at row-major position `k` of the temporary buffer of
shape `tmp_sizes[0..n_tmp_dims)`; its coordinate along buffer dimension `dim`
is moved along destination dimension `vol1_indices[dim]`.  The result is the
destination element's offset from `array_data_ptr`. -/
def buffered_path_offset (array_sizes : List Int) (n_tmp_dims : Nat)
    (tmp_sizes vol1_indices : List Int) (k : Nat) : Int :=
  ((List.range n_tmp_dims).map
    (fun dim =>
      (((k : Int) / ((tmp_sizes.take n_tmp_dims).drop (dim + 1)).prod) % tmp_sizes.getD dim 1) *
        array_stride array_sizes (vol1_indices.getD dim (-1)).toNat)).sum

/-! ## The read cursor -/

/-- Lines 981-995: the count vector of one slab read.  The first argument of
the loop is `d+1`; it stops when `n_slab` reaches `n_slab_dims`. -/
def slab_count_loop (file : minc_file_struct) : Nat → List Int → Nat → List Int
  | 0, count, _ => count
  | d + 1, count, n_slab =>
    if n_slab < file.n_slab_dims then
      if file.to_volume_index.getD d INVALID_AXIS ≠ INVALID_AXIS then
        slab_count_loop file d (count.set d (file.sizes_in_file.getD d 0)) (n_slab + 1)
      else slab_count_loop file d count n_slab
    else count

/-- The count vector `count[]` that `input_more_minc_file` hands to
`input_slab`. -/
def slab_count (file : minc_file_struct) : List Int :=
  slab_count_loop file file.n_file_dimensions (List.replicate file.n_file_dimensions 1) 0

/-- The locals of the "advance to next slab" loop of `input_more_minc_file`. -/
structure AdvanceState where
  indices : List Int
  increment : Bool
  n_slab : Nat
  total : Int
  n_done : Int
deriving DecidableEq

/-- One iteration (at `d`) of the loop of lines 1006-1025. -/
def advance_slab_body (file : minc_file_struct) (d : Nat) (st : AdvanceState) :
    AdvanceState :=
  let st :=
    if file.n_slab_dims ≤ st.n_slab ∧
        file.to_volume_index.getD d INVALID_AXIS ≠ INVALID_AXIS then
      let st :=
        if st.increment = true then
          let st := { st with indices := st.indices.set d (st.indices.getD d 0 + 1) }
          if st.indices.getD d 0 < file.sizes_in_file.getD d 0 then
            { st with increment := false }
          else { st with indices := st.indices.set d 0 }
        else st
      { st with
        n_done := st.n_done + st.total * st.indices.getD d 0
        total := st.total * file.sizes_in_file.getD d 0 }
    else st
  if file.to_volume_index.getD d INVALID_AXIS ≠ INVALID_AXIS then
    { st with n_slab := st.n_slab + 1 }
  else st

/-- The loop `for( d = n_file_dimensions-1; d >= 0; --d )` of lines 1006-1025;
the first argument is `d+1`. -/
def advance_slab_loop (file : minc_file_struct) : Nat → AdvanceState → AdvanceState
  | 0, st => st
  | d + 1, st => advance_slab_loop file d (advance_slab_body file d st)

/-- What one call of `input_more_minc_file` hands back: the session after the
call, the returned flag, the value stored in `*fraction_done` (`none` when the
call does not store one) and the window `(start, count)` of the slab read it
issued, if any. -/
structure MoreOutcome where
  file : minc_file_struct
  more : Bool
  fraction_done : Option ℚ
  window : Option (List Int × List Int)
deriving DecidableEq

/-- The function `input_more_minc_file`.  The allocation of the volume is not
modelled; `is_cached_volume` is the flag as line 971 reads it. -/
def input_more_minc_file (miicv_get_fails : List Int → List Int → Bool)
    (file : minc_file_struct) : MoreOutcome :=
  if file.end_volume_flag = true then
    { file := file, more := false, fraction_done := none, window := none }
  else if file.volume.is_cached_volume = true then
    { file := { file with end_volume_flag := true }
      more := false
      fraction_done := some 1
      window := none }
  else
    let count := slab_count file
    let _unit := input_slab miicv_get_fails file file.volume file.to_volume_index
      file.indices count
    let st := advance_slab_loop file file.n_file_dimensions
      { indices := file.indices, increment := true, n_slab := 0, total := 1, n_done := 0 }
    if st.increment = true then
      { file := { file with indices := st.indices, end_volume_flag := true }
        more := false
        fraction_done := some 1
        window := some (file.indices, count) }
    else
      { file := { file with indices := st.indices }
        more := true
        fraction_done := some ((st.n_done : ℚ) / (st.total : ℚ))
        window := some (file.indices, count) }

/-- The loop `while( ind >= 0 )` of `advance_input_volume`; the first argument
is `ind+1`.  The flag of the result is `ind >= 0` after the loop, that is,
whether the loop was left by `break`. -/
def advance_volume_loop (file : minc_file_struct) : Nat → List Int → List Int × Bool
  | 0, indices => (indices, false)
  | ind + 1, indices =>
    if file.to_volume_index.getD ind INVALID_AXIS = INVALID_AXIS then
      let indices := indices.set ind (indices.getD ind 0 + 1)
      if indices.getD ind 0 < file.sizes_in_file.getD ind 0 then (indices, true)
      else advance_volume_loop file ind (indices.set ind 0)
    else advance_volume_loop file ind indices

/-- The function `advance_input_volume`: the session after the call and the
returned value, which is `file->end_volume_flag`.  The recomputation of the
volume translation (a floating-point transform) is not modelled. -/
def advance_input_volume (file : minc_file_struct) : minc_file_struct × Bool :=
  let r := advance_volume_loop file file.n_file_dimensions file.indices
  let file :=
    if r.2 = true then
      { file with
        end_volume_flag := false
        indices := (List.range (get_volume_n_dimensions file.volume)).foldl
          (fun indices ind => indices.set (file.valid_file_axes.getD ind 0) 0) r.1 }
    else { file with indices := r.1, end_volume_flag := true }
  (file, file.end_volume_flag)

/-- The function `reset_input_volume`. -/
def reset_input_volume (file : minc_file_struct) : minc_file_struct :=
  { file with
    indices := (List.range file.n_file_dimensions).foldl
      (fun indices d => indices.set d 0) file.indices
    end_volume_flag := false }

/-! ## Invariants used in the proofs -/

/-- The invariant of the matcher's loops: the two maps are partial inverses of
each other, exactly the found volume dimensions are bound, and `n_matches`
counts them. -/
structure MatchInv (V F : Nat) (st : MatchState) : Prop where
  len_tvi : st.to_volume_index.length = F
  len_tfi : st.to_file_index.length = V
  len_found : st.volume_dim_found.length = V
  fwd : ∀ j, j < F → st.to_volume_index.getD j INVALID_AXIS = INVALID_AXIS ∨
    ∃ i, i < V ∧ st.to_volume_index.getD j INVALID_AXIS = (i : Int) ∧
      st.volume_dim_found.getD i false = true ∧ st.to_file_index.getD i (-1) = (j : Int)
  bwd : ∀ i, i < V → st.volume_dim_found.getD i false = true →
    ∃ j, j < F ∧ st.to_file_index.getD i (-1) = (j : Int) ∧
      st.to_volume_index.getD j INVALID_AXIS = (i : Int)
  cnt : st.n_matches = (st.volume_dim_found.count true : Int)

/-- The number of volume dimensions `v` in `[0,V)` that are bound, that is,
that occur as an entry of `to_volume_index`. -/
def bound_volume_dims (V : Nat) (to_volume_index : List Int) : Nat :=
  ((List.range V).filter (fun (v : Nat) => decide ((v : Int) ∈ to_volume_index))).length

/-! ## Example sessions -/

/-- A volume that asks for the dimensions `zspace`, `yspace`, `xspace`. -/
def exampleVolume : Volume where
  dimension_names := ["zspace", "yspace", "xspace"]
  sizes := [0, 0, 0]
  is_cached_volume := false

/-- A file with the dimensions `xspace`, `yspace`, `zspace`, all of length 10. -/
def exampleFileDims : List (String × Int) :=
  [("xspace", 10), ("yspace", 10), ("zspace", 10)]

/-- The session that opening `exampleFileDims` for `exampleVolume` produces. -/
def exampleSession : minc_file_struct where
  volume := { dimension_names := ["zspace", "yspace", "xspace"], sizes := [10, 10, 10],
              is_cached_volume := false }
  n_file_dimensions := 3
  sizes_in_file := [10, 10, 10]
  dim_names := ["xspace", "yspace", "zspace"]
  to_volume_index := [2, 1, 0]
  to_file_index := [2, 1, 0]
  valid_file_axes := [0, 1, 2]
  n_volumes_in_file := 1
  indices := [0, 0, 0]
  end_volume_flag := false
  n_slab_dims := 3
  converting_to_colour := false
  rgba_indices := []

/-- A file that stacks four volumes along an outer `time` dimension. -/
def stackedFileDims : List (String × Int) :=
  [("time", 4), ("xspace", 5), ("yspace", 20000), ("zspace", 1)]

/-- The session that opening `stackedFileDims` for `exampleVolume` produces. -/
def stackedSession : minc_file_struct where
  volume := { dimension_names := ["zspace", "yspace", "xspace"], sizes := [1, 20000, 5],
              is_cached_volume := false }
  n_file_dimensions := 4
  sizes_in_file := [4, 5, 20000, 1]
  dim_names := ["time", "xspace", "yspace", "zspace"]
  to_volume_index := [-1, 2, 1, 0]
  to_file_index := [3, 2, 1]
  valid_file_axes := [1, 2, 3, 0]
  n_volumes_in_file := 4
  indices := [0, 0, 0, 0]
  end_volume_flag := false
  n_slab_dims := 2
  converting_to_colour := false
  rgba_indices := []

/-! ## Reachable session states and the cursor invariant -/

/-- The cursor `idx` has one entry per file dimension and every entry lies in
`[0, sizes[d])`. -/
def InBounds (sizes : List Int) (n : Nat) (idx : List Int) : Prop :=
  idx.length = n ∧ ∀ d, d < n → 0 ≤ idx.getD d 0 ∧ idx.getD d 0 < sizes.getD d 0

/-- The session states that any sequence of `input_more_minc_file`,
`advance_input_volume` and `reset_input_volume` calls reaches from `file0`,
whatever the storage reads return. -/
inductive Reachable (file0 : minc_file_struct) : minc_file_struct → Prop
  | start : Reachable file0 file0
  | more (miicv_get_fails : List Int → List Int → Bool) {file : minc_file_struct} :
      Reachable file0 file → Reachable file0 (input_more_minc_file miicv_get_fails file).file
  | advance {file : minc_file_struct} :
      Reachable file0 file → Reachable file0 (advance_input_volume file).1
  | reset {file : minc_file_struct} :
      Reachable file0 file → Reachable file0 (reset_input_volume file)

/-! ## The slab cursor as a mixed-radix counter -/

/-- File dimension `d` has a match in the volume. -/
def is_matched (file : minc_file_struct) (d : Nat) : Bool :=
  decide (file.to_volume_index.getD d INVALID_AXIS ≠ INVALID_AXIS)

/-- The number of matched file dimensions `e` with `d <= e`. -/
def matched_from (file : minc_file_struct) (d : Nat) : Nat :=
  (file.to_volume_index.drop d).countP (fun v => decide (v ≠ INVALID_AXIS))

/-- File dimension `d` is a slab dimension: it is one of the `n_slab_dims`
innermost matched dimensions. -/
def is_slab_dim (file : minc_file_struct) (d : Nat) : Bool :=
  is_matched file d && decide (matched_from file (d + 1) < file.n_slab_dims)

/-- File dimension `d` is matched and not a slab dimension. -/
def is_non_slab_dim (file : minc_file_struct) (d : Nat) : Bool :=
  is_matched file d && decide (file.n_slab_dims ≤ matched_from file (d + 1))

/-- The product of the lengths of the file dimensions selected by `p`. -/
def product_of_lengths (file : minc_file_struct) (p : Nat → Bool) : Int :=
  (((List.range file.n_file_dimensions).filter p).map
    (fun d => file.sizes_in_file.getD d 0)).prod

/-- The number `T` of slab reads of one volume: the product of the lengths of
the matched file dimensions that are not slab dimensions. -/
def non_slab_total (file : minc_file_struct) : Int :=
  product_of_lengths file (is_non_slab_dim file)

/-- The product of the lengths of all matched file dimensions. -/
def matched_total (file : minc_file_struct) : Int :=
  product_of_lengths file (is_matched file)

/-- The product of the lengths of the non-slab matched dimensions `e >= d`. -/
def total_from (file : minc_file_struct) (d : Nat) : Int :=
  Finset.prod (Finset.Ico d file.n_file_dimensions)
    (fun e => if is_non_slab_dim file e = true then file.sizes_in_file.getD e 0 else 1)

/-- The mixed-radix value of the coordinates `x` along the non-slab matched
dimensions `e >= d`, the innermost one being the least significant digit. -/
def cursor_value (file : minc_file_struct) (x : Nat → Int) (d : Nat) : Int :=
  Finset.sum (Finset.Ico d file.n_file_dimensions)
    (fun e => if is_non_slab_dim file e = true then total_from file (e + 1) * x e else 0)

/-- The invariant of the "advance to next slab" loop when the dimensions
`e >= d` have been visited, starting from the cursor `idx0`. -/
structure AdvanceInv (file : minc_file_struct) (idx0 : List Int) (d : Nat)
    (st : AdvanceState) : Prop where
  len : st.indices.length = file.n_file_dimensions
  n_slab : st.n_slab = matched_from file d
  total : st.total = total_from file d
  below : ∀ e, e < d → st.indices.getD e 0 = idx0.getD e 0
  frame : ∀ e, e < file.n_file_dimensions → is_non_slab_dim file e = false →
    st.indices.getD e 0 = idx0.getD e 0
  bounds : ∀ e, d ≤ e → e < file.n_file_dimensions → is_non_slab_dim file e = true →
    0 ≤ st.indices.getD e 0 ∧ st.indices.getD e 0 < file.sizes_in_file.getD e 0
  n_done : st.n_done = cursor_value file (fun e => st.indices.getD e 0) d
  value : cursor_value file (fun e => st.indices.getD e 0) d +
      (if st.increment = true then total_from file d else 0) =
    cursor_value file (fun e => idx0.getD e 0) d + 1

/-- The session after `k` calls of `input_more_minc_file`. -/
def input_more_iterate (miicv_get_fails : List Int → List Int → Bool) :
    Nat → minc_file_struct → minc_file_struct
  | 0, file => file
  | k + 1, file =>
    (input_more_minc_file miicv_get_fails (input_more_iterate miicv_get_fails k file)).file

/-! ## One traversal of the current volume -/

/-- The voxel with file coordinates `x` lies in the index space of the matched
dimensions: `0 <= x d < sizes_in_file[d]` for every matched file dimension. -/
def in_index_space (file : minc_file_struct) (x : Nat → Int) : Prop :=
  ∀ d, d < file.n_file_dimensions → is_matched file d = true →
    0 ≤ x d ∧ x d < file.sizes_in_file.getD d 0

/-- The voxel with file coordinates `x` lies in the read window
`w = (start, count)`: `start[d] <= x d < start[d] + count[d]` for every matched
file dimension. -/
def in_window (file : minc_file_struct) (w : List Int × List Int) (x : Nat → Int) : Prop :=
  ∀ d, d < file.n_file_dimensions → is_matched file d = true →
    w.1.getD d 0 ≤ x d ∧ x d < w.1.getD d 0 + w.2.getD d 0

/-- The number of elements that one slab read `w = (start, count)` transfers:
the product of its count vector. -/
def window_elements (w : List Int × List Int) : Int :=
  w.2.prod

/-- One traversal of the current volume: `input_more_minc_file` is called until
it returns FALSE, at most `fuel` times.  The result is the list of the read
windows, in call order, and whether a call returned FALSE. -/
def traverse_volume (miicv_get_fails : List Int → List Int → Bool) :
    Nat → minc_file_struct → List (List Int × List Int) × Bool
  | 0, _ => ([], false)
  | fuel + 1, file =>
    let o := input_more_minc_file miicv_get_fails file
    let rest : List (List Int × List Int) × Bool :=
      if o.more = true then traverse_volume miicv_get_fails fuel o.file else ([], true)
    (o.window.toList ++ rest.1, rest.2)

/-- A file whose innermost dimension has length 1: `xspace` of length 5,
`yspace` of length 20000, `zspace` of length 1. -/
def thinFileDims : List (String × Int) :=
  [("xspace", 5), ("yspace", 20000), ("zspace", 1)]

/-- The session that opening `thinFileDims` for `exampleVolume` produces. -/
def thinSession : minc_file_struct where
  volume := { dimension_names := ["zspace", "yspace", "xspace"], sizes := [1, 20000, 5],
              is_cached_volume := false }
  n_file_dimensions := 3
  sizes_in_file := [5, 20000, 1]
  dim_names := ["xspace", "yspace", "zspace"]
  to_volume_index := [2, 1, 0]
  to_file_index := [2, 1, 0]
  valid_file_axes := [0, 1, 2]
  n_volumes_in_file := 1
  indices := [0, 0, 0]
  end_volume_flag := false
  n_slab_dims := 2
  converting_to_colour := false
  rgba_indices := []

/-- Every binding recorded in `to_volume_index` pairs a volume dimension with a
file dimension of the same name. -/
def ExactBindings (vn fn : List String) (st : MatchState) : Prop :=
  ∀ j i : Nat, j < fn.length → i < vn.length →
    st.to_volume_index.getD j INVALID_AXIS = (i : Int) → vn.getD i "" = fn.getD j ""


/-! ## Stacked volumes -/

/-- The session after `k` calls of `advance_input_volume`. -/
def advance_iterate : Nat → minc_file_struct → minc_file_struct
  | 0, file => file
  | k + 1, file => (advance_input_volume (advance_iterate k file)).1

/-- The file of the session has exactly one unmatched dimension, `d0`, of
length `len`; the first `get_volume_n_dimensions` entries of `valid_file_axes`
name other dimensions, and the cursor has one entry per file dimension. -/
structure SingleStack (file : minc_file_struct) (d0 : Nat) (len : Int) : Prop where
  hd0 : d0 < file.n_file_dimensions
  unmatched : file.to_volume_index.getD d0 INVALID_AXIS = INVALID_AXIS
  others : ∀ d, d < file.n_file_dimensions → d ≠ d0 →
    file.to_volume_index.getD d INVALID_AXIS ≠ INVALID_AXIS
  size : file.sizes_in_file.getD d0 0 = len
  axes : ∀ ind, ind < get_volume_n_dimensions file.volume →
    file.valid_file_axes.getD ind 0 ≠ d0
  idx_len : file.indices.length = file.n_file_dimensions


/-! ## Type and range negotiation (`input_mnc.c`, lines 378-524) -/

/-- The netCDF type codes; `NC_UNSPECIFIED` stands for "no type". -/
inductive nc_type where
  | NC_UNSPECIFIED
  | NC_BYTE
  | NC_CHAR
  | NC_SHORT
  | NC_LONG
  | NC_FLOAT
  | NC_DOUBLE
deriving DecidableEq

/-- What the storage engine reports about the image variable: its stored type
(`ncvarinq`) and the results of the attribute reads.  `signtype` is `none` when
`miattgetstr` returns NULL; `valid_range` is `none` when `miattget` returns
`MI_ERROR` and otherwise lists the attribute's values (their number is the
`length` the call reports); `valid_min` and `valid_max` are `none` when
`miattget1` returns `MI_ERROR`. -/
structure ImageAttributes where
  file_datatype : nc_type
  signtype : Option String
  valid_range : Option (List ℚ)
  valid_min : Option ℚ
  valid_max : Option ℚ
deriving DecidableEq

/-- The volume functions the negotiator calls; they live outside the source
files, so the negotiator is parametric in them.  `has_no_data_type` is the test
`get_volume_data_type(volume) == NO_DATA_TYPE`. -/
structure VolumeOps (Vol : Type) where
  has_no_data_type : Vol → Bool
  get_volume_nc_data_type : Vol → nc_type × Bool
  set_volume_type : Vol → nc_type → Bool → ℚ → ℚ → Vol
  get_volume_voxel_range : Vol → ℚ × ℚ
  set_volume_voxel_range : Vol → ℚ → ℚ → Vol
  set_volume_real_range : Vol → ℚ → ℚ → Vol

/-- A call that changes the volume's type or ranges, with its arguments. -/
inductive VolumeCall where
  | set_volume_type (nc_data_type : nc_type) (signed_flag : Bool) (voxel_min voxel_max : ℚ)
  | set_volume_voxel_range (voxel_min voxel_max : ℚ)
  | set_volume_real_range (real_min real_max : ℚ)
deriving DecidableEq

/-- The volume together with the calls made on it so far, oldest first. -/
structure VolumeTrace (Vol : Type) where
  volume : Vol
  calls : List VolumeCall

/-- Perform one call on the volume and record it. -/
def VolumeTrace.perform {Vol : Type} (ops : VolumeOps Vol) (t : VolumeTrace Vol)
    (c : VolumeCall) : VolumeTrace Vol :=
  { volume :=
      match c with
      | VolumeCall.set_volume_type ty sg a b => ops.set_volume_type t.volume ty sg a b
      | VolumeCall.set_volume_voxel_range a b => ops.set_volume_voxel_range t.volume a b
      | VolumeCall.set_volume_real_range a b => ops.set_volume_real_range t.volume a b
    calls := t.calls ++ [c] }

/-- The settings of the image conversion variable (`miicv_setint`,
`miicv_setstr`, `miicv_setdbl`) that the negotiator makes. -/
structure ConversionDescriptor where
  icv_type : nc_type
  icv_sign : String
  do_norm : Bool
  do_fillvalue : Bool
  valid_min : ℚ
  valid_max : ℚ
  do_dim_conv : Bool
  fillvalue : Option ℚ
deriving DecidableEq

/-- What the negotiation leaves behind: the volume with the calls made on it,
the chosen type and sign, and the conversion descriptor. -/
structure Negotiation (Vol : Type) where
  trace : VolumeTrace Vol
  converted_type : nc_type
  converted_sign : Bool
  icv : ConversionDescriptor

/-- Lines 378-405: the choice of `converted_type` and `converted_sign`. -/
def decide_type_conversion {Vol : Type} (env : HeaderConstants) (ops : VolumeOps Vol)
    (attrs : ImageAttributes) (converting_to_colour no_volume_data_type : Bool)
    (t : VolumeTrace Vol) : nc_type × Bool × VolumeTrace Vol :=
  if converting_to_colour = true then (nc_type.NC_FLOAT, false, t)
  else if no_volume_data_type = true then
    let converted_sign : Bool :=
      match attrs.signtype with
      | some signed_flag => signed_flag == env.MI_SIGNED
      | none => decide (attrs.file_datatype ≠ nc_type.NC_BYTE)
    (attrs.file_datatype, converted_sign,
      t.perform ops (VolumeCall.set_volume_type attrs.file_datatype converted_sign 0 0))
  else
    ((ops.get_volume_nc_data_type t.volume).1, (ops.get_volume_nc_data_type t.volume).2, t)

/-- The locals `min_voxel_found`, `max_voxel_found` and `valid_range[2]`. -/
structure RangeSearch where
  min_voxel_found : Bool
  max_voxel_found : Bool
  valid_range0 : ℚ
  valid_range1 : ℚ
deriving DecidableEq

/-- Lines 439-467: the reads of the range attributes when the volume has no
data type.  A `miattget` that reports a length other than 2 has stored the
values it read (at most two) in `valid_range`. -/
def read_range_attributes (attrs : ImageAttributes) : RangeSearch :=
  match attrs.valid_range with
  | some [a, b] =>
    if a > b then
      { min_voxel_found := true, max_voxel_found := true, valid_range0 := b, valid_range1 := a }
    else
      { min_voxel_found := true, max_voxel_found := true, valid_range0 := a, valid_range1 := b }
  | other =>
    let stored : ℚ × ℚ :=
      match other with
      | some (a :: b :: _) => (a, b)
      | some [a] => (a, 0)
      | _ => (0, 0)
    { min_voxel_found := attrs.valid_min.isSome
      max_voxel_found := attrs.valid_max.isSome
      valid_range0 := attrs.valid_min.getD stored.1
      valid_range1 := attrs.valid_max.getD stored.2 }

/-- Lines 425-467: the search for the voxel range. -/
def search_voxel_range {Vol : Type} (ops : VolumeOps Vol) (attrs : ImageAttributes)
    (converting_to_colour no_volume_data_type : Bool) (t : VolumeTrace Vol) :
    RangeSearch × VolumeTrace Vol :=
  if converting_to_colour = true then
    ({ min_voxel_found := true, max_voxel_found := true, valid_range0 := 0,
       valid_range1 := 2 * (2 ^ 31 : ℚ) - 1 },
      t.perform ops (VolumeCall.set_volume_voxel_range 0 (2 * (2 ^ 31 : ℚ) - 1)))
  else if no_volume_data_type = true then (read_range_attributes attrs, t)
  else
    ({ min_voxel_found := false, max_voxel_found := false, valid_range0 := 0,
       valid_range1 := 0 }, t)

/-- Lines 469-481: the voxel range is reset and then set from what was
found. -/
def apply_voxel_range {Vol : Type} (ops : VolumeOps Vol)
    (converting_to_colour no_volume_data_type range_specified : Bool) (r : RangeSearch)
    (t : VolumeTrace Vol) : VolumeTrace Vol :=
  if converting_to_colour = false ∧ (no_volume_data_type = true ∨ range_specified = false) then
    let t := t.perform ops (VolumeCall.set_volume_voxel_range 0 0)
    let default_voxel_min := (ops.get_volume_voxel_range t.volume).1
    let default_voxel_max := (ops.get_volume_voxel_range t.volume).2
    if r.min_voxel_found = true ∧ r.max_voxel_found = true then
      t.perform ops (VolumeCall.set_volume_voxel_range r.valid_range0 r.valid_range1)
    else if r.min_voxel_found = true ∧ r.max_voxel_found = false then
      t.perform ops (VolumeCall.set_volume_voxel_range r.valid_range0 default_voxel_max)
    else if r.min_voxel_found = false ∧ r.max_voxel_found = true then
      t.perform ops (VolumeCall.set_volume_voxel_range default_voxel_min r.valid_range0)
    else t
  else t

/-- Lines 378-524 of `initialize_minc_input_from_minc_id`: the negotiation of
type, sign and ranges.  `volume` is the volume as it is when line 378 is
reached, `icv_norm` is the pair that `miicv_inqdbl` reports for
`MI_ICV_NORM_MIN` and `MI_ICV_NORM_MAX` after the attach. -/
def negotiate_conversion {Vol : Type} (env : HeaderConstants) (ops : VolumeOps Vol)
    (attrs : ImageAttributes) (icv_norm : ℚ × ℚ) (options : minc_input_options)
    (converting_to_colour : Bool) (volume : Vol) : Negotiation Vol :=
  let no_volume_data_type : Bool := !converting_to_colour && ops.has_no_data_type volume
  let chosen := decide_type_conversion env ops attrs converting_to_colour no_volume_data_type
    { volume := volume, calls := [] }
  let converted_type := chosen.1
  let converted_sign := chosen.2.1
  let t := chosen.2.2
  let range_specified : Bool :=
    decide ((ops.get_volume_voxel_range t.volume).1 < (ops.get_volume_voxel_range t.volume).2)
  let found := search_voxel_range ops attrs converting_to_colour no_volume_data_type t
  let t := apply_voxel_range ops converting_to_colour no_volume_data_type range_specified
    found.1 found.2
  let valid_range : ℚ × ℚ :=
    if converting_to_colour = false then ops.get_volume_voxel_range t.volume
    else (found.1.valid_range0, found.1.valid_range1)
  let t :=
    if converting_to_colour = false then
      t.perform ops (VolumeCall.set_volume_real_range icv_norm.1 icv_norm.2)
    else t
  { trace := t
    converted_type := converted_type
    converted_sign := converted_sign
    icv :=
      { icv_type := converted_type
        icv_sign := if converted_sign = true then env.MI_SIGNED else env.MI_UNSIGNED
        do_norm := true
        do_fillvalue := true
        valid_min := if converting_to_colour = false then valid_range.1 else 0
        valid_max := if converting_to_colour = false then valid_range.2 else 1
        do_dim_conv := options.convert_vector_to_scalar_flag && !converting_to_colour
        fillvalue :=
          if options.promote_invalid_to_min_flag = true then
            some (if converting_to_colour = false then valid_range.1 else 0)
          else none } }

/-- The arguments of the last `set_volume_voxel_range` call, if there is one:
the voxel range that was handed to the volume. -/
def last_voxel_range_set (calls : List VolumeCall) : Option (ℚ × ℚ) :=
  calls.foldl
    (fun acc c =>
      match c with
      | VolumeCall.set_volume_voxel_range a b => some (a, b)
      | _ => acc)
    none

/-! ## The valid range of `libsrc2/volume.c` -/

/-- The values of `<limits.h>` and `<float.h>` that `volume.c` uses. -/
structure LimitsH where
  CHAR_MIN : ℚ
  CHAR_MAX : ℚ
  SHRT_MIN : ℚ
  SHRT_MAX : ℚ
  INT_MIN : ℚ
  INT_MAX : ℚ
  UCHAR_MAX : ℚ
  USHRT_MAX : ℚ
  UINT_MAX : ℚ
  FLT_MAX : ℚ
  DBL_MAX : ℚ

/-- What the C standard guarantees about the limits: every minimum is below its
maximum, and the unsigned and floating maxima are positive. -/
def LimitsH.conforming (l : LimitsH) : Prop :=
  l.CHAR_MIN < l.CHAR_MAX ∧ l.SHRT_MIN < l.SHRT_MAX ∧ l.INT_MIN < l.INT_MAX ∧
  0 < l.UCHAR_MAX ∧ 0 < l.USHRT_MAX ∧ 0 < l.UINT_MAX ∧ 0 < l.FLT_MAX ∧ 0 < l.DBL_MAX

/-- Modelled from the spec: the limits of a platform with 8-bit signed `char`,
16-bit `short`, 32-bit `int` and IEEE single and double precision, which gives
the single-byte unsigned range `[0,255]` of the scenarios; `<limits.h>` and
`<float.h>` are not part of the source files. -/
def standardLimits : LimitsH where
  CHAR_MIN := -128
  CHAR_MAX := 127
  SHRT_MIN := -32768
  SHRT_MAX := 32767
  INT_MIN := -2147483648
  INT_MAX := 2147483647
  UCHAR_MAX := 255
  USHRT_MAX := 65535
  UINT_MAX := 4294967295
  FLT_MAX := (2 ^ 24 - 1) * 2 ^ 104
  DBL_MAX := (2 ^ 53 - 1) * 2 ^ 971

/-- The enumeration `mitype_t`, as `micreate_volume` lists it. -/
inductive mitype_t where
  | MI_TYPE_BYTE
  | MI_TYPE_CHAR
  | MI_TYPE_SHORT
  | MI_TYPE_INT
  | MI_TYPE_FLOAT
  | MI_TYPE_DOUBLE
  | MI_TYPE_STRING
  | MI_TYPE_UBYTE
  | MI_TYPE_USHORT
  | MI_TYPE_UINT
  | MI_TYPE_SCOMPLEX
  | MI_TYPE_ICOMPLEX
  | MI_TYPE_FCOMPLEX
  | MI_TYPE_DCOMPLEX
  | MI_TYPE_UNKNOWN
deriving DecidableEq

/-- The two outputs `*valid_max` and `*valid_min` of the range functions. -/
structure ValidRange where
  valid_max : ℚ
  valid_min : ℚ
deriving DecidableEq

/-- The function `miinit_default_range`. -/
def miinit_default_range (limits : LimitsH) (mitype : mitype_t) : ValidRange :=
  match mitype with
  | mitype_t.MI_TYPE_BYTE => { valid_min := limits.CHAR_MIN, valid_max := limits.CHAR_MAX }
  | mitype_t.MI_TYPE_SHORT => { valid_min := limits.SHRT_MIN, valid_max := limits.SHRT_MAX }
  | mitype_t.MI_TYPE_INT => { valid_min := limits.INT_MIN, valid_max := limits.INT_MAX }
  | mitype_t.MI_TYPE_UBYTE => { valid_min := 0, valid_max := limits.UCHAR_MAX }
  | mitype_t.MI_TYPE_USHORT => { valid_min := 0, valid_max := limits.USHRT_MAX }
  | mitype_t.MI_TYPE_UINT => { valid_min := 0, valid_max := limits.UINT_MAX }
  | mitype_t.MI_TYPE_FLOAT => { valid_min := -limits.FLT_MAX, valid_max := limits.FLT_MAX }
  | mitype_t.MI_TYPE_DOUBLE => { valid_min := -limits.DBL_MAX, valid_max := limits.DBL_MAX }
  | _ => { valid_min := 0, valid_max := 1 }

/-- The function `miread_valid_range`.  `valid_range` is the pair `range[0]`,
`range[1]` when `miget_attribute` reads the two values of `valid_range`
(`r == MI_NOERROR`), and `none` otherwise. -/
def miread_valid_range (limits : LimitsH) (valid_range : Option (ℚ × ℚ))
    (volume_type : mitype_t) : ValidRange :=
  match valid_range with
  | some (range0, range1) =>
    if range0 < range1 then { valid_min := range0, valid_max := range1 }
    else { valid_min := range1, valid_max := range0 }
  | none => miinit_default_range limits volume_type

/-! ## A volume for the examples -/

/-- Modelled from the spec: a volume that records its type, sign and ranges.
The volume code is not part of the source files. -/
structure SimpleVolume where
  nc_data_type : nc_type
  signed_flag : Bool
  voxel_min : ℚ
  voxel_max : ℚ
  real_range : Option (ℚ × ℚ)
deriving DecidableEq

/-- Modelled from the spec: the natural bounds of a type (§4.3 (c)), on the
platform of `standardLimits`. -/
def natural_range (t : nc_type) (signed_flag : Bool) : ℚ × ℚ :=
  match t, signed_flag with
  | nc_type.NC_BYTE, false => (0, 255)
  | nc_type.NC_BYTE, true => (-128, 127)
  | nc_type.NC_SHORT, false => (0, 65535)
  | nc_type.NC_SHORT, true => (-32768, 32767)
  | nc_type.NC_LONG, false => (0, 4294967295)
  | nc_type.NC_LONG, true => (-2147483648, 2147483647)
  | nc_type.NC_FLOAT, _ => (-standardLimits.FLT_MAX, standardLimits.FLT_MAX)
  | nc_type.NC_DOUBLE, _ => (-standardLimits.DBL_MAX, standardLimits.DBL_MAX)
  | _, _ => (0, 0)

/-- Modelled from the spec: the volume functions on a `SimpleVolume`.  A voxel
range that is handed over empty (`min >= max`) is replaced by the natural
bounds of the volume's type; this is the "default" range a reset to `(0,0)`
leaves behind. -/
def simpleVolumeOps : VolumeOps SimpleVolume where
  has_no_data_type := fun v => decide (v.nc_data_type = nc_type.NC_UNSPECIFIED)
  get_volume_nc_data_type := fun v => (v.nc_data_type, v.signed_flag)
  set_volume_type := fun v t s a b =>
    { v with
      nc_data_type := t
      signed_flag := s
      voxel_min := if a ≥ b then (natural_range t s).1 else a
      voxel_max := if a ≥ b then (natural_range t s).2 else b }
  get_volume_voxel_range := fun v => (v.voxel_min, v.voxel_max)
  set_volume_voxel_range := fun v a b =>
    { v with
      voxel_min := if a ≥ b then (natural_range v.nc_data_type v.signed_flag).1 else a
      voxel_max := if a ≥ b then (natural_range v.nc_data_type v.signed_flag).2 else b }
  set_volume_real_range := fun v a b => { v with real_range := some (a, b) }


/-! ## The stores of `input_slab` into `volume_start` -/

/-- Lines 905-915 of `input_slab`: the stores into the local array
`volume_start[MAX_VAR_DIMS]`, in the order in which the loop makes them.  Each
entry is the index used and the value stored: `volume_start[ind] =
file_start[file_ind]` when `ind != INVALID_AXIS`, and `volume_start[ind] = 0`
otherwise. -/
def volume_start_stores (n_file_dimensions : Nat) (to_volume start : List Int) :
    List (Int × Int) :=
  (List.range n_file_dimensions).foldl
    (fun stores file_ind =>
      let ind := to_volume.getD file_ind INVALID_AXIS
      if ind ≠ INVALID_AXIS then stores ++ [(ind, start.getD file_ind 0)]
      else stores ++ [(ind, 0)])
    []

/-! ## Sequences of calls on a session -/

/-- A call of `input_more_minc_file` (with the behaviour of the storage reads
it issues) or of `advance_input_volume`. -/
inductive SessionCall where
  | more (miicv_get_fails : List Int → List Int → Bool)
  | advance

/-- What a call hands back to its caller: for `input_more_minc_file` the
returned flag, the value stored in `*fraction_done` and the window read; for
`advance_input_volume` the returned flag. -/
inductive CallResult where
  | more (more : Bool) (fraction_done : Option ℚ) (window : Option (List Int × List Int))
  | advance (returned : Bool)
deriving DecidableEq

/-- One call on the session: the session afterwards and what the call handed
back. -/
def perform_call (file : minc_file_struct) : SessionCall → minc_file_struct × CallResult
  | SessionCall.more miicv_get_fails =>
    let o := input_more_minc_file miicv_get_fails file
    (o.file, CallResult.more o.more o.fraction_done o.window)
  | SessionCall.advance =>
    let r := advance_input_volume file
    (r.1, CallResult.advance r.2)

/-- A sequence of calls on the session, first call first: the session
afterwards and the results in call order. -/
def run_calls : List SessionCall → minc_file_struct → minc_file_struct × List CallResult
  | [], file => (file, [])
  | c :: cs, file =>
    let r := perform_call file c
    let rest := run_calls cs r.1
    (rest.1, r.2 :: rest.2)

/-! ## The dimension-count checks of the open -/

/-- The function `initialize_minc_input_from_minc_id` with the function called
at line 204 (`match_dimension_names`) as a parameter; everything else is as in
`initialize_minc_input_from_minc_id`. -/
def initialize_with_matcher (env : HeaderConstants)
    (matcher : List String → List String → MatchResult)
    (file_dims : List (String × Int)) (volume : Volume)
    (options : Option minc_input_options) : Option minc_file_struct :=
  let options := options.getD set_default_minc_input_options
  let all_names := file_dims.map Prod.fst
  let sizes_in_file := file_dims.map Prod.snd
  match vector_dimension_step env all_names sizes_in_file options with
  | none => none
  | some (n_file_dimensions, converting_to_colour) =>
    let dim_names := all_names.take n_file_dimensions
    let n_vol_dims := get_volume_n_dimensions volume
    if n_file_dimensions < n_vol_dims then none
    else if n_file_dimensions > env.MAX_VAR_DIMS then none
    else
      let m := matcher volume.dimension_names dim_names
      if m.matched = false then none
      else
        some
          { volume :=
              { volume with
                dimension_names := m.volume_dimension_names
                sizes := compute_volume_sizes n_vol_dims n_file_dimensions
                  m.to_volume_index sizes_in_file }
            n_file_dimensions := n_file_dimensions
            sizes_in_file := sizes_in_file
            dim_names := dim_names
            to_volume_index := m.to_volume_index
            to_file_index := build_to_file_index n_vol_dims n_file_dimensions m.to_volume_index
            valid_file_axes := (build_valid_file_axes n_file_dimensions m.to_volume_index).1
            n_volumes_in_file :=
              compute_n_volumes_in_file n_file_dimensions m.to_volume_index sizes_in_file
            indices := List.replicate n_file_dimensions 0
            end_volume_flag := false
            n_slab_dims := compute_n_slab_dims n_file_dimensions m.to_volume_index sizes_in_file
            converting_to_colour := converting_to_colour
            rgba_indices := if converting_to_colour then options.rgba_indices else [] }

/-- The lengths `s_1, s_2, ...` of the matched file dimensions among the first
`d` file dimensions, listed from the innermost (last) to the outermost. -/
def matched_lengths (to_volume_index sizes_in_file : List Int) : Nat → List Int
  | 0 => []
  | d + 1 =>
    if to_volume_index.getD d INVALID_AXIS ≠ INVALID_AXIS then
      sizes_in_file.getD d 0 :: matched_lengths to_volume_index sizes_in_file d
    else matched_lengths to_volume_index sizes_in_file d


/-! ## The stack position as a mixed-radix number -/

/-- The number of combinations of the unmatched indices among the first `d`
file dimensions: the product of the lengths of the unmatched dimensions. -/
def stack_total (to_volume_index sizes_in_file : List Int) : Nat → Int
  | 0 => 1
  | d + 1 =>
    if to_volume_index.getD d INVALID_AXIS = INVALID_AXIS then
      sizes_in_file.getD d 0 * stack_total to_volume_index sizes_in_file d
    else stack_total to_volume_index sizes_in_file d

/-- The unmatched entries of the cursor `x` among the first `d` file dimensions,
read as a mixed-radix number: the innermost (last) unmatched dimension is the
least significant digit and the radix of a digit is the length of its
dimension. -/
def stack_position (to_volume_index sizes_in_file : List Int) (x : Nat → Int) : Nat → Int
  | 0 => 0
  | d + 1 =>
    if to_volume_index.getD d INVALID_AXIS = INVALID_AXIS then
      x d + sizes_in_file.getD d 0 * stack_position to_volume_index sizes_in_file x d
    else stack_position to_volume_index sizes_in_file x d

/-- The cursor `idx` has one entry per file dimension and its entry for every
unmatched file dimension `d` lies in `[0, sizes_in_file[d])`. -/
def StackInBounds (file : minc_file_struct) (idx : List Int) : Prop :=
  idx.length = file.n_file_dimensions ∧
  ∀ d, d < file.n_file_dimensions →
    file.to_volume_index.getD d INVALID_AXIS = INVALID_AXIS →
    0 ≤ idx.getD d 0 ∧ idx.getD d 0 < file.sizes_in_file.getD d 0


/-- A file that stacks volumes along two unmatched dimensions of length 70000. -/
def wideStackFileDims : List (String × Int) :=
  [("time", 70000), ("echo", 70000), ("xspace", 10), ("yspace", 10), ("zspace", 10)]

/-- A volume with the single dimension `xspace`. -/
def lineVolume : Volume where
  dimension_names := ["xspace"]
  sizes := [0]
  is_cached_volume := false

/-- A file with the unmatched dimensions `time` of length 3 and `echo` of
length 0, and the dimension `xspace` of length 4. -/
def emptyStackFileDims : List (String × Int) :=
  [("time", 3), ("echo", 0), ("xspace", 4)]

/-- The session that opening `emptyStackFileDims` for `lineVolume` produces. -/
def emptyStackSession : minc_file_struct where
  volume := { dimension_names := ["xspace"], sizes := [4], is_cached_volume := false }
  n_file_dimensions := 3
  sizes_in_file := [3, 0, 4]
  dim_names := ["time", "echo", "xspace"]
  to_volume_index := [-1, -1, 0]
  to_file_index := [2]
  valid_file_axes := [2, 0, 0]
  n_volumes_in_file := 0
  indices := [0, 0, 0]
  end_volume_flag := false
  n_slab_dims := 1
  converting_to_colour := false
  rgba_indices := []

/-! ## Assignments of volume dimensions to file dimensions -/

/-- The pair of a volume dimension name and a file dimension name satisfies one
of the three rules: the names are equal; the volume name is
`ANY_SPATIAL_DIMENSION` and the file name is a recognised spatial axis name;
the volume name is empty. -/
def pair_allowed (env : HeaderConstants) (volume_name file_name : String) : Prop :=
  volume_name = file_name ∨
  (volume_name = env.ANY_SPATIAL_DIMENSION ∧
    env.convert_dim_name_to_spatial_axis file_name = true) ∨
  volume_name.length = 0

/-- The map `assign` sends every volume dimension to a file dimension, no two
to the same one, every pair satisfies one of the three rules, and `assign`
agrees with the bindings that the matcher state `st` has made. -/
structure Extends (env : HeaderConstants) (vn fn : List String) (assign : Nat → Nat)
    (st : MatchState) : Prop where
  range : ∀ i, i < vn.length → assign i < fn.length
  inj : ∀ i k, i < vn.length → k < vn.length → assign i = assign k → i = k
  ok : ∀ i, i < vn.length → pair_allowed env (vn.getD i "") (fn.getD (assign i) "")
  agree : ∀ i, i < vn.length → st.volume_dim_found.getD i false = true →
    st.to_file_index.getD i (-1) = (assign i : Int)

/-- In the state `st` no unfound volume dimension matches an unbound file
dimension by the rule of pass `iteration`. -/
def Saturated (env : HeaderConstants) (vn fn : List String) (iteration : Nat)
    (st : MatchState) : Prop :=
  ∀ i j, i < vn.length → j < fn.length → st.volume_dim_found.getD i false = false →
    st.to_volume_index.getD j INVALID_AXIS = INVALID_AXIS →
    dims_match env iteration (vn.getD i "") (fn.getD j "") = false

/-- The state `st2` is `st1` after further bindings: found volume dimensions
stay found and bound file dimensions stay bound. -/
def Later (F : Nat) (st1 st2 : MatchState) : Prop :=
  (∀ i, st1.volume_dim_found.getD i false = true →
    st2.volume_dim_found.getD i false = true) ∧
  (∀ j, j < F → st2.to_volume_index.getD j INVALID_AXIS = INVALID_AXIS →
    st1.to_volume_index.getD j INVALID_AXIS = INVALID_AXIS)


/-! ## Lists as arrays -/

theorem getD_set_self {α : Type} (l : List α) (i : Nat) (a d : α) (h : i < l.length) :
    (l.set i a).getD i d = a := by
  simp [List.getD_eq_getElem?_getD, List.getElem?_set, h]

theorem getD_set_of_ne {α : Type} (l : List α) (i j : Nat) (a d : α) (h : i ≠ j) :
    (l.set i a).getD j d = l.getD j d := by
  simp [List.getD_eq_getElem?_getD, List.getElem?_set, h]

theorem getD_replicate_lt {α : Type} (n i : Nat) (a d : α) (h : i < n) :
    (List.replicate n a).getD i d = a := by
  simp [List.getD_eq_getElem?_getD, List.getElem?_replicate, h]

theorem count_set_true (l : List Bool) (i : Nat) (h : i < l.length)
    (hf : l.getD i false = false) :
    (l.set i true).count true = l.count true + 1 := by
  induction l generalizing i with
  | nil => simp at h
  | cons b t ih =>
    cases i with
    | zero =>
      simp at hf
      subst hf
      simp
    | succ k =>
      have h1 : k < t.length := by simpa using h
      have h2 : t.getD k false = false := by simpa using hf
      have := ih k h1 h2
      simp only [List.set_cons_succ, List.count_cons, this]
      omega

theorem all_true_of_count (l : List Bool) (h : l.count true = l.length) (i : Nat)
    (hi : i < l.length) : l.getD i false = true := by
  rw [List.count_eq_length] at h
  have := h (l[i]) (List.getElem_mem hi)
  simp [List.getD_eq_getElem?_getD, List.getElem?_eq_getElem hi]
  exact this.symm

/-! ## The dimension matcher -/

theorem match_init_inv (V F : Nat) : MatchInv V F (match_init V F) := by
  refine ⟨by simp [match_init], by simp [match_init], by simp [match_init], ?_, ?_, ?_⟩
  · intro j hj
    left
    simp [match_init, getD_replicate_lt _ _ _ _ hj]
  · intro i hi h
    simp [match_init, getD_replicate_lt _ _ _ _ hi] at h
  · simp [match_init, List.count_replicate]

theorem match_update_inv {V F : Nat} {st : MatchState} (h : MatchInv V F st) {i j : Nat}
    (hi : i < V) (hj : j < F) (hfound : st.volume_dim_found.getD i false = false)
    (hfree : st.to_volume_index.getD j INVALID_AXIS = INVALID_AXIS) :
    MatchInv V F
      { to_volume_index := st.to_volume_index.set j (i : Int)
        to_file_index := st.to_file_index.set i (j : Int)
        volume_dim_found := st.volume_dim_found.set i true
        n_matches := st.n_matches + 1 } := by
  have hlt := h.len_tvi
  have hlf := h.len_tfi
  have hlb := h.len_found
  refine ⟨by simp [hlt], by simp [hlf], by simp [hlb], ?_, ?_, ?_⟩
  · intro j2 hj2
    by_cases e : j = j2
    · subst e
      right
      refine ⟨i, hi, ?_, ?_, ?_⟩
      · exact getD_set_self _ _ _ _ (by omega)
      · exact getD_set_self _ _ _ _ (by omega)
      · exact getD_set_self _ _ _ _ (by omega)
    · simp only [getD_set_of_ne _ _ _ _ _ e]
      rcases h.fwd j2 hj2 with h1 | ⟨i2, hi2, h1, h2, h3⟩
      · exact Or.inl h1
      · right
        have ne : i ≠ i2 := by
          intro e2
          subst e2
          rw [hfound] at h2
          exact Bool.noConfusion h2
        exact ⟨i2, hi2, h1, by rw [getD_set_of_ne _ _ _ _ _ ne]; exact h2,
          by rw [getD_set_of_ne _ _ _ _ _ ne]; exact h3⟩
  · intro i2 hi2 hf2
    by_cases e : i = i2
    · subst e
      exact ⟨j, hj, getD_set_self _ _ _ _ (by omega), getD_set_self _ _ _ _ (by omega)⟩
    · simp only [getD_set_of_ne _ _ _ _ _ e] at hf2 ⊢
      obtain ⟨j2, hj2, h1, h2⟩ := h.bwd i2 hi2 hf2
      have ne : j ≠ j2 := by
        intro e2
        subst e2
        rw [hfree] at h2
        simp [INVALID_AXIS] at h2
      exact ⟨j2, hj2, h1, by rw [getD_set_of_ne _ _ _ _ _ ne]; exact h2⟩
  · simp only
    rw [count_set_true _ _ (by omega) hfound, h.cnt]
    push_cast
    ring

theorem match_file_loop_inv (env : HeaderConstants) (iteration i : Nat)
    (vn fn : List String) {V F : Nat} (hi : i < V) (j : Nat) (hj : j ≤ F)
    (st : MatchState) (h : MatchInv V F st)
    (hfound : st.volume_dim_found.getD i false = false) :
    MatchInv V F (match_file_loop env iteration i vn fn j st) := by
  induction j with
  | zero => simpa [match_file_loop] using h
  | succ k ih =>
    unfold match_file_loop
    split
    · rename_i hc
      exact match_update_inv h hi (by omega) hfound hc.1
    · exact ih (by omega)

theorem match_volume_loop_inv (env : HeaderConstants) (iteration : Nat)
    (vn fn : List String) {V : Nat} (i : Nat) (hi : i ≤ V)
    (st : MatchState) (h : MatchInv V fn.length st) :
    MatchInv V fn.length (match_volume_loop env iteration vn fn i st) := by
  induction i generalizing st with
  | zero => simpa [match_volume_loop] using h
  | succ k ih =>
    unfold match_volume_loop
    apply ih (by omega)
    split
    · rename_i hc
      exact match_file_loop_inv env iteration k vn fn (by omega) _ (le_refl _) st h hc
    · exact h

theorem match_passes_inv (env : HeaderConstants) (vn fn : List String) :
    MatchInv vn.length fn.length (match_passes env vn fn) := by
  unfold match_passes
  simp only [List.range_succ, List.range_zero, List.nil_append, List.cons_append,
    List.foldl_cons, List.foldl_nil]
  exact match_volume_loop_inv env _ vn fn _ (le_refl _) _
    (match_volume_loop_inv env _ vn fn _ (le_refl _) _
      (match_volume_loop_inv env _ vn fn _ (le_refl _) _ (match_init_inv _ _)))

theorem match_found_all (env : HeaderConstants) (vn fn : List String)
    (h : (match_dimension_names env vn fn).matched = true) (i : Nat) (hi : i < vn.length) :
    (match_passes env vn fn).volume_dim_found.getD i false = true := by
  have inv := match_passes_inv env vn fn
  simp only [match_dimension_names, decide_eq_true_eq] at h
  rw [inv.cnt] at h
  have hc : (match_passes env vn fn).volume_dim_found.count true
      = (match_passes env vn fn).volume_dim_found.length := by
    rw [inv.len_found]
    exact_mod_cast h
  exact all_true_of_count _ hc i (by rw [inv.len_found]; exact hi)

theorem match_forward_map_aux (env : HeaderConstants) (vn fn : List String)
    (h : (match_dimension_names env vn fn).matched = true) :
    (match_dimension_names env vn fn).to_volume_index.length = fn.length ∧
    (∀ j, j < fn.length →
      (match_dimension_names env vn fn).to_volume_index.getD j INVALID_AXIS = INVALID_AXIS ∨
      (0 ≤ (match_dimension_names env vn fn).to_volume_index.getD j INVALID_AXIS ∧
        (match_dimension_names env vn fn).to_volume_index.getD j INVALID_AXIS
          < (vn.length : Int))) ∧
    (∀ v, v < vn.length → ∃! j, j < fn.length ∧
      (match_dimension_names env vn fn).to_volume_index.getD j INVALID_AXIS = (v : Int)) := by
  have inv := match_passes_inv env vn fn
  have hall := match_found_all env vn fn h
  have e : (match_dimension_names env vn fn).to_volume_index
      = (match_passes env vn fn).to_volume_index := rfl
  rw [e]
  refine ⟨inv.len_tvi, ?_, ?_⟩
  · intro j hj
    rcases inv.fwd j hj with h1 | ⟨i, hi, h1, _, _⟩
    · exact Or.inl h1
    · right
      rw [h1]
      constructor
      · exact Int.natCast_nonneg i
      · exact_mod_cast hi
  · intro v hv
    obtain ⟨j, hj, h1, h2⟩ := inv.bwd v hv (hall v hv)
    refine ⟨j, ⟨hj, h2⟩, ?_⟩
    rintro j2 ⟨hj2, h3⟩
    rcases inv.fwd j2 hj2 with h4 | ⟨i, hi, h4, _, h5⟩
    · rw [h4] at h3
      simp [INVALID_AXIS] at h3
    · rw [h4] at h3
      have : i = v := by exact_mod_cast h3
      subst this
      rw [h1] at h5
      exact_mod_cast h5.symm

/-- C1: whenever `match_dimension_names` returns TRUE, every entry of
`to_volume_index[0..F)` is `INVALID_AXIS` or a volume index in `[0,V)`, and
every volume index in `[0,V)` occurs in exactly one entry. -/
theorem match_dimension_names_forward_map (env : HeaderConstants) (vn fn : List String)
    (h : (match_dimension_names env vn fn).matched = true) :
    (match_dimension_names env vn fn).to_volume_index.length = fn.length ∧
    (∀ j, j < fn.length →
      (match_dimension_names env vn fn).to_volume_index.getD j INVALID_AXIS = INVALID_AXIS ∨
      (0 ≤ (match_dimension_names env vn fn).to_volume_index.getD j INVALID_AXIS ∧
        (match_dimension_names env vn fn).to_volume_index.getD j INVALID_AXIS
          < (vn.length : Int))) ∧
    (∀ v, v < vn.length → ∃! j, j < fn.length ∧
      (match_dimension_names env vn fn).to_volume_index.getD j INVALID_AXIS = (v : Int)) :=
  match_forward_map_aux env vn fn h

theorem match_dimension_names_forward_map_witness :
    (match_dimension_names standardHeaders ["zspace", "yspace", "xspace"]
      ["xspace", "yspace", "zspace"]).matched = true ∧
    (match_dimension_names standardHeaders ["zspace", "yspace", "xspace"]
      ["xspace", "yspace", "zspace"]).to_volume_index.length = 3 :=
  ⟨by decide, (match_dimension_names_forward_map standardHeaders _ _ (by decide)).1⟩

/-! ## What a successful open establishes -/

theorem vector_dimension_step_le (env : HeaderConstants) (names : List String)
    (sizes : List Int) (options : minc_input_options) (n : Nat) (c : Bool)
    (h : vector_dimension_step env names sizes options = some (n, c)) :
    n ≤ names.length := by
  unfold vector_dimension_step at h
  simp only at h
  split at h
  · split at h
    · split at h
      · exact Option.noConfusion h
      · simp only [Option.some.injEq, Prod.mk.injEq] at h
        omega
    · split at h
      · simp only [Option.some.injEq, Prod.mk.injEq] at h
        omega
      · simp only [Option.some.injEq, Prod.mk.injEq] at h
        omega
  · simp only [Option.some.injEq, Prod.mk.injEq] at h
    omega

theorem initialize_spec (env : HeaderConstants) (file_dims : List (String × Int))
    (volume : Volume) (options : Option minc_input_options) (file : minc_file_struct)
    (h : initialize_minc_input_from_minc_id env file_dims volume options = some file) :
    (∃ c, vector_dimension_step env (file_dims.map Prod.fst) (file_dims.map Prod.snd)
        (options.getD set_default_minc_input_options) = some (file.n_file_dimensions, c)) ∧
    file.dim_names = (file_dims.map Prod.fst).take file.n_file_dimensions ∧
    file.dim_names.length = file.n_file_dimensions ∧
    file.sizes_in_file = file_dims.map Prod.snd ∧
    get_volume_n_dimensions volume ≤ file.n_file_dimensions ∧
    file.n_file_dimensions ≤ env.MAX_VAR_DIMS ∧
    (match_dimension_names env volume.dimension_names file.dim_names).matched = true ∧
    file.to_volume_index =
      (match_dimension_names env volume.dimension_names file.dim_names).to_volume_index ∧
    file.to_file_index = build_to_file_index (get_volume_n_dimensions volume)
      file.n_file_dimensions file.to_volume_index ∧
    file.valid_file_axes =
      (build_valid_file_axes file.n_file_dimensions file.to_volume_index).1 ∧
    file.n_volumes_in_file = compute_n_volumes_in_file file.n_file_dimensions
      file.to_volume_index file.sizes_in_file ∧
    file.indices = List.replicate file.n_file_dimensions 0 ∧
    file.end_volume_flag = false ∧
    file.n_slab_dims = compute_n_slab_dims file.n_file_dimensions file.to_volume_index
      file.sizes_in_file ∧
    file.volume.is_cached_volume = volume.is_cached_volume := by
  unfold initialize_minc_input_from_minc_id at h
  simp only at h
  split at h
  · exact Option.noConfusion h
  · rename_i n c hv
    have hn := vector_dimension_step_le env _ _ _ n c hv
    split at h
    · exact Option.noConfusion h
    · split at h
      · exact Option.noConfusion h
      · split at h
        · exact Option.noConfusion h
        · rename_i h1 h2 h3
          simp only [Option.some.injEq] at h
          subst h
          simp only [Bool.not_eq_false] at h3
          refine ⟨⟨c, hv⟩, rfl, ?_, rfl, ?_, ?_, h3, rfl, rfl, rfl, rfl, rfl, rfl,
            rfl, rfl⟩
          · simp only [List.length_take]
            omega
          · show get_volume_n_dimensions volume ≤ n
            omega
          · show n ≤ env.MAX_VAR_DIMS
            omega

theorem foldl_range_succ {β : Type} (f : β → Nat → β) (b : β) (n : Nat) :
    (List.range (n + 1)).foldl f b = f ((List.range n).foldl f b) n := by
  simp [List.range_succ, List.foldl_append]

theorem build_to_file_index_spec (V F : Nat) (tvi : List Int)
    (hrange : ∀ j, j < F → tvi.getD j INVALID_AXIS = INVALID_AXIS ∨
      (0 ≤ tvi.getD j INVALID_AXIS ∧ tvi.getD j INVALID_AXIS < (V : Int)))
    (hinj : ∀ d e, d < F → e < F → tvi.getD d INVALID_AXIS ≠ INVALID_AXIS →
      tvi.getD d INVALID_AXIS = tvi.getD e INVALID_AXIS → d = e)
    (n : Nat) (hn : n ≤ F) :
    (build_to_file_index V n tvi).length = V ∧
    ∀ d, d < n → tvi.getD d INVALID_AXIS ≠ INVALID_AXIS →
      (build_to_file_index V n tvi).getD (tvi.getD d INVALID_AXIS).toNat INVALID_AXIS
        = (d : Int) := by
  induction n with
  | zero =>
    refine ⟨by simp [build_to_file_index], ?_⟩
    intro d hd
    omega
  | succ k ih =>
    obtain ⟨hlen, hget⟩ := ih (by omega)
    have step : build_to_file_index V (k + 1) tvi =
        if tvi.getD k INVALID_AXIS ≠ INVALID_AXIS then
          (build_to_file_index V k tvi).set (tvi.getD k INVALID_AXIS).toNat (k : Int)
        else build_to_file_index V k tvi := by
      unfold build_to_file_index
      rw [foldl_range_succ]
    rw [step]
    by_cases hk : tvi.getD k INVALID_AXIS = INVALID_AXIS
    · simp only [hk, ne_eq, not_true_eq_false, if_false]
      refine ⟨hlen, ?_⟩
      intro d hd hm
      have hdk : d ≠ k := by
        intro e
        subst e
        exact hm hk
      exact hget d (by omega) hm
    · simp only [ne_eq, hk, not_false_eq_true, if_true]
      refine ⟨by simp [hlen], ?_⟩
      intro d hd hm
      have hkr : 0 ≤ tvi.getD k INVALID_AXIS ∧ tvi.getD k INVALID_AXIS < (V : Int) := by
        rcases hrange k (by omega) with h1 | h1
        · exact absurd h1 hk
        · exact h1
      by_cases hdk : d = k
      · subst hdk
        exact getD_set_self _ _ _ _ (by omega)
      · have hdr : 0 ≤ tvi.getD d INVALID_AXIS := by
          rcases hrange d (by omega) with h1 | h1
          · exact absurd h1 hm
          · exact h1.1
        have hne : (tvi.getD k INVALID_AXIS).toNat ≠ (tvi.getD d INVALID_AXIS).toNat := by
          intro e
          have e2 : tvi.getD d INVALID_AXIS = tvi.getD k INVALID_AXIS := by omega
          exact hdk (hinj d k (by omega) (by omega) hm e2)
        rw [getD_set_of_ne _ _ _ _ _ hne]
        exact hget d (by omega) hm

/-- The facts about the forward map of an opened session that the later proofs
use. -/
theorem session_forward_map (env : HeaderConstants) (file_dims : List (String × Int))
    (volume : Volume) (options : Option minc_input_options) (file : minc_file_struct)
    (h : initialize_minc_input_from_minc_id env file_dims volume options = some file) :
    file.to_volume_index.length = file.n_file_dimensions ∧
    (∀ j, j < file.n_file_dimensions →
      file.to_volume_index.getD j INVALID_AXIS = INVALID_AXIS ∨
      (0 ≤ file.to_volume_index.getD j INVALID_AXIS ∧
        file.to_volume_index.getD j INVALID_AXIS < (get_volume_n_dimensions volume : Int))) ∧
    (∀ v, v < get_volume_n_dimensions volume → ∃! j, j < file.n_file_dimensions ∧
      file.to_volume_index.getD j INVALID_AXIS = (v : Int)) := by
  obtain ⟨_, _, hlen, _, _, _, hm, htvi, _⟩ := initialize_spec env file_dims volume options file h
  have := match_forward_map_aux env volume.dimension_names file.dim_names hm
  rw [hlen, ← htvi] at this
  exact this

/-- C2: after a successful open the forward map `to_volume_index` and the inverse
map `to_file_index` are mutual inverses on matched indices, and every volume
dimension has a valid file dimension. -/
theorem maps_mutual_inverses (env : HeaderConstants) (file_dims : List (String × Int))
    (volume : Volume) (options : Option minc_input_options) (file : minc_file_struct)
    (h : initialize_minc_input_from_minc_id env file_dims volume options = some file) :
    (∀ d, d < file.n_file_dimensions →
      file.to_volume_index.getD d INVALID_AXIS ≠ INVALID_AXIS →
      file.to_file_index.getD (file.to_volume_index.getD d INVALID_AXIS).toNat INVALID_AXIS
        = (d : Int)) ∧
    (∀ v, v < get_volume_n_dimensions volume →
      file.to_file_index.getD v INVALID_AXIS ≠ INVALID_AXIS ∧
      0 ≤ file.to_file_index.getD v INVALID_AXIS ∧
      file.to_file_index.getD v INVALID_AXIS < (file.n_file_dimensions : Int) ∧
      file.to_volume_index.getD (file.to_file_index.getD v INVALID_AXIS).toNat INVALID_AXIS
        = (v : Int)) := by
  obtain ⟨hlen, hrange, huniq⟩ := session_forward_map env file_dims volume options file h
  obtain ⟨_, _, _, _, _, _, _, _, htfi, _⟩ :=
    initialize_spec env file_dims volume options file h
  have hinj : ∀ d e, d < file.n_file_dimensions → e < file.n_file_dimensions →
      file.to_volume_index.getD d INVALID_AXIS ≠ INVALID_AXIS →
      file.to_volume_index.getD d INVALID_AXIS = file.to_volume_index.getD e INVALID_AXIS →
      d = e := by
    intro d e hd he hm heq
    rcases hrange d hd with h1 | ⟨h1, h2⟩
    · exact absurd h1 hm
    · have hv : (file.to_volume_index.getD d INVALID_AXIS).toNat
          < get_volume_n_dimensions volume := by omega
      obtain ⟨j, _, hj⟩ := huniq _ hv
      have e1 := hj d ⟨hd, by omega⟩
      have e2 := hj e ⟨he, by omega⟩
      omega
  have hb := build_to_file_index_spec (get_volume_n_dimensions volume) file.n_file_dimensions
    file.to_volume_index hrange hinj file.n_file_dimensions (le_refl _)
  rw [← htfi] at hb
  refine ⟨hb.2, ?_⟩
  intro v hv
  obtain ⟨j, ⟨hj, hjv⟩, _⟩ := huniq v hv
  have hm : file.to_volume_index.getD j INVALID_AXIS ≠ INVALID_AXIS := by
    rw [hjv]
    simp [INVALID_AXIS]
  have := hb.2 j hj hm
  rw [hjv, Int.toNat_ofNat] at this
  rw [this]
  refine ⟨?_, by omega, by omega, ?_⟩
  · simp [INVALID_AXIS]
  · rw [Int.toNat_ofNat]
    exact hjv

theorem count_true_eq_filter_range (l : List Bool) :
    l.count true = ((List.range l.length).filter (fun i => l.getD i false)).length := by
  induction l with
  | nil => simp
  | cons b t ih =>
    rw [List.length_cons, List.range_succ_eq_map, List.filter_cons, List.filter_map,
      List.count_cons, ih]
    have e : ((fun i => (b :: t).getD i false) ∘ Nat.succ) = (fun i => t.getD i false) := by
      funext i
      simp
    rw [e]
    cases b <;> simp

theorem match_found_iff_mem (env : HeaderConstants) (vn fn : List String) (i : Nat)
    (hi : i < vn.length) :
    (match_passes env vn fn).volume_dim_found.getD i false = true ↔
      (i : Int) ∈ (match_passes env vn fn).to_volume_index := by
  have inv := match_passes_inv env vn fn
  constructor
  · intro hf
    obtain ⟨j, hj, _, h2⟩ := inv.bwd i hi hf
    rw [List.mem_iff_getElem]
    refine ⟨j, by rw [inv.len_tvi]; exact hj, ?_⟩
    rw [List.getD_eq_getElem?_getD, List.getElem?_eq_getElem (by rw [inv.len_tvi]; exact hj)]
      at h2
    simpa using h2
  · intro hm
    rw [List.mem_iff_getElem] at hm
    obtain ⟨j, hj, h2⟩ := hm
    have hj2 : j < fn.length := by rw [← inv.len_tvi]; exact hj
    have h3 : (match_passes env vn fn).to_volume_index.getD j INVALID_AXIS = (i : Int) := by
      rw [List.getD_eq_getElem?_getD, List.getElem?_eq_getElem hj]
      simpa using h2
    rcases inv.fwd j hj2 with h4 | ⟨i2, _, h4, h5, _⟩
    · rw [h4] at h3
      simp [INVALID_AXIS] at h3
    · rw [h4] at h3
      have : i2 = i := by exact_mod_cast h3
      subst this
      exact h5

theorem match_n_matches_eq_bound (env : HeaderConstants) (vn fn : List String) :
    (match_passes env vn fn).n_matches =
      (bound_volume_dims vn.length (match_passes env vn fn).to_volume_index : Int) := by
  have inv := match_passes_inv env vn fn
  rw [inv.cnt, count_true_eq_filter_range, inv.len_found]
  unfold bound_volume_dims
  congr 2
  apply List.filter_congr
  intro i hi
  rw [List.mem_range] at hi
  have := match_found_iff_mem env vn fn i hi
  by_cases hf : (match_passes env vn fn).volume_dim_found.getD i false = true
  · rw [hf]
    exact (decide_eq_true (this.mp hf)).symm
  · have hn : ¬ (i : Int) ∈ (match_passes env vn fn).to_volume_index := fun hm => hf (this.mpr hm)
    rw [Bool.not_eq_true] at hf
    rw [hf]
    exact (decide_eq_false hn).symm

theorem bound_volume_dims_le (V : Nat) (tvi : List Int) : bound_volume_dims V tvi ≤ V := by
  unfold bound_volume_dims
  exact (List.length_filter_le _ _).trans (le_of_eq (List.length_range V))

theorem initialize_none_of_match_false (env : HeaderConstants)
    (file_dims : List (String × Int)) (volume : Volume)
    (options : Option minc_input_options) (n : Nat) (c : Bool)
    (hv : vector_dimension_step env (file_dims.map Prod.fst) (file_dims.map Prod.snd)
      (options.getD set_default_minc_input_options) = some (n, c))
    (hm : (match_dimension_names env volume.dimension_names
      ((file_dims.map Prod.fst).take n)).matched = false) :
    initialize_minc_input_from_minc_id env file_dims volume options = none := by
  unfold initialize_minc_input_from_minc_id
  simp only [hv, hm, if_true]
  split
  · rfl
  · split <;> rfl

/-- C3: `match_dimension_names` returns FALSE exactly when, after the three
passes, fewer than `V` volume dimensions are bound to a file dimension, and TRUE
exactly when all `V` are bound; and whenever it returns FALSE on the names the
open passes to it, `initialize_minc_input_from_minc_id` returns NULL. -/
theorem match_failure_iff_and_fatal (env : HeaderConstants) (vn fn : List String) :
    ((match_dimension_names env vn fn).matched = false ↔
      bound_volume_dims vn.length (match_dimension_names env vn fn).to_volume_index
        < vn.length) ∧
    ((match_dimension_names env vn fn).matched = true ↔
      bound_volume_dims vn.length (match_dimension_names env vn fn).to_volume_index
        = vn.length) ∧
    (∀ (file_dims : List (String × Int)) (volume : Volume)
      (options : Option minc_input_options) (n : Nat) (c : Bool),
      vector_dimension_step env (file_dims.map Prod.fst) (file_dims.map Prod.snd)
        (options.getD set_default_minc_input_options) = some (n, c) →
      (match_dimension_names env volume.dimension_names
        ((file_dims.map Prod.fst).take n)).matched = false →
      initialize_minc_input_from_minc_id env file_dims volume options = none) := by
  have hb := match_n_matches_eq_bound env vn fn
  have hle := bound_volume_dims_le vn.length (match_passes env vn fn).to_volume_index
  have e : (match_dimension_names env vn fn).to_volume_index
      = (match_passes env vn fn).to_volume_index := rfl
  have e2 : (match_dimension_names env vn fn).matched
      = decide ((match_passes env vn fn).n_matches = (vn.length : Int)) := rfl
  rw [e, e2, hb]
  refine ⟨?_, ?_, ?_⟩
  · rw [decide_eq_false_iff_not]
    constructor
    · intro h
      have : bound_volume_dims vn.length (match_passes env vn fn).to_volume_index
          ≠ vn.length := fun h2 => h (by exact_mod_cast h2)
      omega
    · intro h h2
      have : bound_volume_dims vn.length (match_passes env vn fn).to_volume_index
          = vn.length := by exact_mod_cast h2
      omega
  · rw [decide_eq_true_eq]
    exact Nat.cast_inj
  · intro file_dims volume options n c hv hm
    exact initialize_none_of_match_false env file_dims volume options n c hv hm

theorem exampleSession_opened :
    initialize_minc_input_from_minc_id standardHeaders exampleFileDims exampleVolume none
      = some exampleSession := by
  decide

theorem stackedSession_opened :
    initialize_minc_input_from_minc_id standardHeaders stackedFileDims exampleVolume none
      = some stackedSession := by
  decide

theorem maps_mutual_inverses_witness :
    initialize_minc_input_from_minc_id standardHeaders stackedFileDims exampleVolume none
      = some stackedSession ∧
    stackedSession.to_file_index.getD
      (stackedSession.to_volume_index.getD 1 INVALID_AXIS).toNat INVALID_AXIS = ((1 : Nat) : Int) :=
  ⟨stackedSession_opened,
    (maps_mutual_inverses standardHeaders stackedFileDims exampleVolume none stackedSession
      stackedSession_opened).1 1 (by decide) (by decide)⟩

theorem match_failure_iff_and_fatal_witness :
    vector_dimension_step standardHeaders
      ([("xspace", 10), ("zspace", 10)].map Prod.fst) ([("xspace", 10), ("zspace", 10)].map Prod.snd)
      ((none : Option minc_input_options).getD set_default_minc_input_options)
        = some (2, false) ∧
    (match_dimension_names standardHeaders
      ({ dimension_names := ["xspace", "yspace"], sizes := [0, 0],
         is_cached_volume := false } : Volume).dimension_names
      (([("xspace", 10), ("zspace", 10)].map Prod.fst).take 2)).matched = false ∧
    initialize_minc_input_from_minc_id standardHeaders [("xspace", 10), ("zspace", 10)]
      { dimension_names := ["xspace", "yspace"], sizes := [0, 0], is_cached_volume := false }
      none = none :=
  ⟨by decide, by decide,
    (match_failure_iff_and_fatal standardHeaders [] []).2.2 [("xspace", 10), ("zspace", 10)]
      { dimension_names := ["xspace", "yspace"], sizes := [0, 0], is_cached_volume := false }
      none 2 false (by decide) (by decide)⟩

/-! ## The number of stacked volumes -/

theorem wrap_int_of_fits (x : Int) (h : -2147483648 ≤ x ∧ x < 2147483648) :
    wrap_int x = x := by
  unfold wrap_int
  omega

theorem wrap_int_mul (a b : Int) : wrap_int (wrap_int a * b) = wrap_int (a * b) := by
  unfold wrap_int
  have h : (a + 2147483648) % 4294967296 - 2147483648 =
      a - 4294967296 * ((a + 2147483648) / 4294967296) := by
    omega
  have e : (a - 4294967296 * ((a + 2147483648) / 4294967296)) * b + 2147483648 =
      (a * b + 2147483648) + 4294967296 * (-(((a + 2147483648) / 4294967296) * b)) := by
    ring
  rw [h, e, Int.add_mul_emod_self_left]

theorem compute_n_volumes_in_file_step (tvi sizes : List Int) (k : Nat) :
    compute_n_volumes_in_file (k + 1) tvi sizes =
      if tvi.getD k INVALID_AXIS = INVALID_AXIS then
        wrap_int (compute_n_volumes_in_file k tvi sizes * sizes.getD k 0)
      else compute_n_volumes_in_file k tvi sizes := by
  unfold compute_n_volumes_in_file
  rw [foldl_range_succ]

theorem compute_n_volumes_in_file_eq (tvi sizes : List Int) (n : Nat) :
    compute_n_volumes_in_file n tvi sizes =
      wrap_int (((List.range n).filter
        (fun d => decide (tvi.getD d INVALID_AXIS = INVALID_AXIS))).map
        (fun d => sizes.getD d 0)).prod := by
  induction n with
  | zero =>
    simp only [compute_n_volumes_in_file, List.range_zero, List.foldl_nil, List.filter_nil,
      List.map_nil, List.prod_nil]
    decide
  | succ k ih =>
    rw [compute_n_volumes_in_file_step, ih, List.range_succ, List.filter_append,
      List.map_append, List.prod_append]
    by_cases h : tvi.getD k INVALID_AXIS = INVALID_AXIS
    · rw [if_pos h, List.filter_cons, if_pos (decide_eq_true h), wrap_int_mul]
      simp
    · rw [if_neg h, List.filter_cons, if_neg (by simpa using h)]
      simp

/-- C10, counterexample: the file stacks volumes along two unmatched dimensions
of length 70000 each.  The product of the unmatched lengths is 4900000000, which
does not fit in an `int`; `get_n_input_volumes` returns 605032704. -/
theorem n_volumes_product_overflows :
    (initialize_minc_input_from_minc_id standardHeaders wideStackFileDims exampleVolume
      none).map (fun file => (file.n_file_dimensions, file.to_volume_index,
        get_n_input_volumes file)) = some (5, [-1, -1, 2, 1, 0], 605032704) ∧
    (((List.range 5).filter
      (fun d => decide (([-1, -1, 2, 1, 0] : List Int).getD d INVALID_AXIS = INVALID_AXIS))).map
      (fun d => (wideStackFileDims.map Prod.snd).getD d 0)).prod = 4900000000 := by
  refine ⟨by decide, by decide⟩

/-- C10, amended: for every successfully opened session `get_n_input_volumes`
returns the product of the lengths of the file dimensions that have no match in
the volume, computed in `int` arithmetic: it is the product reduced modulo
`2^32` into the range of an `int`, hence the product itself whenever the product
fits in an `int`, and 1 when every file dimension is matched. -/
theorem get_n_input_volumes_eq_wrapped_product (env : HeaderConstants)
    (file_dims : List (String × Int)) (volume : Volume)
    (options : Option minc_input_options) (file : minc_file_struct)
    (h : initialize_minc_input_from_minc_id env file_dims volume options = some file) :
    get_n_input_volumes file =
      wrap_int (((List.range file.n_file_dimensions).filter
        (fun d => decide (file.to_volume_index.getD d INVALID_AXIS = INVALID_AXIS))).map
        (fun d => (file_dims.map Prod.snd).getD d 0)).prod ∧
    ((-2147483648 ≤ (((List.range file.n_file_dimensions).filter
          (fun d => decide (file.to_volume_index.getD d INVALID_AXIS = INVALID_AXIS))).map
          (fun d => (file_dims.map Prod.snd).getD d 0)).prod ∧
        (((List.range file.n_file_dimensions).filter
          (fun d => decide (file.to_volume_index.getD d INVALID_AXIS = INVALID_AXIS))).map
          (fun d => (file_dims.map Prod.snd).getD d 0)).prod < 2147483648) →
      get_n_input_volumes file =
        (((List.range file.n_file_dimensions).filter
          (fun d => decide (file.to_volume_index.getD d INVALID_AXIS = INVALID_AXIS))).map
          (fun d => (file_dims.map Prod.snd).getD d 0)).prod) ∧
    ((∀ d, d < file.n_file_dimensions →
        file.to_volume_index.getD d INVALID_AXIS ≠ INVALID_AXIS) →
      get_n_input_volumes file = 1) := by
  obtain ⟨_, _, _, hs, _, _, _, _, _, _, hn, _⟩ :=
    initialize_spec env file_dims volume options file h
  have e : get_n_input_volumes file = _ := hn
  rw [e, compute_n_volumes_in_file_eq, hs]
  refine ⟨rfl, fun hfit => wrap_int_of_fits _ hfit, ?_⟩
  intro hall
  have : (List.range file.n_file_dimensions).filter
      (fun d => decide (file.to_volume_index.getD d INVALID_AXIS = INVALID_AXIS)) = [] := by
    rw [List.filter_eq_nil_iff]
    intro d hd
    rw [List.mem_range] at hd
    simpa using hall d hd
  rw [this]
  exact (by decide : wrap_int 1 = 1)

theorem get_n_input_volumes_eq_wrapped_product_witness :
    initialize_minc_input_from_minc_id standardHeaders stackedFileDims exampleVolume none
      = some stackedSession ∧
    get_n_input_volumes stackedSession = 4 :=
  ⟨stackedSession_opened,
    ((get_n_input_volumes_eq_wrapped_product standardHeaders stackedFileDims exampleVolume
      none stackedSession stackedSession_opened).2.1 (by decide)).trans (by decide)⟩

/-! ## The cursor stays inside the file -/

theorem inBounds_set {sizes : List Int} {n : Nat} {idx : List Int}
    (h : InBounds sizes n idx) (d : Nat) (v : Int)
    (hv : d < n → 0 ≤ v ∧ v < sizes.getD d 0) : InBounds sizes n (idx.set d v) := by
  refine ⟨by simp [h.1], ?_⟩
  intro e he
  by_cases hde : d = e
  · subst hde
    rw [getD_set_self _ _ _ _ (by rw [h.1]; exact he)]
    exact hv he
  · rw [getD_set_of_ne _ _ _ _ _ hde]
    exact h.2 e he

theorem inBounds_bump {sizes : List Int} {n : Nat} {idx : List Int}
    (h : InBounds sizes n idx) (d : Nat) (hd : d < n) (hs : 1 ≤ sizes.getD d 0) :
    (if (idx.set d (idx.getD d 0 + 1)).getD d 0 < sizes.getD d 0 then
        InBounds sizes n (idx.set d (idx.getD d 0 + 1))
      else InBounds sizes n ((idx.set d (idx.getD d 0 + 1)).set d 0)) := by
  have hb := h.2 d hd
  split
  · rename_i hlt
    rw [getD_set_self _ _ _ _ (by rw [h.1]; exact hd)] at hlt
    exact inBounds_set h d _ (fun _ => ⟨by omega, hlt⟩)
  · rw [List.set_set]
    exact inBounds_set h d _ (fun _ => ⟨le_refl _, by omega⟩)

theorem advance_slab_body_inBounds (file : minc_file_struct) (d : Nat)
    (hd : d < file.n_file_dimensions) (hs : 1 ≤ file.sizes_in_file.getD d 0)
    (st : AdvanceState)
    (h : InBounds file.sizes_in_file file.n_file_dimensions st.indices) :
    InBounds file.sizes_in_file file.n_file_dimensions
      (advance_slab_body file d st).indices := by
  have hb := inBounds_bump h d hd hs
  unfold advance_slab_body
  simp only
  split_ifs at hb ⊢ <;> first | exact h | exact hb

theorem advance_slab_loop_inBounds (file : minc_file_struct)
    (hs : ∀ d, d < file.n_file_dimensions → 1 ≤ file.sizes_in_file.getD d 0)
    (d : Nat) (hd : d ≤ file.n_file_dimensions) (st : AdvanceState)
    (h : InBounds file.sizes_in_file file.n_file_dimensions st.indices) :
    InBounds file.sizes_in_file file.n_file_dimensions
      (advance_slab_loop file d st).indices := by
  induction d generalizing st with
  | zero => exact h
  | succ k ih =>
    unfold advance_slab_loop
    exact ih (by omega) _ (advance_slab_body_inBounds file k (by omega) (hs k (by omega)) st h)

theorem advance_volume_loop_inBounds (file : minc_file_struct)
    (hs : ∀ d, d < file.n_file_dimensions → 1 ≤ file.sizes_in_file.getD d 0)
    (d : Nat) (hd : d ≤ file.n_file_dimensions) (idx : List Int)
    (h : InBounds file.sizes_in_file file.n_file_dimensions idx) :
    InBounds file.sizes_in_file file.n_file_dimensions
      (advance_volume_loop file d idx).1 := by
  induction d generalizing idx with
  | zero => exact h
  | succ k ih =>
    have hb := inBounds_bump h k (by omega) (hs k (by omega))
    unfold advance_volume_loop
    simp only
    split_ifs at hb ⊢ <;>
      first | exact hb | exact ih (by omega) _ hb | exact ih (by omega) _ h

theorem foldl_set_zero_inBounds (sizes : List Int) (n : Nat)
    (hs : ∀ d, d < n → 1 ≤ sizes.getD d 0) (pos : Nat → Nat) (m : Nat) (idx : List Int)
    (h : InBounds sizes n idx) :
    InBounds sizes n ((List.range m).foldl (fun indices ind => indices.set (pos ind) 0) idx) := by
  induction m with
  | zero => exact h
  | succ k ih =>
    rw [foldl_range_succ]
    exact inBounds_set ih _ _ (fun hd => ⟨le_refl _, by have := hs _ hd; omega⟩)

theorem input_more_inBounds (fails : List Int → List Int → Bool) (file : minc_file_struct)
    (hs : ∀ d, d < file.n_file_dimensions → 1 ≤ file.sizes_in_file.getD d 0)
    (h : InBounds file.sizes_in_file file.n_file_dimensions file.indices) :
    (input_more_minc_file fails file).file.n_file_dimensions = file.n_file_dimensions ∧
    (input_more_minc_file fails file).file.sizes_in_file = file.sizes_in_file ∧
    InBounds file.sizes_in_file file.n_file_dimensions
      (input_more_minc_file fails file).file.indices := by
  have hl := advance_slab_loop_inBounds file hs file.n_file_dimensions (le_refl _)
    { indices := file.indices, increment := true, n_slab := 0, total := 1, n_done := 0 } h
  unfold input_more_minc_file
  simp only
  split_ifs
  · exact ⟨rfl, rfl, h⟩
  · exact ⟨rfl, rfl, h⟩
  · exact ⟨rfl, rfl, hl⟩
  · exact ⟨rfl, rfl, hl⟩

theorem advance_input_volume_inBounds (file : minc_file_struct)
    (hs : ∀ d, d < file.n_file_dimensions → 1 ≤ file.sizes_in_file.getD d 0)
    (h : InBounds file.sizes_in_file file.n_file_dimensions file.indices) :
    (advance_input_volume file).1.n_file_dimensions = file.n_file_dimensions ∧
    (advance_input_volume file).1.sizes_in_file = file.sizes_in_file ∧
    InBounds file.sizes_in_file file.n_file_dimensions
      (advance_input_volume file).1.indices := by
  have hl := advance_volume_loop_inBounds file hs file.n_file_dimensions (le_refl _)
    file.indices h
  unfold advance_input_volume
  simp only
  split_ifs
  · exact ⟨rfl, rfl, foldl_set_zero_inBounds _ _ hs _ _ _ hl⟩
  · exact ⟨rfl, rfl, hl⟩

theorem reset_input_volume_inBounds (file : minc_file_struct)
    (hs : ∀ d, d < file.n_file_dimensions → 1 ≤ file.sizes_in_file.getD d 0)
    (h : InBounds file.sizes_in_file file.n_file_dimensions file.indices) :
    (reset_input_volume file).n_file_dimensions = file.n_file_dimensions ∧
    (reset_input_volume file).sizes_in_file = file.sizes_in_file ∧
    InBounds file.sizes_in_file file.n_file_dimensions (reset_input_volume file).indices :=
  ⟨rfl, rfl, foldl_set_zero_inBounds _ _ hs (fun d => d) _ _ h⟩

theorem reachable_inBounds (file0 : minc_file_struct)
    (hs : ∀ d, d < file0.n_file_dimensions → 1 ≤ file0.sizes_in_file.getD d 0)
    (h0 : InBounds file0.sizes_in_file file0.n_file_dimensions file0.indices)
    (file : minc_file_struct) (hr : Reachable file0 file) :
    file.n_file_dimensions = file0.n_file_dimensions ∧
    file.sizes_in_file = file0.sizes_in_file ∧
    InBounds file0.sizes_in_file file0.n_file_dimensions file.indices := by
  induction hr with
  | start => exact ⟨rfl, rfl, h0⟩
  | more fails _ ih =>
    obtain ⟨e1, e2, hb⟩ := ih
    have := input_more_inBounds fails _ (by rw [e1, e2]; exact hs) (by rw [e1, e2]; exact hb)
    rw [e1, e2] at this
    exact this
  | advance _ ih =>
    obtain ⟨e1, e2, hb⟩ := ih
    have := advance_input_volume_inBounds _ (by rw [e1, e2]; exact hs) (by rw [e1, e2]; exact hb)
    rw [e1, e2] at this
    exact this
  | reset _ ih =>
    obtain ⟨e1, e2, hb⟩ := ih
    have := reset_input_volume_inBounds _ (by rw [e1, e2]; exact hs) (by rw [e1, e2]; exact hb)
    rw [e1, e2] at this
    exact this

/-- C7: in every state reachable from a successfully opened session whose file
dimension lengths are all at least 1, by any sequence of
`input_more_minc_file`, `advance_input_volume` and `reset_input_volume` calls,
every cursor entry satisfies `0 <= indices[d] < sizes_in_file[d]`. -/
theorem cursor_stays_in_bounds (env : HeaderConstants) (file_dims : List (String × Int))
    (volume : Volume) (options : Option minc_input_options) (file0 : minc_file_struct)
    (h : initialize_minc_input_from_minc_id env file_dims volume options = some file0)
    (hs : ∀ d, d < file0.n_file_dimensions → 1 ≤ file0.sizes_in_file.getD d 0)
    (file : minc_file_struct) (hr : Reachable file0 file) :
    ∀ d, d < file.n_file_dimensions →
      0 ≤ file.indices.getD d 0 ∧ file.indices.getD d 0 < file.sizes_in_file.getD d 0 := by
  obtain ⟨_, _, _, _, _, _, _, _, _, _, _, hi, _⟩ :=
    initialize_spec env file_dims volume options file0 h
  have h0 : InBounds file0.sizes_in_file file0.n_file_dimensions file0.indices := by
    rw [hi]
    refine ⟨by simp, ?_⟩
    intro d hd
    rw [getD_replicate_lt _ _ _ _ hd]
    have := hs d hd
    omega
  obtain ⟨e1, e2, hb⟩ := reachable_inBounds file0 hs h0 file hr
  rw [e1, e2]
  exact hb.2

theorem cursor_stays_in_bounds_witness :
    initialize_minc_input_from_minc_id standardHeaders stackedFileDims exampleVolume none
      = some stackedSession ∧
    (∀ d, d < stackedSession.n_file_dimensions →
      1 ≤ stackedSession.sizes_in_file.getD d 0) ∧
    Reachable stackedSession
      (advance_input_volume (input_more_minc_file (fun _ _ => false) stackedSession).file).1 ∧
    (∀ d, d < 4 →
      0 ≤ (advance_input_volume
        (input_more_minc_file (fun _ _ => false) stackedSession).file).1.indices.getD d 0 ∧
      (advance_input_volume
        (input_more_minc_file (fun _ _ => false) stackedSession).file).1.indices.getD d 0
        < stackedSession.sizes_in_file.getD d 0) :=
  ⟨stackedSession_opened, by decide,
    Reachable.advance (Reachable.more _ Reachable.start),
    cursor_stays_in_bounds standardHeaders stackedFileDims exampleVolume none stackedSession
      stackedSession_opened (by decide) _
      (Reachable.advance (Reachable.more _ Reachable.start))⟩

/-! ## Read failures -/

/-- C8, counterexample: on the example session a failing storage read makes
`input_minc_hyperslab` return ERROR, yet `input_more_minc_file` hands back
exactly the outcome of the same call with a successful read. -/
theorem read_failure_not_signalled :
    (input_minc_hyperslab (fun _ _ => true) exampleSession 3 exampleSession.to_volume_index
      exampleSession.indices (slab_count exampleSession)).status = Status.ERROR ∧
    input_more_minc_file (fun _ _ => true) exampleSession
      = input_more_minc_file (fun _ _ => false) exampleSession := by
  constructor
  · decide
  · rfl

/-- C8, amended: `input_minc_hyperslab` returns ERROR exactly when the storage
read `miicv_get` of its window fails; `input_slab` discards that status, so the
outcome of `input_more_minc_file` (returned flag, fraction done, cursor and
end-of-volume flag) does not depend on whether the storage read failed. -/
theorem read_failure_stops_at_input_slab :
    (∀ (fails : List Int → List Int → Bool) (file : minc_file_struct) (n_array_dims : Nat)
      (to_array start count : List Int),
      (input_minc_hyperslab fails file n_array_dims to_array start count).status
          = Status.ERROR ↔
        fails (input_minc_hyperslab fails file n_array_dims to_array start count).used_start
          (input_minc_hyperslab fails file n_array_dims to_array start count).used_count
          = true) ∧
    (∀ (fails1 fails2 : List Int → List Int → Bool) (file : minc_file_struct),
      input_more_minc_file fails1 file = input_more_minc_file fails2 file) := by
  constructor
  · intro fails file n_array_dims to_array start count
    simp only [input_minc_hyperslab]
    split_ifs <;> simp_all
  · intro fails1 fails2 file
    rfl

/-! ## The value `advance_input_volume` returns -/

/-- C9, the code at the failing input: on a file that stacks four volumes, the
first call of `advance_input_volume` moves the cursor on to the second volume
and returns FALSE, and the fourth call, which runs past the last volume,
returns TRUE. -/
theorem advance_input_volume_returns_end_flag :
    (advance_input_volume stackedSession).2 = false ∧
    (advance_input_volume stackedSession).1.indices = [1, 0, 0, 0] ∧
    (advance_input_volume stackedSession).1.end_volume_flag = false ∧
    (advance_input_volume (advance_input_volume (advance_input_volume
      (advance_input_volume stackedSession).1).1).1).2 = true ∧
    (advance_input_volume (advance_input_volume (advance_input_volume
      (advance_input_volume stackedSession).1).1).1).1.end_volume_flag = true := by
  decide

/-! ## The slab cursor counts in mixed radix -/

theorem matched_from_top (file : minc_file_struct)
    (h : file.to_volume_index.length = file.n_file_dimensions) :
    matched_from file file.n_file_dimensions = 0 := by
  unfold matched_from
  rw [List.drop_of_length_le (by omega)]
  rfl

theorem matched_from_step (file : minc_file_struct)
    (h : file.to_volume_index.length = file.n_file_dimensions) (d : Nat)
    (hd : d < file.n_file_dimensions) :
    matched_from file d =
      matched_from file (d + 1) + (if is_matched file d = true then 1 else 0) := by
  unfold matched_from is_matched
  have hd2 : d < file.to_volume_index.length := by omega
  rw [List.drop_eq_getElem_cons hd2, List.countP_cons]
  have : file.to_volume_index.getD d INVALID_AXIS = file.to_volume_index[d] := by
    rw [List.getD_eq_getElem?_getD, List.getElem?_eq_getElem hd2]
    rfl
  rw [this]

theorem matched_from_mono (file : minc_file_struct)
    (h : file.to_volume_index.length = file.n_file_dimensions) (d : Nat)
    (hd : d < file.n_file_dimensions) :
    matched_from file (d + 1) ≤ matched_from file d := by
  rw [matched_from_step file h d hd]
  omega

theorem total_from_top (file : minc_file_struct) :
    total_from file file.n_file_dimensions = 1 := by
  simp [total_from]

theorem total_from_step (file : minc_file_struct) (d : Nat)
    (hd : d < file.n_file_dimensions) :
    total_from file d =
      (if is_non_slab_dim file d = true then file.sizes_in_file.getD d 0 else 1) *
        total_from file (d + 1) := by
  unfold total_from
  rw [Finset.prod_eq_prod_Ico_succ_bot hd]

theorem cursor_value_top (file : minc_file_struct) (x : Nat → Int) :
    cursor_value file x file.n_file_dimensions = 0 := by
  simp [cursor_value]

theorem cursor_value_step (file : minc_file_struct) (x : Nat → Int) (d : Nat)
    (hd : d < file.n_file_dimensions) :
    cursor_value file x d =
      (if is_non_slab_dim file d = true then total_from file (d + 1) * x d else 0) +
        cursor_value file x (d + 1) := by
  unfold cursor_value
  rw [Finset.sum_eq_sum_Ico_succ_bot hd]

theorem cursor_value_congr (file : minc_file_struct) (x y : Nat → Int) (d : Nat)
    (h : ∀ e, d ≤ e → e < file.n_file_dimensions → is_non_slab_dim file e = true →
      x e = y e) :
    cursor_value file x d = cursor_value file y d := by
  unfold cursor_value
  apply Finset.sum_congr rfl
  intro e he
  rw [Finset.mem_Ico] at he
  by_cases hn : is_non_slab_dim file e = true
  · rw [if_pos hn, if_pos hn, h e he.1 he.2 hn]
  · rw [if_neg hn, if_neg hn]
theorem non_slab_cond (file : minc_file_struct) (d : Nat) (st : AdvanceState)
    (hn : st.n_slab = matched_from file (d + 1)) :
    (file.n_slab_dims ≤ st.n_slab ∧ file.to_volume_index.getD d INVALID_AXIS ≠ INVALID_AXIS)
      ↔ is_non_slab_dim file d = true := by
  unfold is_non_slab_dim is_matched
  rw [hn]
  simp only [Bool.and_eq_true, decide_eq_true_eq]
  tauto

theorem advance_inv_skip (file : minc_file_struct)
    (htvi : file.to_volume_index.length = file.n_file_dimensions) (idx0 : List Int)
    (d : Nat) (hd : d < file.n_file_dimensions) (st : AdvanceState)
    (inv : AdvanceInv file idx0 (d + 1) st) (hns : is_non_slab_dim file d = false) :
    AdvanceInv file idx0 d (advance_slab_body file d st) := by
  have hcond : ¬ (file.n_slab_dims ≤ st.n_slab ∧
      file.to_volume_index.getD d INVALID_AXIS ≠ INVALID_AXIS) := by
    rw [non_slab_cond file d st inv.n_slab, hns]
    exact Bool.false_ne_true
  have hm := matched_from_step file htvi d hd
  have ht := total_from_step file d hd
  rw [hns] at ht
  simp only [Bool.false_eq_true, if_false, one_mul] at ht
  have hc : ∀ x, cursor_value file x d = cursor_value file x (d + 1) := by
    intro x
    rw [cursor_value_step file x d hd, hns]
    simp
  have hbody : (advance_slab_body file d st).indices = st.indices ∧
      (advance_slab_body file d st).increment = st.increment ∧
      (advance_slab_body file d st).total = st.total ∧
      (advance_slab_body file d st).n_done = st.n_done ∧
      (advance_slab_body file d st).n_slab =
        st.n_slab + (if is_matched file d = true then 1 else 0) := by
    unfold advance_slab_body is_matched
    simp only [hcond, if_false]
    split_ifs <;> simp_all
  obtain ⟨e1, e2, e3, e4, e5⟩ := hbody
  refine ⟨?_, ?_, ?_, ?_, ?_, ?_, ?_, ?_⟩
  · rw [e1]; exact inv.len
  · rw [e5, hm, inv.n_slab]
  · rw [e3, ht]; exact inv.total
  · intro e he
    rw [e1]
    exact inv.below e (by omega)
  · intro e he hf
    rw [e1]
    exact inv.frame e he hf
  · intro e he1 he2 hf
    rw [e1]
    have : e ≠ d := by
      intro h
      subst h
      rw [hns] at hf
      exact Bool.false_ne_true hf
    exact inv.bounds e (by omega) he2 hf
  · rw [e4, e1, hc]; exact inv.n_done
  · rw [e1, e2, hc, hc, ht]; exact inv.value
theorem advance_inv_visit (file : minc_file_struct)
    (htvi : file.to_volume_index.length = file.n_file_dimensions) (idx0 : List Int)
    (d : Nat) (hd : d < file.n_file_dimensions) (st : AdvanceState)
    (inv : AdvanceInv file idx0 (d + 1) st) (hns : is_non_slab_dim file d = true)
    (hb0 : 0 ≤ idx0.getD d 0 ∧ idx0.getD d 0 < file.sizes_in_file.getD d 0) :
    AdvanceInv file idx0 d (advance_slab_body file d st) := by
  have hcond : file.n_slab_dims ≤ st.n_slab ∧
      file.to_volume_index.getD d INVALID_AXIS ≠ INVALID_AXIS :=
    (non_slab_cond file d st inv.n_slab).mpr hns
  have hmat : is_matched file d = true := by
    unfold is_non_slab_dim at hns
    rw [Bool.and_eq_true] at hns
    exact hns.1
  have hm := matched_from_step file htvi d hd
  rw [if_pos hmat] at hm
  have ht := total_from_step file d hd
  rw [if_pos hns] at ht
  have hc : ∀ x, cursor_value file x d =
      total_from file (d + 1) * x d + cursor_value file x (d + 1) := by
    intro x
    rw [cursor_value_step file x d hd, if_pos hns]
  have hcur : st.indices.getD d 0 = idx0.getD d 0 := inv.below d (by omega)
  have hdl : d < st.indices.length := by rw [inv.len]; exact hd
  have hval := inv.value
  have hnd := inv.n_done
  have htot := inv.total
  by_cases hinc : st.increment = true
  · rw [if_pos hinc] at hval
    by_cases hlt : idx0.getD d 0 + 1 < file.sizes_in_file.getD d 0
    · have hbody : advance_slab_body file d st =
          { indices := st.indices.set d (idx0.getD d 0 + 1)
            increment := false
            n_slab := st.n_slab + 1
            total := st.total * file.sizes_in_file.getD d 0
            n_done := st.n_done + st.total * (idx0.getD d 0 + 1) } := by
        unfold advance_slab_body
        simp only [hcond, hinc, and_self, ne_eq, not_false_eq_true, if_true, hcur,
          getD_set_self _ _ _ _ hdl, hlt]
      rw [hbody]
      have hcv : cursor_value file
          (fun e => (st.indices.set d (idx0.getD d 0 + 1)).getD e 0) (d + 1) =
          cursor_value file (fun e => st.indices.getD e 0) (d + 1) := by
        apply cursor_value_congr
        intro e he _ _
        exact getD_set_of_ne _ _ _ _ _ (by omega)
      refine ⟨by simp [inv.len], by simp only; rw [hm, inv.n_slab], ?_, ?_, ?_, ?_, ?_, ?_⟩
      · simp only
        rw [ht, htot, mul_comm]
      · intro e he
        simp only
        rw [getD_set_of_ne _ _ _ _ _ (by omega)]
        exact inv.below e (by omega)
      · intro e he hf
        simp only
        have : d ≠ e := by
          intro h
          subst h
          rw [hns] at hf
          exact Bool.noConfusion hf
        rw [getD_set_of_ne _ _ _ _ _ this]
        exact inv.frame e he hf
      · intro e he1 he2 hf
        simp only
        by_cases hde : d = e
        · subst hde
          rw [getD_set_self _ _ _ _ hdl]
          exact ⟨by omega, hlt⟩
        · rw [getD_set_of_ne _ _ _ _ _ hde]
          exact inv.bounds e (by omega) he2 hf
      · simp only
        rw [hc, hcv, getD_set_self _ _ _ _ hdl, hnd, htot]
        ring
      · simp only
        rw [hc, hcv, getD_set_self _ _ _ _ hdl, hc]
        simp only [Bool.false_eq_true, if_false]
        linear_combination hval
    · have hbody : advance_slab_body file d st =
          { indices := st.indices.set d 0
            increment := true
            n_slab := st.n_slab + 1
            total := st.total * file.sizes_in_file.getD d 0
            n_done := st.n_done + st.total * 0 } := by
        unfold advance_slab_body
        simp only [hcond, hinc, and_self, ne_eq, not_false_eq_true, if_true, hcur,
          getD_set_self _ _ _ _ hdl, hlt, if_false, List.set_set,
          getD_set_self _ _ (0 : Int) _ hdl]
      rw [hbody]
      have hcv : cursor_value file
          (fun e => (st.indices.set d 0).getD e 0) (d + 1) =
          cursor_value file (fun e => st.indices.getD e 0) (d + 1) := by
        apply cursor_value_congr
        intro e he _ _
        exact getD_set_of_ne _ _ _ _ _ (by omega)
      have hmax : idx0.getD d 0 = file.sizes_in_file.getD d 0 - 1 := by omega
      refine ⟨by simp [inv.len], by simp only; rw [hm, inv.n_slab], ?_, ?_, ?_, ?_, ?_, ?_⟩
      · simp only
        rw [ht, htot, mul_comm]
      · intro e he
        simp only
        rw [getD_set_of_ne _ _ _ _ _ (by omega)]
        exact inv.below e (by omega)
      · intro e he hf
        simp only
        have : d ≠ e := by
          intro h
          subst h
          rw [hns] at hf
          exact Bool.noConfusion hf
        rw [getD_set_of_ne _ _ _ _ _ this]
        exact inv.frame e he hf
      · intro e he1 he2 hf
        simp only
        by_cases hde : d = e
        · subst hde
          rw [getD_set_self _ _ _ _ hdl]
          exact ⟨le_refl _, by omega⟩
        · rw [getD_set_of_ne _ _ _ _ _ hde]
          exact inv.bounds e (by omega) he2 hf
      · simp only
        rw [hc, hcv, getD_set_self _ _ _ _ hdl, hnd]
        ring
      · simp only
        rw [hc, hcv, getD_set_self _ _ _ _ hdl, hc, if_pos trivial, ht, hmax]
        linear_combination hval
  · have hinc2 : st.increment = false := by simpa using hinc
    rw [if_neg hinc] at hval
    have hbody : advance_slab_body file d st =
        { indices := st.indices
          increment := false
          n_slab := st.n_slab + 1
          total := st.total * file.sizes_in_file.getD d 0
          n_done := st.n_done + st.total * idx0.getD d 0 } := by
      unfold advance_slab_body
      simp only [hcond, hinc2, and_self, ne_eq, not_false_eq_true, if_true, hcur,
        Bool.false_eq_true, if_false]
    rw [hbody]
    refine ⟨inv.len, by simp only; rw [hm, inv.n_slab], ?_, ?_, ?_, ?_, ?_, ?_⟩
    · simp only
      rw [ht, htot, mul_comm]
    · intro e he
      exact inv.below e (by omega)
    · intro e he hf
      exact inv.frame e he hf
    · intro e he1 he2 hf
      simp only
      by_cases hde : d = e
      · subst hde
        rw [hcur]
        exact hb0
      · exact inv.bounds e (by omega) he2 hf
    · simp only
      rw [hc, hcur, hnd, htot]
      ring
    · simp only
      rw [hc, hcur, hc]
      simp only [Bool.false_eq_true, if_false]
      linear_combination hval
theorem down_induction (n : Nat) (P : Nat → Prop) (base : P n)
    (step : ∀ d, d < n → P (d + 1) → P d) : ∀ d, d ≤ n → P d := by
  have aux : ∀ k d, d + k = n → P d := by
    intro k
    induction k with
    | zero =>
      intro d hd
      have : d = n := by omega
      rw [this]
      exact base
    | succ j ih =>
      intro d hd
      exact step d (by omega) (ih (d + 1) (by omega))
  intro d hd
  exact aux (n - d) d (by omega)

theorem advance_slab_loop_inv (file : minc_file_struct)
    (htvi : file.to_volume_index.length = file.n_file_dimensions) (idx0 : List Int)
    (hb0 : ∀ e, e < file.n_file_dimensions → is_non_slab_dim file e = true →
      0 ≤ idx0.getD e 0 ∧ idx0.getD e 0 < file.sizes_in_file.getD e 0)
    (d : Nat) (hd : d ≤ file.n_file_dimensions) (st : AdvanceState)
    (inv : AdvanceInv file idx0 d st) :
    AdvanceInv file idx0 0 (advance_slab_loop file d st) := by
  induction d generalizing st with
  | zero => exact inv
  | succ k ih =>
    unfold advance_slab_loop
    apply ih (by omega)
    by_cases hns : is_non_slab_dim file k = true
    · exact advance_inv_visit file htvi idx0 k (by omega) st inv hns (hb0 k (by omega) hns)
    · exact advance_inv_skip file htvi idx0 k (by omega) st inv (by simpa using hns)

theorem advance_inv_init (file : minc_file_struct)
    (htvi : file.to_volume_index.length = file.n_file_dimensions) (idx0 : List Int)
    (hlen : idx0.length = file.n_file_dimensions) :
    AdvanceInv file idx0 file.n_file_dimensions
      { indices := idx0, increment := true, n_slab := 0, total := 1, n_done := 0 } := by
  refine ⟨hlen, ?_, ?_, ?_, ?_, ?_, ?_, ?_⟩
  · exact (matched_from_top file htvi).symm
  · exact (total_from_top file).symm
  · intro e _
    rfl
  · intro e _ _
    rfl
  · intro e he1 he2
    omega
  · exact (cursor_value_top file _).symm
  · simp only [if_true, cursor_value_top, total_from_top]

theorem cursor_value_bounds (file : minc_file_struct) (x : Nat → Int)
    (hb : ∀ e, e < file.n_file_dimensions → is_non_slab_dim file e = true →
      0 ≤ x e ∧ x e < file.sizes_in_file.getD e 0)
    (d : Nat) (hd : d ≤ file.n_file_dimensions) :
    1 ≤ total_from file d ∧ 0 ≤ cursor_value file x d ∧
      cursor_value file x d + 1 ≤ total_from file d := by
  apply down_induction file.n_file_dimensions
    (fun d => 1 ≤ total_from file d ∧ 0 ≤ cursor_value file x d ∧
      cursor_value file x d + 1 ≤ total_from file d) _ _ d hd
  · rw [total_from_top, cursor_value_top]
    omega
  · intro e he ih
    obtain ⟨h1, h2, h3⟩ := ih
    rw [total_from_step file e he, cursor_value_step file x e he]
    by_cases hns : is_non_slab_dim file e = true
    · obtain ⟨hx0, hx1⟩ := hb e he hns
      rw [if_pos hns, if_pos hns]
      have hW : 0 ≤ total_from file (e + 1) := by omega
      have k1 : total_from file (e + 1) * x e ≥ 0 := mul_nonneg hW hx0
      have k2 : total_from file (e + 1) * (x e + 1) ≤
          total_from file (e + 1) * file.sizes_in_file.getD e 0 :=
        mul_le_mul_of_nonneg_left (by omega) hW
      have k3 : file.sizes_in_file.getD e 0 * total_from file (e + 1) =
          total_from file (e + 1) * file.sizes_in_file.getD e 0 := mul_comm _ _
      have k4 : total_from file (e + 1) * (x e + 1) =
          total_from file (e + 1) * x e + total_from file (e + 1) := by ring
      refine ⟨?_, ?_, ?_⟩ <;> omega
    · rw [if_neg hns, if_neg hns]
      refine ⟨?_, ?_, ?_⟩ <;> omega

theorem mixed_radix_step_inj (W q1 q2 r1 r2 : Int) (hr1 : 0 ≤ r1 ∧ r1 < W)
    (hr2 : 0 ≤ r2 ∧ r2 < W) (h : W * q1 + r1 = W * q2 + r2) : q1 = q2 ∧ r1 = r2 := by
  have hq : q1 = q2 := by
    by_contra hne
    rcases lt_or_gt_of_ne hne with hlt | hgt
    · have : W * (q2 - q1) ≥ W * 1 := mul_le_mul_of_nonneg_left (by omega) (by omega)
      have e : W * (q2 - q1) = W * q2 - W * q1 := by ring
      omega
    · have : W * (q1 - q2) ≥ W * 1 := mul_le_mul_of_nonneg_left (by omega) (by omega)
      have e : W * (q1 - q2) = W * q1 - W * q2 := by ring
      omega
  subst hq
  exact ⟨rfl, by omega⟩

theorem cursor_value_inj (file : minc_file_struct) (x y : Nat → Int)
    (hx : ∀ e, e < file.n_file_dimensions → is_non_slab_dim file e = true →
      0 ≤ x e ∧ x e < file.sizes_in_file.getD e 0)
    (hy : ∀ e, e < file.n_file_dimensions → is_non_slab_dim file e = true →
      0 ≤ y e ∧ y e < file.sizes_in_file.getD e 0)
    (d : Nat) (hd : d ≤ file.n_file_dimensions)
    (h : cursor_value file x d = cursor_value file y d) :
    ∀ e, d ≤ e → e < file.n_file_dimensions → is_non_slab_dim file e = true → x e = y e := by
  revert h
  apply down_induction file.n_file_dimensions
    (fun d => cursor_value file x d = cursor_value file y d →
      ∀ e, d ≤ e → e < file.n_file_dimensions → is_non_slab_dim file e = true → x e = y e)
    _ _ d hd
  · intro _ e he1 he2
    omega
  · intro c hc ih h e he1 he2 hns
    rw [cursor_value_step file x c hc, cursor_value_step file y c hc] at h
    by_cases hnc : is_non_slab_dim file c = true
    · rw [if_pos hnc, if_pos hnc] at h
      obtain ⟨_, bx0, bx1⟩ := cursor_value_bounds file x hx (c + 1) (by omega)
      obtain ⟨_, by0, by1⟩ := cursor_value_bounds file y hy (c + 1) (by omega)
      obtain ⟨e1, e2⟩ := mixed_radix_step_inj _ _ _ _ _ ⟨bx0, by omega⟩ ⟨by0, by omega⟩ h
      by_cases hce : c = e
      · subst hce
        exact e1
      · exact ih e2 e (by omega) he2 hns
    · rw [if_neg hnc, if_neg hnc, zero_add, zero_add] at h
      have hce : c ≠ e := by
        intro hh
        subst hh
        exact hnc hns
      exact ih h e (by omega) he2 hns

theorem product_of_lengths_eq (file : minc_file_struct) (p : Nat → Bool) :
    product_of_lengths file p =
      Finset.prod (Finset.Ico 0 file.n_file_dimensions)
        (fun e => if p e = true then file.sizes_in_file.getD e 0 else 1) := by
  unfold product_of_lengths
  rw [← Finset.range_eq_Ico]
  induction file.n_file_dimensions with
  | zero => simp
  | succ k ih =>
    rw [List.range_succ, List.filter_append, List.map_append, List.prod_append, ih,
      Finset.prod_range_succ, List.filter_cons]
    by_cases h : p k = true
    · rw [if_pos h, if_pos h]
      simp
    · rw [if_neg h, if_neg h]
      simp

theorem non_slab_total_eq (file : minc_file_struct) :
    non_slab_total file = total_from file 0 :=
  product_of_lengths_eq file _
theorem input_more_step (fails : List Int → List Int → Bool) (g : minc_file_struct)
    (htvi : g.to_volume_index.length = g.n_file_dimensions)
    (hlen : g.indices.length = g.n_file_dimensions)
    (hb : ∀ e, e < g.n_file_dimensions → is_non_slab_dim g e = true →
      0 ≤ g.indices.getD e 0 ∧ g.indices.getD e 0 < g.sizes_in_file.getD e 0)
    (hflag : g.end_volume_flag = false) (hnc : g.volume.is_cached_volume = false) :
    (input_more_minc_file fails g).window = some (g.indices, slab_count g) ∧
    (cursor_value g (fun e => g.indices.getD e 0) 0 + 1 < total_from g 0 →
      (input_more_minc_file fails g).more = true ∧
      (input_more_minc_file fails g).fraction_done =
        some (((cursor_value g (fun e => g.indices.getD e 0) 0 + 1 : Int) : ℚ) /
          ((total_from g 0 : Int) : ℚ)) ∧
      ∃ idx, (input_more_minc_file fails g).file = { g with indices := idx } ∧
        idx.length = g.n_file_dimensions ∧
        cursor_value g (fun e => idx.getD e 0) 0 =
          cursor_value g (fun e => g.indices.getD e 0) 0 + 1 ∧
        (∀ e, e < g.n_file_dimensions → is_non_slab_dim g e = true →
          0 ≤ idx.getD e 0 ∧ idx.getD e 0 < g.sizes_in_file.getD e 0) ∧
        (∀ e, e < g.n_file_dimensions → is_non_slab_dim g e = false →
          idx.getD e 0 = g.indices.getD e 0)) ∧
    (¬ cursor_value g (fun e => g.indices.getD e 0) 0 + 1 < total_from g 0 →
      cursor_value g (fun e => g.indices.getD e 0) 0 + 1 = total_from g 0 ∧
      (input_more_minc_file fails g).more = false ∧
      (input_more_minc_file fails g).fraction_done = some 1) := by
  have inv := advance_slab_loop_inv g htvi g.indices hb g.n_file_dimensions (le_refl _) _
    (advance_inv_init g htvi g.indices hlen)
  have hbV := cursor_value_bounds g (fun e => g.indices.getD e 0) hb 0 (Nat.zero_le _)
  have hbS := cursor_value_bounds g
    (fun e => (advance_slab_loop g g.n_file_dimensions
      { indices := g.indices, increment := true, n_slab := 0, total := 1,
        n_done := 0 }).indices.getD e 0)
    (fun e he hns => inv.bounds e (Nat.zero_le _) he hns) 0 (Nat.zero_le _)
  have hval := inv.value
  have hnd := inv.n_done
  have htot := inv.total
  unfold input_more_minc_file
  simp only [hflag, hnc, Bool.false_eq_true, if_false]
  by_cases hinc : (advance_slab_loop g g.n_file_dimensions
      { indices := g.indices, increment := true, n_slab := 0, total := 1,
        n_done := 0 }).increment = true
  · rw [if_pos hinc] at hval
    simp only [hinc, if_true]
    refine ⟨trivial, ?_, ?_⟩
    · intro hlt
      omega
    · intro _
      refine ⟨by omega, trivial, trivial⟩
  · rw [if_neg hinc] at hval
    rw [Bool.not_eq_true] at hinc
    simp only [hinc, Bool.false_eq_true, if_false]
    refine ⟨trivial, ?_, ?_⟩
    · intro _
      refine ⟨trivial, ?_, _, rfl, inv.len, by omega, ?_, ?_⟩
      · rw [hnd, htot]
        congr 3
        omega
      · intro e he hns
        exact inv.bounds e (Nat.zero_le _) he hns
      · intro e he hns
        exact inv.frame e he hns
    · intro hge
      omega

theorem cursor_value_zero (file : minc_file_struct) (x : Nat → Int) (d : Nat)
    (h : ∀ e, e < file.n_file_dimensions → is_non_slab_dim file e = true → x e = 0) :
    cursor_value file x d = 0 := by
  unfold cursor_value
  apply Finset.sum_eq_zero
  intro e he
  rw [Finset.mem_Ico] at he
  by_cases hns : is_non_slab_dim file e = true
  · rw [if_pos hns, h e he.2 hns, mul_zero]
  · rw [if_neg hns]

theorem is_matched_of_non_slab (file : minc_file_struct) (d : Nat)
    (h : is_non_slab_dim file d = true) : is_matched file d = true := by
  unfold is_non_slab_dim at h
  rw [Bool.and_eq_true] at h
  exact h.1

theorem input_more_iterate_spec (fails : List Int → List Int → Bool)
    (file : minc_file_struct)
    (htvi : file.to_volume_index.length = file.n_file_dimensions)
    (hlen : file.indices.length = file.n_file_dimensions)
    (hzero : ∀ d, d < file.n_file_dimensions → is_matched file d = true →
      file.indices.getD d 0 = 0)
    (hs : ∀ d, d < file.n_file_dimensions → is_matched file d = true →
      1 ≤ file.sizes_in_file.getD d 0)
    (hflag : file.end_volume_flag = false) (hnc : file.volume.is_cached_volume = false)
    (k : Nat) (hk : (k : Int) < total_from file 0) :
    ∃ idx, input_more_iterate fails k file = { file with indices := idx } ∧
      idx.length = file.n_file_dimensions ∧
      cursor_value file (fun e => idx.getD e 0) 0 = (k : Int) ∧
      (∀ e, e < file.n_file_dimensions → is_non_slab_dim file e = true →
        0 ≤ idx.getD e 0 ∧ idx.getD e 0 < file.sizes_in_file.getD e 0) ∧
      (∀ e, e < file.n_file_dimensions → is_non_slab_dim file e = false →
        idx.getD e 0 = file.indices.getD e 0) := by
  induction k with
  | zero =>
    refine ⟨file.indices, rfl, hlen, ?_, ?_, ?_⟩
    · rw [cursor_value_zero file _ 0
        (fun e he hns => hzero e he (is_matched_of_non_slab file e hns))]
      rfl
    · intro e he hns
      have hm := is_matched_of_non_slab file e hns
      rw [hzero e he hm]
      have := hs e he hm
      omega
    · intro e _ _
      rfl
  | succ j ih =>
    obtain ⟨idx, hit, hl, hv, hb, hf⟩ := ih (by push_cast at hk; omega)
    have hstep := input_more_step fails { file with indices := idx } htvi hl hb hflag hnc
    obtain ⟨_, hlt, _⟩ := hstep
    have hv2 : cursor_value { file with indices := idx } (fun e => idx.getD e 0) 0 = (j : Int) :=
      hv
    have hlt2 := hlt (by
      show cursor_value file (fun e => idx.getD e 0) 0 + 1 < total_from file 0
      rw [hv]
      push_cast at hk
      exact hk)
    obtain ⟨_, _, idx2, e1, e2, e3, e4, e5⟩ := hlt2
    refine ⟨idx2, ?_, e2, ?_, e4, ?_⟩
    · show (input_more_minc_file fails (input_more_iterate fails j file)).file = _
      rw [hit, e1]
    · have : cursor_value file (fun e => idx2.getD e 0) 0 =
          cursor_value file (fun e => idx.getD e 0) 0 + 1 := e3
      rw [this, hv]
      push_cast
      rfl
    · intro e he hns
      have : idx2.getD e 0 = idx.getD e 0 := e5 e he hns
      rw [this]
      exact hf e he hns

theorem matched_from_antitone (file : minc_file_struct)
    (h : file.to_volume_index.length = file.n_file_dimensions) (d : Nat)
    (hd : d ≤ file.n_file_dimensions) :
    ∀ e, e ≤ d → matched_from file d ≤ matched_from file e := by
  induction d with
  | zero =>
    intro e he
    have : e = 0 := by omega
    rw [this]
  | succ k ih =>
    intro e he
    by_cases hek : e = k + 1
    · rw [hek]
    · have := ih (by omega) e (by omega)
      have := matched_from_mono file h k (by omega)
      omega

theorem slab_count_loop_spec (g : minc_file_struct)
    (htvi : g.to_volume_index.length = g.n_file_dimensions) (d : Nat)
    (hd : d ≤ g.n_file_dimensions) (count : List Int) (n_slab : Nat)
    (hn : n_slab = matched_from g d) (hlen : count.length = g.n_file_dimensions)
    (hdone : ∀ e, d ≤ e → e < g.n_file_dimensions →
      count.getD e 0 = if is_slab_dim g e = true then g.sizes_in_file.getD e 0 else 1)
    (htodo : ∀ e, e < d → count.getD e 0 = 1) :
    (slab_count_loop g d count n_slab).length = g.n_file_dimensions ∧
    ∀ e, e < g.n_file_dimensions →
      (slab_count_loop g d count n_slab).getD e 0 =
        if is_slab_dim g e = true then g.sizes_in_file.getD e 0 else 1 := by
  induction d generalizing count n_slab with
  | zero =>
    exact ⟨hlen, fun e he => hdone e (Nat.zero_le _) he⟩
  | succ k ih =>
    have hstep := matched_from_step g htvi k (by omega)
    unfold slab_count_loop
    by_cases hlt : n_slab < g.n_slab_dims
    · rw [if_pos hlt]
      by_cases hm : g.to_volume_index.getD k INVALID_AXIS ≠ INVALID_AXIS
      · rw [if_pos hm]
        have hmat : is_matched g k = true := by
          unfold is_matched
          exact decide_eq_true hm
        have hslab : is_slab_dim g k = true := by
          unfold is_slab_dim
          rw [hmat, ← hn]
          simpa using hlt
        apply ih (by omega)
        · rw [hstep, if_pos hmat, hn]
        · simp [hlen]
        · intro e he1 he2
          by_cases hek : k = e
          · subst hek
            rw [getD_set_self _ _ _ _ (by omega), if_pos hslab]
          · rw [getD_set_of_ne _ _ _ _ _ hek]
            exact hdone e (by omega) he2
        · intro e he
          rw [getD_set_of_ne _ _ _ _ _ (by omega)]
          exact htodo e (by omega)
      · rw [if_neg hm]
        have hmat : is_matched g k = false := by
          unfold is_matched
          exact decide_eq_false hm
        have hslab : is_slab_dim g k = false := by
          unfold is_slab_dim
          rw [hmat]
          rfl
        apply ih (by omega)
        · rw [hstep, hmat, hn]
          simp
        · exact hlen
        · intro e he1 he2
          by_cases hek : k = e
          · subst hek
            rw [hslab, htodo k (by omega)]
            simp
          · exact hdone e (by omega) he2
        · intro e he
          exact htodo e (by omega)
    · rw [if_neg hlt]
      refine ⟨hlen, ?_⟩
      intro e he
      by_cases hek : k + 1 ≤ e
      · exact hdone e hek he
      · have hanti := matched_from_antitone g htvi (k + 1) hd (e + 1) (by omega)
        have hslab : is_slab_dim g e = false := by
          unfold is_slab_dim
          have : ¬ matched_from g (e + 1) < g.n_slab_dims := by omega
          simp [this]
        rw [hslab, htodo e (by omega)]
        simp

theorem slab_count_spec (g : minc_file_struct)
    (htvi : g.to_volume_index.length = g.n_file_dimensions) :
    (slab_count g).length = g.n_file_dimensions ∧
    ∀ e, e < g.n_file_dimensions →
      (slab_count g).getD e 0 =
        if is_slab_dim g e = true then g.sizes_in_file.getD e 0 else 1 := by
  unfold slab_count
  apply slab_count_loop_spec g htvi _ (le_refl _)
  · exact (matched_from_top g htvi).symm
  · simp
  · intro e he1 he2
    omega
  · intro e he
    exact getD_replicate_lt _ _ _ _ he
theorem getD_map_range_from {α : Type} (W : Nat → α) (j m k : Nat) (d : α) (hk : k < m) :
    ((List.range' j m).map W).getD k d = W (j + k) := by
  simp [List.getD_eq_getElem?_getD, List.getElem?_map, List.getElem?_range', hk]

theorem traverse_volume_succ (fails : List Int → List Int → Bool) (fuel : Nat)
    (g : minc_file_struct) (w : List Int × List Int)
    (hw : (input_more_minc_file fails g).window = some w) :
    traverse_volume fails (fuel + 1) g =
      if (input_more_minc_file fails g).more = true then
        (w :: (traverse_volume fails fuel (input_more_minc_file fails g).file).1,
          (traverse_volume fails fuel (input_more_minc_file fails g).file).2)
      else ([w], true) := by
  rw [traverse_volume]
  simp only [hw, Option.toList_some]
  split <;> rfl

theorem input_more_iterate_call (fails : List Int → List Int → Bool)
    (file : minc_file_struct)
    (htvi : file.to_volume_index.length = file.n_file_dimensions)
    (hlen : file.indices.length = file.n_file_dimensions)
    (hzero : ∀ d, d < file.n_file_dimensions → is_matched file d = true →
      file.indices.getD d 0 = 0)
    (hs : ∀ d, d < file.n_file_dimensions → is_matched file d = true →
      1 ≤ file.sizes_in_file.getD d 0)
    (hflag : file.end_volume_flag = false) (hnc : file.volume.is_cached_volume = false)
    (j : Nat) (hj : (j : Int) < total_from file 0) :
    (input_more_minc_file fails (input_more_iterate fails j file)).window =
      some ((input_more_iterate fails j file).indices,
        slab_count (input_more_iterate fails j file)) ∧
    ((j : Int) + 1 < total_from file 0 →
      (input_more_minc_file fails (input_more_iterate fails j file)).more = true) ∧
    (¬ (j : Int) + 1 < total_from file 0 →
      (input_more_minc_file fails (input_more_iterate fails j file)).more = false) := by
  obtain ⟨idx, hit, hl, hv, hb, _⟩ :=
    input_more_iterate_spec fails file htvi hlen hzero hs hflag hnc j hj
  obtain ⟨hw, hlt, hge⟩ :=
    input_more_step fails { file with indices := idx } htvi hl hb hflag hnc
  rw [hit]
  refine ⟨hw, ?_, ?_⟩
  · intro h
    refine (hlt ?_).1
    show cursor_value file (fun e => idx.getD e 0) 0 + 1 < total_from file 0
    rw [hv]
    exact h
  · intro h
    refine (hge ?_).2.1
    show ¬ cursor_value file (fun e => idx.getD e 0) 0 + 1 < total_from file 0
    rw [hv]
    exact h

theorem traverse_volume_eq (fails : List Int → List Int → Bool)
    (file : minc_file_struct)
    (htvi : file.to_volume_index.length = file.n_file_dimensions)
    (hlen : file.indices.length = file.n_file_dimensions)
    (hzero : ∀ d, d < file.n_file_dimensions → is_matched file d = true →
      file.indices.getD d 0 = 0)
    (hs : ∀ d, d < file.n_file_dimensions → is_matched file d = true →
      1 ≤ file.sizes_in_file.getD d 0)
    (hflag : file.end_volume_flag = false) (hnc : file.volume.is_cached_volume = false)
    (m : Nat) : ∀ j fuel, j + m = (total_from file 0).toNat → 1 ≤ m → m ≤ fuel →
      traverse_volume fails fuel (input_more_iterate fails j file) =
        ((List.range' j m).map
          (fun i => ((input_more_iterate fails i file).indices,
            slab_count (input_more_iterate fails i file))), true) := by
  induction m with
  | zero =>
    intro j fuel _ h1
    omega
  | succ n ih =>
    intro j fuel hj _ hfuel
    obtain ⟨f, rfl⟩ : ∃ f, fuel = f + 1 := ⟨fuel - 1, by omega⟩
    obtain ⟨hw, hlt, hge⟩ :=
      input_more_iterate_call fails file htvi hlen hzero hs hflag hnc j (by omega)
    rw [traverse_volume_succ fails f _ _ hw]
    by_cases hn : n = 0
    · subst hn
      rw [hge (by omega)]
      simp
    · rw [hlt (by omega), if_pos rfl]
      have hrec := ih (j + 1) f (by omega) (by omega) (by omega)
      have hnext : input_more_iterate fails (j + 1) file =
          (input_more_minc_file fails (input_more_iterate fails j file)).file := rfl
      rw [hnext] at hrec
      rw [hrec, List.range'_succ, List.map_cons]
theorem matched_dichotomy (file : minc_file_struct) (d : Nat)
    (h : is_matched file d = true) :
    (is_non_slab_dim file d = true ∧ is_slab_dim file d = false) ∨
    (is_non_slab_dim file d = false ∧ is_slab_dim file d = true) := by
  unfold is_non_slab_dim is_slab_dim
  rw [h]
  by_cases hlt : matched_from file (d + 1) < file.n_slab_dims
  · right
    have : ¬ file.n_slab_dims ≤ matched_from file (d + 1) := by omega
    simp [hlt, this]
  · left
    have : file.n_slab_dims ≤ matched_from file (d + 1) := by omega
    simp [hlt, this]

theorem is_matched_of_slab (file : minc_file_struct) (d : Nat)
    (h : is_slab_dim file d = true) : is_matched file d = true := by
  unfold is_slab_dim at h
  rw [Bool.and_eq_true] at h
  exact h.1

theorem in_window_iff (file : minc_file_struct)
    (htvi : file.to_volume_index.length = file.n_file_dimensions)
    (hzero : ∀ d, d < file.n_file_dimensions → is_matched file d = true →
      file.indices.getD d 0 = 0)
    (idx : List Int)
    (hframe : ∀ e, e < file.n_file_dimensions → is_non_slab_dim file e = false →
      idx.getD e 0 = file.indices.getD e 0)
    (x : Nat → Int) :
    in_window file (idx, slab_count { file with indices := idx }) x ↔
      (∀ d, d < file.n_file_dimensions → is_slab_dim file d = true →
        0 ≤ x d ∧ x d < file.sizes_in_file.getD d 0) ∧
      (∀ d, d < file.n_file_dimensions → is_non_slab_dim file d = true →
        x d = idx.getD d 0) := by
  have hsp : ∀ e, e < file.n_file_dimensions →
      (slab_count { file with indices := idx }).getD e 0 =
        if is_slab_dim file e = true then file.sizes_in_file.getD e 0 else 1 :=
    (slab_count_spec { file with indices := idx } htvi).2
  unfold in_window
  simp only
  constructor
  · intro h
    constructor
    · intro d hd hsl
      have hm := is_matched_of_slab file d hsl
      have hw := h d hd hm
      rw [hsp d hd, if_pos hsl] at hw
      have hns : is_non_slab_dim file d = false := by
        rcases matched_dichotomy file d hm with ⟨_, h2⟩ | ⟨h1, _⟩
        · rw [hsl] at h2
          exact Bool.noConfusion h2
        · exact h1
      rw [hframe d hd hns, hzero d hd hm] at hw
      omega
    · intro d hd hns
      have hm := is_matched_of_non_slab file d hns
      have hw := h d hd hm
      have hsl : is_slab_dim file d = false := by
        rcases matched_dichotomy file d hm with ⟨_, h2⟩ | ⟨h1, _⟩
        · exact h2
        · rw [hns] at h1
          exact Bool.noConfusion h1
      rw [hsp d hd, hsl] at hw
      simp only [Bool.false_eq_true, if_false] at hw
      omega
  · rintro ⟨h1, h2⟩ d hd hm
    rw [hsp d hd]
    rcases matched_dichotomy file d hm with ⟨hns, hsl⟩ | ⟨hns, hsl⟩
    · rw [hsl, h2 d hd hns]
      simp
    · rw [if_pos hsl, hframe d hd hns, hzero d hd hm]
      have := h1 d hd hsl
      omega

theorem list_prod_of_entries (n : Nat) (f : Nat → Int) :
    ∀ l : List Int, l.length = n → (∀ e, e < n → l.getD e 0 = f e) →
      l.prod = Finset.prod (Finset.range n) f := by
  induction n with
  | zero =>
    intro l hl _
    rw [List.length_eq_zero] at hl
    subst hl
    rfl
  | succ k ih =>
    intro l hl h
    have hne : l ≠ [] := by
      intro e
      rw [e] at hl
      simp at hl
    have hsplit := List.dropLast_append_getLast hne
    have hlen2 : l.dropLast.length = k := by simp [hl]
    have hlast : l.getLast hne = f k := by
      rw [← h k (by omega), List.getLast_eq_getElem, List.getD_eq_getElem?_getD,
        List.getElem?_eq_getElem (by omega)]
      simp [hl]
    have hfront : ∀ e, e < k → l.dropLast.getD e 0 = f e := by
      intro e he
      rw [← h e (by omega)]
      conv_rhs => rw [← hsplit]
      rw [List.getD_eq_getElem?_getD, List.getD_eq_getElem?_getD,
        List.getElem?_append_left (by omega)]
    rw [← hsplit, List.prod_append, ih _ hlen2 hfront, Finset.prod_range_succ, hlast]
    simp

theorem slab_window_elements (file : minc_file_struct)
    (htvi : file.to_volume_index.length = file.n_file_dimensions) (idx : List Int) :
    window_elements (idx, slab_count { file with indices := idx }) =
      product_of_lengths file (is_slab_dim file) := by
  have hsp := slab_count_spec { file with indices := idx } htvi
  unfold window_elements
  rw [product_of_lengths_eq, ← Finset.range_eq_Ico]
  exact list_prod_of_entries file.n_file_dimensions _ _ hsp.1 hsp.2

theorem matched_total_split (file : minc_file_struct) :
    matched_total file = total_from file 0 * product_of_lengths file (is_slab_dim file) := by
  unfold matched_total total_from
  rw [product_of_lengths_eq, product_of_lengths_eq, ← Finset.prod_mul_distrib]
  apply Finset.prod_congr rfl
  intro d _
  by_cases hm : is_matched file d = true
  · rcases matched_dichotomy file d hm with ⟨hns, hsl⟩ | ⟨hns, hsl⟩
    · rw [hm, hns, hsl]
      simp
    · rw [hm, hns, hsl]
      simp
  · have hns : is_non_slab_dim file d = false := by
      unfold is_non_slab_dim
      simp [hm]
    have hsl : is_slab_dim file d = false := by
      unfold is_slab_dim
      simp [hm]
    rw [Bool.not_eq_true] at hm
    rw [hm, hns, hsl]
    simp

/-- C4: for a non-cached session with all matched lengths at least 1, starting
from the zero cursor, one full traversal by `input_more_minc_file` (calls
repeated until it returns FALSE) ends, every voxel of the index space of the
matched dimensions lies in exactly one read window, every window lies inside
that index space, and the windows' element counts sum to the product of all
matched dimension lengths. -/
theorem traversal_covers_once (fails : List Int → List Int → Bool)
    (file : minc_file_struct)
    (htvi : file.to_volume_index.length = file.n_file_dimensions)
    (hlen : file.indices.length = file.n_file_dimensions)
    (hzero : ∀ d, d < file.n_file_dimensions → is_matched file d = true →
      file.indices.getD d 0 = 0)
    (hs : ∀ d, d < file.n_file_dimensions → is_matched file d = true →
      1 ≤ file.sizes_in_file.getD d 0)
    (hflag : file.end_volume_flag = false) (hnc : file.volume.is_cached_volume = false)
    (fuel : Nat) (hfuel : (non_slab_total file).toNat ≤ fuel) :
    (traverse_volume fails fuel file).2 = true ∧
    (∀ x, in_index_space file x →
      ∃! k, k < (traverse_volume fails fuel file).1.length ∧
        in_window file ((traverse_volume fails fuel file).1.getD k ([], [])) x) ∧
    (∀ k x, k < (traverse_volume fails fuel file).1.length →
      in_window file ((traverse_volume fails fuel file).1.getD k ([], [])) x →
      in_index_space file x) ∧
    ((traverse_volume fails fuel file).1.map window_elements).sum = matched_total file := by
  rw [non_slab_total_eq] at hfuel
  have hb0 : ∀ e, e < file.n_file_dimensions → is_non_slab_dim file e = true →
      0 ≤ file.indices.getD e 0 ∧ file.indices.getD e 0 < file.sizes_in_file.getD e 0 := by
    intro e he hns
    have hm := is_matched_of_non_slab file e hns
    rw [hzero e he hm]
    have := hs e he hm
    omega
  have hT := (cursor_value_bounds file (fun e => file.indices.getD e 0) hb0 0
    (Nat.zero_le _)).1
  have htr := traverse_volume_eq fails file htvi hlen hzero hs hflag hnc
    (total_from file 0).toNat 0 fuel (by omega) (by omega) hfuel
  have h0 : input_more_iterate fails 0 file = file := rfl
  rw [h0] at htr
  rw [htr]
  have hget : ∀ k, k < (total_from file 0).toNat →
      ∃ idx, ((List.range' 0 (total_from file 0).toNat).map
          (fun i => ((input_more_iterate fails i file).indices,
            slab_count (input_more_iterate fails i file)))).getD k ([], []) =
          (idx, slab_count { file with indices := idx }) ∧
        cursor_value file (fun e => idx.getD e 0) 0 = (k : Int) ∧
        (∀ e, e < file.n_file_dimensions → is_non_slab_dim file e = true →
          0 ≤ idx.getD e 0 ∧ idx.getD e 0 < file.sizes_in_file.getD e 0) ∧
        (∀ e, e < file.n_file_dimensions → is_non_slab_dim file e = false →
          idx.getD e 0 = file.indices.getD e 0) := by
    intro k hk
    obtain ⟨idx, hit, _, hv, hb, hf⟩ :=
      input_more_iterate_spec fails file htvi hlen hzero hs hflag hnc k (by omega)
    refine ⟨idx, ?_, hv, hb, hf⟩
    rw [getD_map_range_from _ 0 _ k _ hk, Nat.zero_add, hit]
  simp only [List.length_map, List.length_range']
  refine ⟨trivial, ?_, ?_, ?_⟩
  · intro x hx
    have hxb : ∀ e, e < file.n_file_dimensions → is_non_slab_dim file e = true →
        0 ≤ x e ∧ x e < file.sizes_in_file.getD e 0 :=
      fun e he hns => hx e he (is_matched_of_non_slab file e hns)
    obtain ⟨_, hv0, hv1⟩ := cursor_value_bounds file x hxb 0 (Nat.zero_le _)
    have hk0 : (cursor_value file x 0).toNat < (total_from file 0).toNat := by omega
    refine ⟨(cursor_value file x 0).toNat, ⟨hk0, ?_⟩, ?_⟩
    · obtain ⟨idx, hw, hv, hb, hf⟩ := hget _ hk0
      rw [hw, in_window_iff file htvi hzero idx hf]
      refine ⟨fun d hd hsl => hx d hd (is_matched_of_slab file d hsl), ?_⟩
      intro d hd hns
      have heq : cursor_value file x 0 = cursor_value file (fun e => idx.getD e 0) 0 := by
        rw [hv]
        omega
      exact cursor_value_inj file x _ hxb hb 0 (Nat.zero_le _) heq d (Nat.zero_le _) hd hns
    · rintro k ⟨hk, hin⟩
      obtain ⟨idx, hw, hv, _, hf⟩ := hget k hk
      rw [hw, in_window_iff file htvi hzero idx hf] at hin
      have heq : cursor_value file x 0 = cursor_value file (fun e => idx.getD e 0) 0 :=
        cursor_value_congr file _ _ 0 (fun e _ he hns => hin.2 e he hns)
      rw [heq, hv]
      omega
  · intro k x hk hin d hd hm
    obtain ⟨idx, hw, _, hb, hf⟩ := hget k hk
    rw [hw, in_window_iff file htvi hzero idx hf] at hin
    rcases matched_dichotomy file d hm with ⟨hns, _⟩ | ⟨_, hsl⟩
    · rw [hin.2 d hd hns]
      exact hb d hd hns
    · exact hin.1 d hd hsl
  · rw [List.map_map, matched_total_split]
    have hconst : ∀ v ∈ (List.range' 0 (total_from file 0).toNat).map
        (window_elements ∘ (fun i => ((input_more_iterate fails i file).indices,
          slab_count (input_more_iterate fails i file)))),
        v = product_of_lengths file (is_slab_dim file) := by
      intro v hv
      rw [List.mem_map] at hv
      obtain ⟨i, hi, rfl⟩ := hv
      rw [List.mem_range'_1] at hi
      obtain ⟨idx, hit, _⟩ :=
        input_more_iterate_spec fails file htvi hlen hzero hs hflag hnc i (by omega)
      show window_elements ((input_more_iterate fails i file).indices,
        slab_count (input_more_iterate fails i file)) = _
      rw [hit]
      exact slab_window_elements file htvi idx
    rw [List.sum_eq_card_nsmul _ _ hconst]
    simp only [List.length_map, List.length_range', nsmul_eq_mul]
    congr 1
    omega

theorem traversal_covers_once_witness :
    exampleSession.to_volume_index.length = exampleSession.n_file_dimensions ∧
    exampleSession.indices.length = exampleSession.n_file_dimensions ∧
    (∀ d, d < exampleSession.n_file_dimensions → is_matched exampleSession d = true →
      exampleSession.indices.getD d 0 = 0) ∧
    (∀ d, d < exampleSession.n_file_dimensions → is_matched exampleSession d = true →
      1 ≤ exampleSession.sizes_in_file.getD d 0) ∧
    (non_slab_total exampleSession).toNat ≤ 1 ∧
    ((traverse_volume (fun _ _ => false) 1 exampleSession).1.map window_elements).sum
      = 1000 :=
  ⟨by decide, by decide, by decide, by decide, by decide,
    (traversal_covers_once (fun _ _ => false) exampleSession (by decide) (by decide)
      (by decide) (by decide) rfl rfl 1 (by decide)).2.2.2.trans (by decide)⟩

/-! ## The direct path of `input_minc_hyperslab` -/

/-- C6, the code at the failing input: on a file `xspace:5, yspace:20000,
zspace:1` read into a volume `(zspace, yspace, xspace)` whose array extents
equal the file lengths, the first slab read has the window
`start = [0,0,0], count = [1,20000,1]`, `input_minc_hyperslab` selects the
direct path, and the second value of the window is stored at offset 1 from the
window start, while the buffered path stores it at offset 5 (the stride of
`yspace` in the destination). -/
theorem direct_path_misplaces :
    initialize_minc_input_from_minc_id standardHeaders thinFileDims exampleVolume none
      = some thinSession ∧
    (∀ d, d < 3 →
      thinSession.volume.sizes.getD (thinSession.to_volume_index.getD d INVALID_AXIS).toNat 0
        = thinSession.sizes_in_file.getD d 0) ∧
    (input_more_minc_file (fun _ _ => false) thinSession).window
      = some ([0, 0, 0], [1, 20000, 1]) ∧
    (input_minc_hyperslab (fun _ _ => false) thinSession 3 thinSession.to_volume_index
      [0, 0, 0] [1, 20000, 1]).direct = true ∧
    direct_path_offset 1 = 1 ∧
    buffered_path_offset thinSession.volume.sizes
      (buffer_layout 3 (hyperslab_scan 3 thinSession.sizes_in_file 3
        thinSession.to_volume_index [0, 0, 0] [1, 20000, 1])).1
      (buffer_layout 3 (hyperslab_scan 3 thinSession.sizes_in_file 3
        thinSession.to_volume_index [0, 0, 0] [1, 20000, 1])).2.1
      (buffer_layout 3 (hyperslab_scan 3 thinSession.sizes_in_file 3
        thinSession.to_volume_index [0, 0, 0] [1, 20000, 1])).2.2 1 = 5 := by
  refine ⟨by decide, by decide, by decide, by decide, by decide, by decide⟩

/-- A freshly opened session satisfies the structural hypotheses of the
traversal theorems: one forward-map entry and one cursor entry per file
dimension, the zero cursor, and a clear end-of-volume flag. -/
theorem opened_session_ready (env : HeaderConstants) (file_dims : List (String × Int))
    (volume : Volume) (options : Option minc_input_options) (file : minc_file_struct)
    (h : initialize_minc_input_from_minc_id env file_dims volume options = some file) :
    file.to_volume_index.length = file.n_file_dimensions ∧
    file.indices.length = file.n_file_dimensions ∧
    (∀ d, d < file.n_file_dimensions → file.indices.getD d 0 = 0) ∧
    file.end_volume_flag = false := by
  obtain ⟨hlen, _, _⟩ := session_forward_map env file_dims volume options file h
  obtain ⟨_, _, _, _, _, _, _, _, _, _, _, hi, hf, _⟩ :=
    initialize_spec env file_dims volume options file h
  refine ⟨hlen, by rw [hi]; simp, ?_, hf⟩
  intro d hd
  rw [hi]
  exact getD_replicate_lt _ _ _ _ hd

/-! ## The copy-back of file names -/

theorem copy_back_spec (any : String) (fn : List String) (tfi : List Int) (vn : List String)
    (m : Nat) (hm : m ≤ vn.length) :
    ((List.range m).foldl
        (fun names i =>
          if names.getD i "" == any ∨ (names.getD i "").length = 0 then
            names.set i (fn.getD (tfi.getD i (-1)).toNat "")
          else names) vn).length = vn.length ∧
    (∀ i, i < m →
      ((List.range m).foldl
        (fun names i =>
          if names.getD i "" == any ∨ (names.getD i "").length = 0 then
            names.set i (fn.getD (tfi.getD i (-1)).toNat "")
          else names) vn).getD i "" =
        if vn.getD i "" == any ∨ (vn.getD i "").length = 0 then
          fn.getD (tfi.getD i (-1)).toNat ""
        else vn.getD i "") ∧
    (∀ i, m ≤ i →
      ((List.range m).foldl
        (fun names i =>
          if names.getD i "" == any ∨ (names.getD i "").length = 0 then
            names.set i (fn.getD (tfi.getD i (-1)).toNat "")
          else names) vn).getD i "" = vn.getD i "") := by
  induction m with
  | zero =>
    refine ⟨rfl, ?_, fun i _ => rfl⟩
    intro i hi
    omega
  | succ k ih =>
    obtain ⟨h1, h2, h3⟩ := ih (by omega)
    rw [foldl_range_succ]
    have hk := h3 k (le_refl _)
    rw [hk]
    by_cases hc : vn.getD k "" == any ∨ (vn.getD k "").length = 0
    · rw [if_pos hc]
      refine ⟨by rw [List.length_set]; exact h1, ?_, ?_⟩
      · intro i hi
        by_cases hik : k = i
        · subst hik
          rw [getD_set_self _ _ _ _ (by omega), if_pos hc]
        · rw [getD_set_of_ne _ _ _ _ _ hik]
          exact h2 i (by omega)
      · intro i hi
        rw [getD_set_of_ne _ _ _ _ _ (by omega)]
        exact h3 i (by omega)
    · rw [if_neg hc]
      refine ⟨h1, ?_, fun i hi => h3 i (by omega)⟩
      intro i hi
      by_cases hik : k = i
      · subst hik
        rw [hk, if_neg hc]
      · exact h2 i (by omega)

/-- C14: whenever `match_dimension_names` succeeds, every volume dimension whose
name was `ANY_SPATIAL_DIMENSION` or the empty string gets the name of the file
dimension it was bound to, and every other volume dimension name is left
unchanged. -/
theorem matched_names_copied_back (env : HeaderConstants) (vn fn : List String)
    (h : (match_dimension_names env vn fn).matched = true) :
    (match_dimension_names env vn fn).volume_dimension_names.length = vn.length ∧
    ∀ i, i < vn.length →
      ((vn.getD i "" = env.ANY_SPATIAL_DIMENSION ∨ (vn.getD i "").length = 0) →
        ∃ j, j < fn.length ∧
          (match_dimension_names env vn fn).to_volume_index.getD j INVALID_AXIS = (i : Int) ∧
          (match_dimension_names env vn fn).volume_dimension_names.getD i "" =
            fn.getD j "") ∧
      (¬ (vn.getD i "" = env.ANY_SPATIAL_DIMENSION ∨ (vn.getD i "").length = 0) →
        (match_dimension_names env vn fn).volume_dimension_names.getD i "" =
          vn.getD i "") := by
  have inv := match_passes_inv env vn fn
  have hall := match_found_all env vn fn h
  have hn : (match_passes env vn fn).n_matches = (vn.length : Int) := by
    simpa [match_dimension_names] using h
  have hnames : (match_dimension_names env vn fn).volume_dimension_names =
      (List.range vn.length).foldl
        (fun names i =>
          if names.getD i "" == env.ANY_SPATIAL_DIMENSION ∨ (names.getD i "").length = 0 then
            names.set i (fn.getD ((match_passes env vn fn).to_file_index.getD i (-1)).toNat "")
          else names) vn := by
    simp only [match_dimension_names, hn, if_true]
  have e : (match_dimension_names env vn fn).to_volume_index
      = (match_passes env vn fn).to_volume_index := rfl
  obtain ⟨h1, h2, _⟩ := copy_back_spec env.ANY_SPATIAL_DIMENSION fn
    (match_passes env vn fn).to_file_index vn vn.length (le_refl _)
  rw [hnames, e]
  refine ⟨h1, ?_⟩
  intro i hi
  rw [h2 i hi]
  constructor
  · intro hc
    obtain ⟨j, hj, hb1, hb2⟩ := inv.bwd i hi (hall i hi)
    refine ⟨j, hj, hb2, ?_⟩
    have hc2 : vn.getD i "" == env.ANY_SPATIAL_DIMENSION ∨ (vn.getD i "").length = 0 := by
      rcases hc with hc | hc
      · left
        rw [hc]
        exact beq_self_eq_true _
      · exact Or.inr hc
    rw [if_pos hc2, hb1, Int.toNat_ofNat]
  · intro hc
    have hc2 : ¬ (vn.getD i "" == env.ANY_SPATIAL_DIMENSION ∨ (vn.getD i "").length = 0) := by
      intro hc3
      apply hc
      rcases hc3 with hc3 | hc3
      · left
        exact eq_of_beq hc3
      · exact Or.inr hc3
    rw [if_neg hc2]

theorem matched_names_copied_back_witness :
    (match_dimension_names standardHeaders ["", "any_spatial_dimension", "time"]
      ["time", "xspace", "slice"]).matched = true ∧
    (match_dimension_names standardHeaders ["", "any_spatial_dimension", "time"]
      ["time", "xspace", "slice"]).volume_dimension_names.length = 3 ∧
    (match_dimension_names standardHeaders ["", "any_spatial_dimension", "time"]
      ["time", "xspace", "slice"]).volume_dimension_names = ["slice", "xspace", "time"] :=
  ⟨by decide,
    (matched_names_copied_back standardHeaders ["", "any_spatial_dimension", "time"]
      ["time", "xspace", "slice"] (by decide)).1, by decide⟩

/-! ## The order in which the matcher binds -/

theorem match_file_loop_highest (env : HeaderConstants) (iteration i : Nat)
    (vn fn : List String) (st : MatchState) (n : Nat) :
    (∃ j, j < n ∧
      (st.to_volume_index.getD j INVALID_AXIS = INVALID_AXIS ∧
        dims_match env iteration (vn.getD i "") (fn.getD j "") = true) ∧
      (∀ k, j < k → k < n →
        ¬ (st.to_volume_index.getD k INVALID_AXIS = INVALID_AXIS ∧
          dims_match env iteration (vn.getD i "") (fn.getD k "") = true)) ∧
      match_file_loop env iteration i vn fn n st =
        { to_volume_index := st.to_volume_index.set j (i : Int)
          to_file_index := st.to_file_index.set i (j : Int)
          volume_dim_found := st.volume_dim_found.set i true
          n_matches := st.n_matches + 1 }) ∨
    ((∀ j, j < n →
        ¬ (st.to_volume_index.getD j INVALID_AXIS = INVALID_AXIS ∧
          dims_match env iteration (vn.getD i "") (fn.getD j "") = true)) ∧
      match_file_loop env iteration i vn fn n st = st) := by
  induction n with
  | zero =>
    right
    exact ⟨fun j hj => absurd hj (Nat.not_lt_zero j), rfl⟩
  | succ m ih =>
    by_cases hc : st.to_volume_index.getD m INVALID_AXIS = INVALID_AXIS ∧
        dims_match env iteration (vn.getD i "") (fn.getD m "") = true
    · left
      refine ⟨m, Nat.lt_succ_self m, hc, fun k h1 h2 => by omega, ?_⟩
      rw [match_file_loop, if_pos hc]
    · have hstep : match_file_loop env iteration i vn fn (m + 1) st =
          match_file_loop env iteration i vn fn m st := by
        rw [match_file_loop, if_neg hc]
      rcases ih with ⟨j, hj, he, hhi, heq⟩ | ⟨hno, heq⟩
      · left
        refine ⟨j, by omega, he, ?_, by rw [hstep, heq]⟩
        intro k h1 h2
        by_cases hkm : k = m
        · rw [hkm]
          exact hc
        · exact hhi k h1 (by omega)
      · right
        refine ⟨?_, by rw [hstep, heq]⟩
        intro j hj
        by_cases hjm : j = m
        · rw [hjm]
          exact hc
        · exact hno j (by omega)

theorem match_volume_loop_order (env : HeaderConstants) (iteration : Nat)
    (vn fn : List String) (n : Nat) (st : MatchState) :
    match_volume_loop env iteration vn fn n st =
      (List.range n).reverse.foldl
        (fun st i =>
          if st.volume_dim_found.getD i false = false then
            match_file_loop env iteration i vn fn fn.length st
          else st) st := by
  induction n generalizing st with
  | zero => rfl
  | succ m ih =>
    rw [match_volume_loop, List.range_succ, List.reverse_append, List.reverse_singleton,
      List.singleton_append, List.foldl_cons, ih]

/-- C12: within each pass of `match_dimension_names` the volume dimensions are
tried from the highest index to the lowest, and a volume dimension that is
tried binds to the highest-index file dimension that is still unmatched and
eligible in that pass (or to none, when no such file dimension exists).  With
one volume dimension named `ANY_SPATIAL_DIMENSION` and the file names
`["xspace", "xspace"]` the result is `to_volume_index = [INVALID_AXIS, 0]`.
The matcher is a function of the two name lists. -/
theorem matcher_binds_last_to_first (env : HeaderConstants) (vn fn : List String) :
    (∀ (iteration : Nat) (st : MatchState),
      match_volume_loop env iteration vn fn vn.length st =
        (List.range vn.length).reverse.foldl
          (fun st i =>
            if st.volume_dim_found.getD i false = false then
              match_file_loop env iteration i vn fn fn.length st
            else st) st) ∧
    (∀ (iteration i : Nat) (st : MatchState),
      (∃ j, j < fn.length ∧
        (st.to_volume_index.getD j INVALID_AXIS = INVALID_AXIS ∧
          dims_match env iteration (vn.getD i "") (fn.getD j "") = true) ∧
        (∀ k, j < k → k < fn.length →
          ¬ (st.to_volume_index.getD k INVALID_AXIS = INVALID_AXIS ∧
            dims_match env iteration (vn.getD i "") (fn.getD k "") = true)) ∧
        match_file_loop env iteration i vn fn fn.length st =
          { to_volume_index := st.to_volume_index.set j (i : Int)
            to_file_index := st.to_file_index.set i (j : Int)
            volume_dim_found := st.volume_dim_found.set i true
            n_matches := st.n_matches + 1 }) ∨
      ((∀ j, j < fn.length →
          ¬ (st.to_volume_index.getD j INVALID_AXIS = INVALID_AXIS ∧
            dims_match env iteration (vn.getD i "") (fn.getD j "") = true)) ∧
        match_file_loop env iteration i vn fn fn.length st = st)) ∧
    (match_dimension_names standardHeaders [standardHeaders.ANY_SPATIAL_DIMENSION]
        ["xspace", "xspace"]).to_volume_index = [INVALID_AXIS, 0] ∧
    (match_dimension_names standardHeaders [standardHeaders.ANY_SPATIAL_DIMENSION]
        ["xspace", "xspace"]).matched = true := by
  refine ⟨fun iteration st => match_volume_loop_order env iteration vn fn vn.length st,
    fun iteration i st => match_file_loop_highest env iteration i vn fn st fn.length,
    by decide, by decide⟩

/-! ## Matching by exact names -/

theorem dims_match_exact (env : HeaderConstants) (iteration : Nat) (v f : String)
    (hne : v.length ≠ 0) (hnw : v ≠ env.ANY_SPATIAL_DIMENSION)
    (h : dims_match env iteration v f = true) : v = f := by
  unfold dims_match at h
  split at h
  · exact eq_of_beq h
  · rw [Bool.and_eq_true] at h
    exact absurd (eq_of_beq h.1) hnw
  · exact absurd (eq_of_beq h) hne
  · exact Bool.noConfusion h

theorem getD_set_true_of_true (l : List Bool) (i k : Nat) (h : l.getD k false = true) :
    (l.set i true).getD k false = true := by
  by_cases hik : i = k
  · subst hik
    have hlt : i < l.length := by
      by_contra hge
      rw [List.getD_eq_getElem?_getD, List.getElem?_eq_none (by omega)] at h
      exact Bool.noConfusion h
    exact getD_set_self _ _ _ _ hlt
  · rw [getD_set_of_ne _ _ _ _ _ hik]
    exact h

theorem match_file_loop_found_mono (env : HeaderConstants) (iteration i : Nat)
    (vn fn : List String) (st : MatchState) (n k : Nat)
    (h : st.volume_dim_found.getD k false = true) :
    (match_file_loop env iteration i vn fn n st).volume_dim_found.getD k false = true := by
  rcases match_file_loop_highest env iteration i vn fn st n with ⟨j, _, _, _, heq⟩ | ⟨_, heq⟩
  · rw [heq]
    exact getD_set_true_of_true _ _ _ h
  · rw [heq]
    exact h

theorem match_volume_loop_found_mono (env : HeaderConstants) (iteration : Nat)
    (vn fn : List String) (n k : Nat) (st : MatchState)
    (h : st.volume_dim_found.getD k false = true) :
    (match_volume_loop env iteration vn fn n st).volume_dim_found.getD k false = true := by
  induction n generalizing st with
  | zero => exact h
  | succ m ih =>
    rw [match_volume_loop]
    apply ih
    split
    · exact match_file_loop_found_mono env iteration m vn fn st _ k h
    · exact h

theorem match_file_loop_exact (env : HeaderConstants) (iteration i : Nat)
    (vn fn : List String) (st : MatchState) (n : Nat)
    (hlen : st.to_volume_index.length = fn.length)
    (hne : (vn.getD i "").length ≠ 0) (hnw : vn.getD i "" ≠ env.ANY_SPATIAL_DIMENSION)
    (h : ExactBindings vn fn st) :
    ExactBindings vn fn (match_file_loop env iteration i vn fn n st) := by
  rcases match_file_loop_highest env iteration i vn fn st n with
    ⟨j, hj, he, _, heq⟩ | ⟨_, heq⟩
  · rw [heq]
    intro j2 i2 hj2 hi2 hb
    simp only at hb
    by_cases hjj : j = j2
    · subst hjj
      rw [getD_set_self _ _ _ _ (by omega)] at hb
      have : i = i2 := by exact_mod_cast hb
      subst this
      exact dims_match_exact env iteration _ _ hne hnw he.2
    · rw [getD_set_of_ne _ _ _ _ _ hjj] at hb
      exact h j2 i2 hj2 hi2 hb
  · rw [heq]
    exact h

theorem match_volume_loop_exact (env : HeaderConstants) (iteration : Nat)
    (vn fn : List String)
    (hne : ∀ i, i < vn.length → (vn.getD i "").length ≠ 0)
    (hnw : ∀ i, i < vn.length → vn.getD i "" ≠ env.ANY_SPATIAL_DIMENSION)
    (n : Nat) (hn : n ≤ vn.length) (st : MatchState)
    (inv : MatchInv vn.length fn.length st) (h : ExactBindings vn fn st) :
    ExactBindings vn fn (match_volume_loop env iteration vn fn n st) := by
  induction n generalizing st with
  | zero => exact h
  | succ m ih =>
    rw [match_volume_loop]
    split
    · rename_i hf
      exact ih (by omega) _
        (match_file_loop_inv env iteration m vn fn (by omega) _ (le_refl _) st inv hf)
        (match_file_loop_exact env iteration m vn fn st _ inv.len_tvi
          (hne m (by omega)) (hnw m (by omega)) h)
    · exact ih (by omega) _ inv h

theorem nodup_getD_inj (vn : List String) (hnd : vn.Nodup) (a b : Nat) (ha : a < vn.length)
    (hb : b < vn.length) (h : vn.getD a "" = vn.getD b "") : a = b := by
  rw [List.getD_eq_getElem?_getD, List.getD_eq_getElem?_getD, List.getElem?_eq_getElem ha,
    List.getElem?_eq_getElem hb] at h
  simp only [Option.getD_some] at h
  exact (List.Nodup.getElem_inj_iff hnd).mp h

theorem match_file_loop_progress (env : HeaderConstants) (i : Nat) (vn fn : List String)
    (hnd : vn.Nodup) (hi : i < vn.length)
    (hex : ∃ j, j < fn.length ∧ fn.getD j "" = vn.getD i "")
    (st : MatchState) (inv : MatchInv vn.length fn.length st) (h : ExactBindings vn fn st)
    (hf : st.volume_dim_found.getD i false = false) :
    (match_file_loop env 0 i vn fn fn.length st).volume_dim_found.getD i false = true := by
  rcases match_file_loop_highest env 0 i vn fn st fn.length with
    ⟨j, _, _, _, heq⟩ | ⟨hno, _⟩
  · rw [heq]
    exact getD_set_self _ _ _ _ (by rw [inv.len_found]; exact hi)
  · exfalso
    obtain ⟨j, hj, hname⟩ := hex
    apply hno j hj
    constructor
    · rcases inv.fwd j hj with h1 | ⟨i2, hi2, h1, h2, _⟩
      · exact h1
      · exfalso
        have hn2 := h j i2 hj hi2 h1
        have : i2 = i := nodup_getD_inj vn hnd i2 i hi2 hi (by rw [hn2, hname])
        rw [this, hf] at h2
        exact Bool.noConfusion h2
    · show (vn.getD i "" == fn.getD j "") = true
      rw [hname]
      exact beq_self_eq_true _

theorem match_volume_loop_progress (env : HeaderConstants) (vn fn : List String)
    (hnd : vn.Nodup)
    (hne : ∀ i, i < vn.length → (vn.getD i "").length ≠ 0)
    (hnw : ∀ i, i < vn.length → vn.getD i "" ≠ env.ANY_SPATIAL_DIMENSION)
    (hex : ∀ i, i < vn.length → ∃ j, j < fn.length ∧ fn.getD j "" = vn.getD i "")
    (n : Nat) (hn : n ≤ vn.length) (st : MatchState)
    (inv : MatchInv vn.length fn.length st) (h : ExactBindings vn fn st) :
    ∀ i, i < n →
      (match_volume_loop env 0 vn fn n st).volume_dim_found.getD i false = true := by
  induction n generalizing st with
  | zero =>
    intro i hi
    omega
  | succ m ih =>
    intro i hi
    rw [match_volume_loop]
    by_cases hf : st.volume_dim_found.getD m false = false
    · rw [if_pos hf]
      have inv2 := match_file_loop_inv env 0 m vn fn (by omega) _ (le_refl _) st inv hf
      have h2 := match_file_loop_exact env 0 m vn fn st fn.length inv.len_tvi
        (hne m (by omega)) (hnw m (by omega)) h
      by_cases him : i = m
      · rw [him]
        exact match_volume_loop_found_mono env 0 vn fn m m _
          (match_file_loop_progress env m vn fn hnd (by omega) (hex m (by omega)) st inv h hf)
      · exact ih (by omega) _ inv2 h2 i (by omega)
    · rw [if_neg hf]
      by_cases him : i = m
      · rw [him]
        exact match_volume_loop_found_mono env 0 vn fn m m _ (by simpa using hf)
      · exact ih (by omega) _ inv h i (by omega)

theorem match_init_exact (vn fn : List String) :
    ExactBindings vn fn (match_init vn.length fn.length) := by
  intro j i hj _ hb
  simp only [match_init, getD_replicate_lt _ _ _ _ hj, INVALID_AXIS] at hb
  omega

theorem match_exact_names_aux (env : HeaderConstants) (vn fn : List String)
    (hnd : vn.Nodup)
    (hne : ∀ i, i < vn.length → (vn.getD i "").length ≠ 0)
    (hnw : ∀ i, i < vn.length → vn.getD i "" ≠ env.ANY_SPATIAL_DIMENSION)
    (hex : ∀ i, i < vn.length → ∃ j, j < fn.length ∧ fn.getD j "" = vn.getD i "") :
    ExactBindings vn fn (match_passes env vn fn) ∧
    ∀ i, i < vn.length → (match_passes env vn fn).volume_dim_found.getD i false = true := by
  unfold match_passes
  simp only [List.range_succ, List.range_zero, List.nil_append, List.cons_append,
    List.foldl_cons, List.foldl_nil]
  have inv0 := match_init_inv vn.length fn.length
  have ex0 := match_init_exact vn fn
  have inv1 := match_volume_loop_inv env 0 vn fn _ (le_refl _) _ inv0
  have ex1 := match_volume_loop_exact env 0 vn fn hne hnw _ (le_refl _) _ inv0 ex0
  have f1 := match_volume_loop_progress env vn fn hnd hne hnw hex _ (le_refl _) _ inv0 ex0
  have inv2 := match_volume_loop_inv env 1 vn fn _ (le_refl _) _ inv1
  have ex2 := match_volume_loop_exact env 1 vn fn hne hnw _ (le_refl _) _ inv1 ex1
  have ex3 := match_volume_loop_exact env 2 vn fn hne hnw _ (le_refl _) _ inv2 ex2
  refine ⟨ex3, ?_⟩
  intro i hi
  exact match_volume_loop_found_mono env 2 vn fn _ i _
    (match_volume_loop_found_mono env 1 vn fn _ i _ (f1 i hi))

/-- C13: for the volume names `["zspace","yspace","xspace"]` and the file names
`["xspace","yspace","zspace"]` the matcher returns TRUE with
`to_volume_index = [2,1,0]`; and whenever the volume names are distinct,
non-empty, not the wildcard, and each equals exactly one file dimension name,
the matcher returns TRUE and `to_volume_index[j]` is the index of the volume
dimension whose name equals file name `j` (`INVALID_AXIS` if there is none). -/
theorem exact_names_forward_map (env : HeaderConstants) (vn fn : List String) :
    ((match_dimension_names standardHeaders ["zspace", "yspace", "xspace"]
        ["xspace", "yspace", "zspace"]).matched = true ∧
      (match_dimension_names standardHeaders ["zspace", "yspace", "xspace"]
        ["xspace", "yspace", "zspace"]).to_volume_index = [2, 1, 0]) ∧
    (vn.Nodup →
      (∀ i, i < vn.length → (vn.getD i "").length ≠ 0) →
      (∀ i, i < vn.length → vn.getD i "" ≠ env.ANY_SPATIAL_DIMENSION) →
      (∀ i, i < vn.length → ∃! j, j < fn.length ∧ fn.getD j "" = vn.getD i "") →
      (match_dimension_names env vn fn).matched = true ∧
      ∀ j, j < fn.length →
        (∀ i, i < vn.length → vn.getD i "" = fn.getD j "" →
          (match_dimension_names env vn fn).to_volume_index.getD j INVALID_AXIS = (i : Int)) ∧
        ((∀ i, i < vn.length → vn.getD i "" ≠ fn.getD j "") →
          (match_dimension_names env vn fn).to_volume_index.getD j INVALID_AXIS
            = INVALID_AXIS)) := by
  refine ⟨⟨by decide, by decide⟩, ?_⟩
  intro hnd hne hnw huniq
  have hex : ∀ i, i < vn.length → ∃ j, j < fn.length ∧ fn.getD j "" = vn.getD i "" :=
    fun i hi => (huniq i hi).exists
  obtain ⟨hexact, hall⟩ := match_exact_names_aux env vn fn hnd hne hnw hex
  have inv := match_passes_inv env vn fn
  have e : (match_dimension_names env vn fn).to_volume_index
      = (match_passes env vn fn).to_volume_index := rfl
  rw [e]
  constructor
  · have hc : (match_passes env vn fn).volume_dim_found.count true
        = (match_passes env vn fn).volume_dim_found.length := by
      rw [List.count_eq_length]
      intro b hb
      rw [List.mem_iff_getElem] at hb
      obtain ⟨k, hk, hkb⟩ := hb
      have := hall k (by rw [← inv.len_found]; exact hk)
      rw [List.getD_eq_getElem?_getD, List.getElem?_eq_getElem hk] at this
      simp only [Option.getD_some] at this
      rw [← hkb, this]
    simp only [match_dimension_names, decide_eq_true_eq]
    rw [inv.cnt, hc, inv.len_found]
  · intro j hj
    constructor
    · intro i hi hname
      obtain ⟨j2, hj2, hb1, hb2⟩ := inv.bwd i hi (hall i hi)
      have hn2 := hexact j2 i hj2 hi hb2
      obtain ⟨j0, _, hu⟩ := huniq i hi
      have e1 := hu j ⟨hj, hname.symm⟩
      have e2 := hu j2 ⟨hj2, hn2.symm⟩
      rw [e1, ← e2]
      exact hb2
    · intro hnone
      rcases inv.fwd j hj with h1 | ⟨i, hi, h1, _, _⟩
      · exact h1
      · exact absurd (hexact j i hj hi h1) (hnone i hi)

theorem exact_names_forward_map_witness :
    ["zspace", "yspace", "xspace"].Nodup ∧
    (∀ i, i < ["zspace", "yspace", "xspace"].length →
      ∃ j, j < ["xspace", "time", "yspace", "zspace"].length ∧
        (["xspace", "time", "yspace", "zspace"].getD j "" =
          ["zspace", "yspace", "xspace"].getD i "" ∧
        ∀ k, k < ["xspace", "time", "yspace", "zspace"].length →
          ["xspace", "time", "yspace", "zspace"].getD k "" =
            ["zspace", "yspace", "xspace"].getD i "" → k = j)) ∧
    (match_dimension_names standardHeaders ["zspace", "yspace", "xspace"]
      ["xspace", "time", "yspace", "zspace"]).matched = true ∧
    (match_dimension_names standardHeaders ["zspace", "yspace", "xspace"]
      ["xspace", "time", "yspace", "zspace"]).to_volume_index = [2, -1, 1, 0] :=
  ⟨by decide, by decide,
    ((exact_names_forward_map standardHeaders ["zspace", "yspace", "xspace"]
      ["xspace", "time", "yspace", "zspace"]).2 (by decide) (by decide) (by decide)
      (fun i hi => by
        obtain ⟨j, hj, hn, hu⟩ :=
          (by decide : ∀ i, i < ["zspace", "yspace", "xspace"].length →
            ∃ j, j < ["xspace", "time", "yspace", "zspace"].length ∧
              (["xspace", "time", "yspace", "zspace"].getD j "" =
                ["zspace", "yspace", "xspace"].getD i "" ∧
              ∀ k, k < ["xspace", "time", "yspace", "zspace"].length →
                ["xspace", "time", "yspace", "zspace"].getD k "" =
                  ["zspace", "yspace", "xspace"].getD i "" → k = j)) i hi
        exact ⟨j, ⟨hj, hn⟩, fun k hk => hu k hk.1 hk.2⟩)).1,
    by decide⟩

/-! ## Advancing through stacked volumes -/

theorem build_valid_file_axes_spec (n : Nat) (tvi : List Int) (m : Nat) (hm : m ≤ n) :
    ((List.range m).foldl
        (fun (acc : List Nat × Nat) d =>
          if tvi.getD d INVALID_AXIS ≠ INVALID_AXIS then (acc.1.set acc.2 d, acc.2 + 1)
          else acc) (List.replicate n 0, 0)).2 =
      ((Finset.range m).filter (fun d => tvi.getD d INVALID_AXIS ≠ INVALID_AXIS)).card ∧
    ((List.range m).foldl
        (fun (acc : List Nat × Nat) d =>
          if tvi.getD d INVALID_AXIS ≠ INVALID_AXIS then (acc.1.set acc.2 d, acc.2 + 1)
          else acc) (List.replicate n 0, 0)).1.length = n ∧
    ∀ p, p < ((List.range m).foldl
        (fun (acc : List Nat × Nat) d =>
          if tvi.getD d INVALID_AXIS ≠ INVALID_AXIS then (acc.1.set acc.2 d, acc.2 + 1)
          else acc) (List.replicate n 0, 0)).2 →
      tvi.getD (((List.range m).foldl
        (fun (acc : List Nat × Nat) d =>
          if tvi.getD d INVALID_AXIS ≠ INVALID_AXIS then (acc.1.set acc.2 d, acc.2 + 1)
          else acc) (List.replicate n 0, 0)).1.getD p 0) INVALID_AXIS ≠ INVALID_AXIS := by
  induction m with
  | zero =>
    refine ⟨by simp, by simp, ?_⟩
    intro p hp
    simp at hp
  | succ k ih =>
    obtain ⟨h1, h2, h3⟩ := ih (by omega)
    rw [foldl_range_succ]
    have hcard : ((Finset.range k).filter
        (fun d => tvi.getD d INVALID_AXIS ≠ INVALID_AXIS)).card ≤ k := by
      calc _ ≤ (Finset.range k).card := Finset.card_filter_le _ _
        _ = k := Finset.card_range k
    by_cases hk : tvi.getD k INVALID_AXIS ≠ INVALID_AXIS
    · rw [if_pos hk]
      refine ⟨?_, by rw [List.length_set]; exact h2, ?_⟩
      · show _ + 1 = _
        rw [h1, Finset.range_succ, Finset.filter_insert, if_pos hk,
          Finset.card_insert_of_not_mem (by simp)]
      · intro p hp
        simp only at hp ⊢
        by_cases hpc : p = ((List.range k).foldl
            (fun (acc : List Nat × Nat) d =>
              if tvi.getD d INVALID_AXIS ≠ INVALID_AXIS then (acc.1.set acc.2 d, acc.2 + 1)
              else acc) (List.replicate n 0, 0)).2
        · rw [hpc, getD_set_self _ _ _ _ (by rw [h2, h1]; omega)]
          exact hk
        · rw [getD_set_of_ne _ _ _ _ _ (fun e => hpc e.symm)]
          exact h3 p (by omega)
    · rw [if_neg hk]
      refine ⟨?_, h2, h3⟩
      rw [h1, Finset.range_succ, Finset.filter_insert, if_neg hk]

theorem matched_card_ge (V F : Nat) (tvi : List Int)
    (huniq : ∀ v, v < V → ∃ j, j < F ∧ tvi.getD j INVALID_AXIS = (v : Int)) :
    V ≤ ((Finset.range F).filter (fun d => tvi.getD d INVALID_AXIS ≠ INVALID_AXIS)).card := by
  have hsub : Finset.range V ⊆
      ((Finset.range F).filter (fun d => tvi.getD d INVALID_AXIS ≠ INVALID_AXIS)).image
        (fun d => (tvi.getD d INVALID_AXIS).toNat) := by
    intro v hv
    rw [Finset.mem_range] at hv
    obtain ⟨j, hj, hjv⟩ := huniq v hv
    rw [Finset.mem_image]
    refine ⟨j, ?_, by rw [hjv, Int.toNat_ofNat]⟩
    rw [Finset.mem_filter, Finset.mem_range]
    refine ⟨hj, ?_⟩
    rw [hjv]
    simp [INVALID_AXIS]
  calc V = (Finset.range V).card := (Finset.card_range V).symm
    _ ≤ _ := Finset.card_le_card hsub
    _ ≤ _ := Finset.card_image_le

theorem copy_back_names_length (env : HeaderConstants) (vn fn : List String) :
    (match_dimension_names env vn fn).volume_dimension_names.length = vn.length := by
  simp only [match_dimension_names]
  split
  · exact (copy_back_spec env.ANY_SPATIAL_DIMENSION fn _ vn vn.length (le_refl _)).1
  · rfl

theorem initialize_volume_dims (env : HeaderConstants) (file_dims : List (String × Int))
    (volume : Volume) (options : Option minc_input_options) (file : minc_file_struct)
    (h : initialize_minc_input_from_minc_id env file_dims volume options = some file) :
    get_volume_n_dimensions file.volume = get_volume_n_dimensions volume := by
  unfold initialize_minc_input_from_minc_id at h
  simp only at h
  split at h
  · exact Option.noConfusion h
  · split at h
    · exact Option.noConfusion h
    · split at h
      · exact Option.noConfusion h
      · split at h
        · exact Option.noConfusion h
        · simp only [Option.some.injEq] at h
          subst h
          exact copy_back_names_length env volume.dimension_names _

theorem session_valid_file_axes (env : HeaderConstants) (file_dims : List (String × Int))
    (volume : Volume) (options : Option minc_input_options) (file : minc_file_struct)
    (h : initialize_minc_input_from_minc_id env file_dims volume options = some file) :
    ∀ ind, ind < get_volume_n_dimensions file.volume →
      file.to_volume_index.getD (file.valid_file_axes.getD ind 0) INVALID_AXIS
        ≠ INVALID_AXIS := by
  obtain ⟨_, _, huniq⟩ := session_forward_map env file_dims volume options file h
  obtain ⟨_, _, _, _, _, _, _, _, _, hvfa, _⟩ :=
    initialize_spec env file_dims volume options file h
  have hge := matched_card_ge (get_volume_n_dimensions volume) file.n_file_dimensions
    file.to_volume_index (fun v hv => (huniq v hv).exists)
  obtain ⟨h1, _, h3⟩ := build_valid_file_axes_spec file.n_file_dimensions
    file.to_volume_index file.n_file_dimensions (le_refl _)
  rw [initialize_volume_dims env file_dims volume options file h]
  intro ind hind
  rw [hvfa]
  unfold build_valid_file_axes
  apply h3
  rw [h1]
  omega

theorem advance_volume_loop_all_matched (file : minc_file_struct) (m : Nat)
    (idx : List Int)
    (h : ∀ d, d < m → file.to_volume_index.getD d INVALID_AXIS ≠ INVALID_AXIS) :
    advance_volume_loop file m idx = (idx, false) := by
  induction m with
  | zero => rfl
  | succ k ih =>
    rw [advance_volume_loop, if_neg (h k (Nat.lt_succ_self k))]
    exact ih (fun d hd => h d (by omega))

theorem advance_volume_loop_skip_inner (file : minc_file_struct) (d0 m : Nat)
    (idx : List Int) (hm : d0 < m)
    (h : ∀ d, d0 < d → d < m → file.to_volume_index.getD d INVALID_AXIS ≠ INVALID_AXIS) :
    advance_volume_loop file m idx = advance_volume_loop file (d0 + 1) idx := by
  induction m with
  | zero => omega
  | succ k ih =>
    by_cases hk : k = d0
    · rw [hk]
    · rw [advance_volume_loop, if_neg (h k (by omega) (Nat.lt_succ_self k))]
      exact ih (by omega) (fun d h1 h2 => h d h1 (by omega))

theorem advance_volume_loop_single (file : minc_file_struct) (d0 : Nat) (len : Int)
    (hs : SingleStack file d0 len) :
    advance_volume_loop file file.n_file_dimensions file.indices =
      if file.indices.getD d0 0 + 1 < len then
        (file.indices.set d0 (file.indices.getD d0 0 + 1), true)
      else (file.indices.set d0 0, false) := by
  rw [advance_volume_loop_skip_inner file d0 _ _ hs.hd0
    (fun d h1 h2 => hs.others d h2 (by omega))]
  rw [advance_volume_loop, if_pos hs.unmatched]
  simp only
  rw [getD_set_self _ _ _ _ (by rw [hs.idx_len]; exact hs.hd0), hs.size]
  split
  · rfl
  · rw [List.set_set]
    exact advance_volume_loop_all_matched file d0 _
      (fun d hd => hs.others d (by have := hs.hd0; omega) (by omega))

theorem foldl_set_zero_frame (pos : Nat → Nat) (d0 m : Nat) (idx : List Int)
    (h : ∀ ind, ind < m → pos ind ≠ d0) :
    ((List.range m).foldl (fun indices ind => indices.set (pos ind) 0) idx).getD d0 0 =
      idx.getD d0 0 ∧
    ((List.range m).foldl (fun indices ind => indices.set (pos ind) 0) idx).length =
      idx.length := by
  induction m with
  | zero => exact ⟨rfl, rfl⟩
  | succ k ih =>
    obtain ⟨h1, h2⟩ := ih (fun ind hi => h ind (by omega))
    rw [foldl_range_succ]
    refine ⟨?_, by rw [List.length_set]; exact h2⟩
    rw [getD_set_of_ne _ _ _ _ _ (h k (Nat.lt_succ_self k))]
    exact h1

theorem advance_input_volume_single (file : minc_file_struct) (d0 : Nat) (len : Int)
    (hs : SingleStack file d0 len) :
    SingleStack (advance_input_volume file).1 d0 len ∧
    (file.indices.getD d0 0 + 1 < len →
      (advance_input_volume file).1.end_volume_flag = false ∧
      (advance_input_volume file).1.indices.getD d0 0 = file.indices.getD d0 0 + 1) ∧
    (¬ file.indices.getD d0 0 + 1 < len →
      (advance_input_volume file).1.end_volume_flag = true ∧
      (advance_input_volume file).1.indices.getD d0 0 = 0) := by
  have hloop := advance_volume_loop_single file d0 len hs
  have hd0l : d0 < file.indices.length := by rw [hs.idx_len]; exact hs.hd0
  by_cases hlt : file.indices.getD d0 0 + 1 < len
  · rw [if_pos hlt] at hloop
    obtain ⟨f1, f2⟩ := foldl_set_zero_frame (fun ind => file.valid_file_axes.getD ind 0) d0
      (get_volume_n_dimensions file.volume)
      (file.indices.set d0 (file.indices.getD d0 0 + 1)) hs.axes
    have e : (advance_input_volume file).1 =
        { file with
          end_volume_flag := false
          indices := (List.range (get_volume_n_dimensions file.volume)).foldl
            (fun indices ind => indices.set (file.valid_file_axes.getD ind 0) 0)
            (file.indices.set d0 (file.indices.getD d0 0 + 1)) } := by
      unfold advance_input_volume
      simp only [hloop, if_true]
    rw [e]
    refine ⟨⟨hs.hd0, hs.unmatched, hs.others, hs.size, hs.axes, ?_⟩, ?_, ?_⟩
    · show List.length _ = _
      rw [f2, List.length_set]
      exact hs.idx_len
    · intro _
      refine ⟨rfl, ?_⟩
      show List.getD _ d0 0 = _
      rw [f1, getD_set_self _ _ _ _ hd0l]
    · intro hn
      exact absurd hlt hn
  · rw [if_neg hlt] at hloop
    have e : (advance_input_volume file).1 =
        { file with indices := file.indices.set d0 0, end_volume_flag := true } := by
      unfold advance_input_volume
      simp only [hloop, Bool.false_eq_true, if_false]
    rw [e]
    refine ⟨⟨hs.hd0, hs.unmatched, hs.others, hs.size, hs.axes, ?_⟩, ?_, ?_⟩
    · show List.length _ = _
      rw [List.length_set]
      exact hs.idx_len
    · intro h
      exact absurd h hlt
    · intro _
      refine ⟨rfl, ?_⟩
      show List.getD _ d0 0 = _
      exact getD_set_self _ _ _ _ hd0l

theorem compute_n_volumes_single (tvi sizes : List Int) (d0 n : Nat)
    (hun : tvi.getD d0 INVALID_AXIS = INVALID_AXIS)
    (hothers : ∀ d, d < n → d ≠ d0 → tvi.getD d INVALID_AXIS ≠ INVALID_AXIS) (m : Nat)
    (hm : m ≤ n) :
    compute_n_volumes_in_file m tvi sizes =
      if d0 < m then wrap_int (sizes.getD d0 0) else 1 := by
  induction m with
  | zero => rfl
  | succ k ih =>
    rw [compute_n_volumes_in_file_step, ih (by omega)]
    by_cases hk : k = d0
    · subst hk
      rw [if_pos hun, if_neg (Nat.lt_irrefl k), if_pos (Nat.lt_succ_self k), one_mul]
    · rw [if_neg (hothers k (by omega) hk)]
      by_cases hlt : d0 < k
      · rw [if_pos hlt, if_pos (by omega)]
      · rw [if_neg hlt, if_neg (by omega)]

theorem session_single_stack (env : HeaderConstants) (file_dims : List (String × Int))
    (volume : Volume) (options : Option minc_input_options) (file : minc_file_struct)
    (h : initialize_minc_input_from_minc_id env file_dims volume options = some file)
    (d0 : Nat) (len : Int) (hd0 : d0 < file.n_file_dimensions)
    (hun : file.to_volume_index.getD d0 INVALID_AXIS = INVALID_AXIS)
    (hothers : ∀ d, d < file.n_file_dimensions → d ≠ d0 →
      file.to_volume_index.getD d INVALID_AXIS ≠ INVALID_AXIS)
    (hsize : file.sizes_in_file.getD d0 0 = len) :
    SingleStack file d0 len ∧ file.indices.getD d0 0 = 0 := by
  obtain ⟨_, hil, hz, _⟩ := opened_session_ready env file_dims volume options file h
  have haxes := session_valid_file_axes env file_dims volume options file h
  refine ⟨⟨hd0, hun, hothers, hsize, ?_, hil⟩, hz d0 hd0⟩
  intro ind hind e
  have := haxes ind hind
  rw [e] at this
  exact this hun

/-- C11, counterexample: on the session whose file stacks four volumes along its
only unmatched dimension, the end-of-volume flag is set after the fourth call
of `advance_input_volume` and clear again after the fifth, which leaves the
cursor on the second volume. -/
theorem fifth_advance_starts_over :
    initialize_minc_input_from_minc_id standardHeaders stackedFileDims exampleVolume none
      = some stackedSession ∧
    stackedSession.to_volume_index = [-1, 2, 1, 0] ∧
    stackedSession.sizes_in_file.getD 0 0 = 4 ∧
    (advance_iterate 4 stackedSession).end_volume_flag = true ∧
    (advance_iterate 5 stackedSession).end_volume_flag = false ∧
    (advance_iterate 5 stackedSession).indices = [1, 0, 0, 0] := by
  refine ⟨by decide, by decide, by decide, by decide, by decide, by decide⟩

/-- C11, amended: for a freshly opened session whose file has exactly one
unmatched dimension, of length 4, `get_n_input_volumes` returns 4; the
end-of-volume flag is clear after each of the first three calls of
`advance_input_volume` (the unmatched index being the call number) and set
after the fourth; the fifth call clears the flag again and leaves the unmatched
index at 1. -/
theorem four_volumes_then_wrap (env : HeaderConstants) (file_dims : List (String × Int))
    (volume : Volume) (options : Option minc_input_options) (file : minc_file_struct)
    (h : initialize_minc_input_from_minc_id env file_dims volume options = some file)
    (d0 : Nat) (hd0 : d0 < file.n_file_dimensions)
    (hun : file.to_volume_index.getD d0 INVALID_AXIS = INVALID_AXIS)
    (hothers : ∀ d, d < file.n_file_dimensions → d ≠ d0 →
      file.to_volume_index.getD d INVALID_AXIS ≠ INVALID_AXIS)
    (hsize : file.sizes_in_file.getD d0 0 = 4) :
    get_n_input_volumes file = 4 ∧
    (∀ k : Nat, 1 ≤ k → k ≤ 3 →
      (advance_iterate k file).end_volume_flag = false ∧
      (advance_iterate k file).indices.getD d0 0 = (k : Int)) ∧
    (advance_iterate 4 file).end_volume_flag = true ∧
    (advance_iterate 5 file).end_volume_flag = false ∧
    (advance_iterate 5 file).indices.getD d0 0 = 1 := by
  obtain ⟨_, _, _, _, _, _, _, _, _, _, hn, _⟩ :=
    initialize_spec env file_dims volume options file h
  obtain ⟨s0, z0⟩ :=
    session_single_stack env file_dims volume options file h d0 4 hd0 hun hothers hsize
  have hnv : get_n_input_volumes file = 4 := by
    show file.n_volumes_in_file = 4
    rw [hn, compute_n_volumes_single _ _ d0 file.n_file_dimensions hun hothers _ (le_refl _),
      if_pos hd0, hsize]
    decide
  obtain ⟨s1, a1, _⟩ := advance_input_volume_single file d0 4 s0
  obtain ⟨f1, i1⟩ := a1 (by rw [z0]; decide)
  rw [z0] at i1
  obtain ⟨s2, a2, _⟩ := advance_input_volume_single _ d0 4 s1
  obtain ⟨f2, i2⟩ := a2 (by rw [i1]; decide)
  rw [i1] at i2
  obtain ⟨s3, a3, _⟩ := advance_input_volume_single _ d0 4 s2
  obtain ⟨f3, i3⟩ := a3 (by rw [i2]; decide)
  rw [i2] at i3
  obtain ⟨s4, _, b4⟩ := advance_input_volume_single _ d0 4 s3
  obtain ⟨f4, i4⟩ := b4 (by rw [i3]; decide)
  obtain ⟨_, a5, _⟩ := advance_input_volume_single _ d0 4 s4
  obtain ⟨f5, i5⟩ := a5 (by rw [i4]; decide)
  rw [i4] at i5
  refine ⟨hnv, ?_, f4, f5, i5⟩
  intro k hk1 hk3
  have hk : k = 1 ∨ k = 2 ∨ k = 3 := by omega
  rcases hk with rfl | rfl | rfl
  · exact ⟨f1, i1⟩
  · exact ⟨f2, i2⟩
  · exact ⟨f3, i3⟩

theorem four_volumes_then_wrap_witness :
    initialize_minc_input_from_minc_id standardHeaders stackedFileDims exampleVolume none
      = some stackedSession ∧
    get_n_input_volumes stackedSession = 4 ∧
    (advance_iterate 5 stackedSession).indices.getD 0 0 = 1 :=
  ⟨stackedSession_opened,
    (four_volumes_then_wrap standardHeaders stackedFileDims exampleVolume none stackedSession
      stackedSession_opened 0 (by decide) (by decide) (by decide) (by decide)).1,
    (four_volumes_then_wrap standardHeaders stackedFileDims exampleVolume none stackedSession
      stackedSession_opened 0 (by decide) (by decide) (by decide) (by decide)).2.2.2.2⟩

/-! ## The negotiated voxel range -/

theorem read_range_attributes_pair (attrs : ImageAttributes) (a b : ℚ)
    (h : attrs.valid_range = some [a, b]) :
    read_range_attributes attrs =
      { min_voxel_found := true, max_voxel_found := true, valid_range0 := min a b,
        valid_range1 := max a b } := by
  unfold read_range_attributes
  rw [h]
  simp only
  by_cases hab : a > b
  · rw [if_pos hab, min_eq_right (le_of_lt hab), max_eq_left (le_of_lt hab)]
  · rw [if_neg hab, min_eq_left (not_lt.mp hab), max_eq_right (not_lt.mp hab)]

theorem negotiate_calls_no_type {Vol : Type} (env : HeaderConstants) (ops : VolumeOps Vol)
    (attrs : ImageAttributes) (icv_norm : ℚ × ℚ) (options : minc_input_options)
    (volume : Vol) (hno : ops.has_no_data_type volume = true) :
    (negotiate_conversion env ops attrs icv_norm options false volume).trace.calls =
      [VolumeCall.set_volume_type attrs.file_datatype
          (decide_type_conversion env ops attrs false true
            { volume := volume, calls := [] }).2.1 0 0,
        VolumeCall.set_volume_voxel_range 0 0] ++
      (if (read_range_attributes attrs).min_voxel_found = true ∧
          (read_range_attributes attrs).max_voxel_found = true then
        [VolumeCall.set_volume_voxel_range (read_range_attributes attrs).valid_range0
          (read_range_attributes attrs).valid_range1]
      else if (read_range_attributes attrs).min_voxel_found = true ∧
          (read_range_attributes attrs).max_voxel_found = false then
        [VolumeCall.set_volume_voxel_range (read_range_attributes attrs).valid_range0
          (ops.get_volume_voxel_range
            (ops.set_volume_voxel_range
              (ops.set_volume_type volume attrs.file_datatype
                (decide_type_conversion env ops attrs false true
                  { volume := volume, calls := [] }).2.1 0 0) 0 0)).2]
      else if (read_range_attributes attrs).min_voxel_found = false ∧
          (read_range_attributes attrs).max_voxel_found = true then
        [VolumeCall.set_volume_voxel_range
          (ops.get_volume_voxel_range
            (ops.set_volume_voxel_range
              (ops.set_volume_type volume attrs.file_datatype
                (decide_type_conversion env ops attrs false true
                  { volume := volume, calls := [] }).2.1 0 0) 0 0)).1
          (read_range_attributes attrs).valid_range0]
      else []) ++
      [VolumeCall.set_volume_real_range icv_norm.1 icv_norm.2] := by
  simp only [negotiate_conversion, decide_type_conversion, search_voxel_range,
    apply_voxel_range, hno, VolumeTrace.perform, Bool.not_false, Bool.true_and,
    Bool.false_eq_true, if_false, if_true, true_or, and_self, List.nil_append]
  split_ifs <;> simp

/-- C15: when the `valid_range` pair attribute is read with exactly two values
`(a, b)`, the resolved range is `(min a b, max a b)`, so its minimum does not
exceed its maximum: this is the voxel range `initialize_minc_input_from_minc_id`
hands to a volume that requests no explicit type, and it is the
`valid_min`/`valid_max` that `miread_valid_range` stores. -/
theorem explicit_pair_is_ordered {Vol : Type} (env : HeaderConstants) (ops : VolumeOps Vol)
    (attrs : ImageAttributes) (icv_norm : ℚ × ℚ) (options : minc_input_options)
    (volume : Vol) (limits : LimitsH) (volume_type : mitype_t) (a b : ℚ) :
    (ops.has_no_data_type volume = true → attrs.valid_range = some [a, b] →
      last_voxel_range_set
        (negotiate_conversion env ops attrs icv_norm options false volume).trace.calls
        = some (min a b, max a b)) ∧
    (miread_valid_range limits (some (a, b)) volume_type).valid_min = min a b ∧
    (miread_valid_range limits (some (a, b)) volume_type).valid_max = max a b ∧
    min a b ≤ max a b := by
  refine ⟨?_, ?_, ?_, min_le_max⟩
  · intro hno hvr
    rw [negotiate_calls_no_type env ops attrs icv_norm options volume hno,
      read_range_attributes_pair attrs a b hvr]
    simp [last_voxel_range_set]
  · unfold miread_valid_range
    simp only
    by_cases hab : a < b
    · rw [if_pos hab, min_eq_left (le_of_lt hab)]
    · rw [if_neg hab, min_eq_right (not_lt.mp hab)]
  · unfold miread_valid_range
    simp only
    by_cases hab : a < b
    · rw [if_pos hab, max_eq_right (le_of_lt hab)]
    · rw [if_neg hab, max_eq_left (not_lt.mp hab)]

theorem explicit_pair_is_ordered_witness :
    simpleVolumeOps.has_no_data_type
      { nc_data_type := nc_type.NC_UNSPECIFIED, signed_flag := false, voxel_min := 0,
        voxel_max := 0, real_range := none } = true ∧
    last_voxel_range_set
      (negotiate_conversion standardHeaders simpleVolumeOps
        { file_datatype := nc_type.NC_SHORT, signtype := none, valid_range := some [4095, 0],
          valid_min := none, valid_max := none }
        (0, 1) set_default_minc_input_options false
        { nc_data_type := nc_type.NC_UNSPECIFIED, signed_flag := false, voxel_min := 0,
          voxel_max := 0, real_range := none }).trace.calls
      = some (min 4095 0, max 4095 0) :=
  ⟨by decide,
    (explicit_pair_is_ordered standardHeaders simpleVolumeOps
      { file_datatype := nc_type.NC_SHORT, signtype := none, valid_range := some [4095, 0],
        valid_min := none, valid_max := none }
      (0, 1) set_default_minc_input_options
      { nc_data_type := nc_type.NC_UNSPECIFIED, signed_flag := false, voxel_min := 0,
        voxel_max := 0, real_range := none }
      standardLimits mitype_t.MI_TYPE_SHORT 4095 0).1 (by decide) rfl⟩

/-- C16, the code at the failing input: the file stores signed shorts, has no
`valid_range` and no `valid_min` attribute, and has `valid_max = 1000`; the
volume requests no type.  After the reset the volume reports the default range
`[-32768, 32767]`, and the negotiator then calls
`set_volume_voxel_range( volume, default_voxel_min, valid_range[0] )`, that is,
it hands over `[-32768, 0]`: the maximum that was found, 1000, is not used. -/
theorem max_only_range_uses_wrong_slot :
    (negotiate_conversion standardHeaders simpleVolumeOps
      { file_datatype := nc_type.NC_SHORT, signtype := none, valid_range := none,
        valid_min := none, valid_max := some 1000 }
      (0, 1) set_default_minc_input_options false
      { nc_data_type := nc_type.NC_UNSPECIFIED, signed_flag := false, voxel_min := 0,
        voxel_max := 0, real_range := none }).trace.calls =
      [VolumeCall.set_volume_type nc_type.NC_SHORT true 0 0,
        VolumeCall.set_volume_voxel_range 0 0,
        VolumeCall.set_volume_voxel_range (-32768) 0,
        VolumeCall.set_volume_real_range 0 1] ∧
    natural_range nc_type.NC_SHORT true = (-32768, 32767) ∧
    last_voxel_range_set
      (negotiate_conversion standardHeaders simpleVolumeOps
        { file_datatype := nc_type.NC_SHORT, signtype := none, valid_range := none,
          valid_min := none, valid_max := some 1000 }
        (0, 1) set_default_minc_input_options false
        { nc_data_type := nc_type.NC_UNSPECIFIED, signed_flag := false, voxel_min := 0,
          voxel_max := 0, real_range := none }).trace.calls = some (-32768, 0) := by
  refine ⟨by decide, by decide, by decide⟩

theorem negotiate_calls_own_type {Vol : Type} (env : HeaderConstants) (ops : VolumeOps Vol)
    (attrs : ImageAttributes) (icv_norm : ℚ × ℚ) (options : minc_input_options)
    (volume : Vol) (hown : ops.has_no_data_type volume = false) :
    (negotiate_conversion env ops attrs icv_norm options false volume).trace.calls =
      (if (ops.get_volume_voxel_range volume).1 < (ops.get_volume_voxel_range volume).2 then []
        else [VolumeCall.set_volume_voxel_range 0 0]) ++
      [VolumeCall.set_volume_real_range icv_norm.1 icv_norm.2] := by
  simp only [negotiate_conversion, decide_type_conversion, search_voxel_range,
    apply_voxel_range, hown, VolumeTrace.perform, Bool.not_false, Bool.true_and,
    Bool.false_eq_true, if_false, if_true, false_or, and_self, List.nil_append, true_and,
    false_and, decide_eq_false_iff_not]
  split_ifs <;> simp

/-- C18, counterexample: the volume specifies its own type (unsigned byte) and
has no voxel range (`0, 0`); the file carries `valid_range = (10, 20)`.  The
negotiator does not read the attribute: it only resets the volume's range, and
the resolved range is the default `[0, 255]`, not the pair. -/
theorem own_type_ignores_valid_range :
    simpleVolumeOps.has_no_data_type
      { nc_data_type := nc_type.NC_BYTE, signed_flag := false, voxel_min := 0,
        voxel_max := 0, real_range := none } = false ∧
    (negotiate_conversion standardHeaders simpleVolumeOps
      { file_datatype := nc_type.NC_SHORT, signtype := none, valid_range := some [10, 20],
        valid_min := none, valid_max := none }
      (0, 1) set_default_minc_input_options false
      { nc_data_type := nc_type.NC_BYTE, signed_flag := false, voxel_min := 0,
        voxel_max := 0, real_range := none }).trace.calls =
      [VolumeCall.set_volume_voxel_range 0 0, VolumeCall.set_volume_real_range 0 1] ∧
    simpleVolumeOps.get_volume_voxel_range
      (negotiate_conversion standardHeaders simpleVolumeOps
        { file_datatype := nc_type.NC_SHORT, signtype := none, valid_range := some [10, 20],
          valid_min := none, valid_max := none }
        (0, 1) set_default_minc_input_options false
        { nc_data_type := nc_type.NC_BYTE, signed_flag := false, voxel_min := 0,
          voxel_max := 0, real_range := none }).trace.volume = (0, 255) ∧
    (negotiate_conversion standardHeaders simpleVolumeOps
      { file_datatype := nc_type.NC_SHORT, signtype := none, valid_range := some [10, 20],
        valid_min := none, valid_max := none }
      (0, 1) set_default_minc_input_options false
      { nc_data_type := nc_type.NC_BYTE, signed_flag := false, voxel_min := 0,
        voxel_max := 0, real_range := none }).icv.valid_max = 255 := by
  refine ⟨by decide, by decide, by decide, by decide⟩

/-- C18, amended: in an open without colour conversion, when the volume
requests no explicit data type and the `valid_range` pair attribute is present
with two values, the voxel range handed to the volume is that pair, ordered;
when the volume specifies its own data type the range attributes of the file
are not consulted: a volume with no voxel range specified is reset to its
default range (set to `(0, 0)`), a volume with a range keeps it. -/
theorem pair_has_priority_without_own_type {Vol : Type} (env : HeaderConstants)
    (ops : VolumeOps Vol) (attrs : ImageAttributes) (icv_norm : ℚ × ℚ)
    (options : minc_input_options) (volume : Vol) :
    (∀ a b : ℚ, ops.has_no_data_type volume = true → attrs.valid_range = some [a, b] →
      (negotiate_conversion env ops attrs icv_norm options false volume).trace.calls =
        [VolumeCall.set_volume_type attrs.file_datatype
            (negotiate_conversion env ops attrs icv_norm options false volume).converted_sign
            0 0,
          VolumeCall.set_volume_voxel_range 0 0,
          VolumeCall.set_volume_voxel_range (min a b) (max a b),
          VolumeCall.set_volume_real_range icv_norm.1 icv_norm.2]) ∧
    (ops.has_no_data_type volume = false →
      ¬ (ops.get_volume_voxel_range volume).1 < (ops.get_volume_voxel_range volume).2 →
      (negotiate_conversion env ops attrs icv_norm options false volume).trace.calls =
        [VolumeCall.set_volume_voxel_range 0 0,
          VolumeCall.set_volume_real_range icv_norm.1 icv_norm.2]) ∧
    (ops.has_no_data_type volume = false →
      (ops.get_volume_voxel_range volume).1 < (ops.get_volume_voxel_range volume).2 →
      (negotiate_conversion env ops attrs icv_norm options false volume).trace.calls =
        [VolumeCall.set_volume_real_range icv_norm.1 icv_norm.2]) := by
  refine ⟨?_, ?_, ?_⟩
  · intro a b hno hvr
    have hs : (negotiate_conversion env ops attrs icv_norm options false volume).converted_sign
        = (decide_type_conversion env ops attrs false true
            { volume := volume, calls := [] }).2.1 := by
      simp only [negotiate_conversion, hno, Bool.not_false, Bool.true_and]
    rw [negotiate_calls_no_type env ops attrs icv_norm options volume hno,
      read_range_attributes_pair attrs a b hvr, hs]
    simp
  · intro hown hr
    rw [negotiate_calls_own_type env ops attrs icv_norm options volume hown, if_neg hr]
    rfl
  · intro hown hr
    rw [negotiate_calls_own_type env ops attrs icv_norm options volume hown, if_pos hr]
    rfl

theorem pair_has_priority_without_own_type_witness :
    simpleVolumeOps.has_no_data_type
      { nc_data_type := nc_type.NC_BYTE, signed_flag := false, voxel_min := 0,
        voxel_max := 0, real_range := none } = false ∧
    (negotiate_conversion standardHeaders simpleVolumeOps
      { file_datatype := nc_type.NC_SHORT, signtype := none, valid_range := some [10, 20],
        valid_min := none, valid_max := none }
      (0, 1) set_default_minc_input_options false
      { nc_data_type := nc_type.NC_BYTE, signed_flag := false, voxel_min := 0,
        voxel_max := 0, real_range := none }).trace.calls =
      [VolumeCall.set_volume_voxel_range 0 0,
        VolumeCall.set_volume_real_range ((0 : ℚ), (1 : ℚ)).1 ((0 : ℚ), (1 : ℚ)).2] :=
  ⟨by decide,
    (pair_has_priority_without_own_type standardHeaders simpleVolumeOps
      { file_datatype := nc_type.NC_SHORT, signtype := none, valid_range := some [10, 20],
        valid_min := none, valid_max := none }
      (0, 1) set_default_minc_input_options
      { nc_data_type := nc_type.NC_BYTE, signed_flag := false, voxel_min := 0,
        voxel_max := 0, real_range := none }).2.1 (by decide) (by decide)⟩

/-! ## The default range of `libsrc2/volume.c` -/

/-- C17: when the `valid_range` attribute cannot be read, `miread_valid_range`
resolves exactly the pair that `miinit_default_range` assigns to the volume's
type; for `MI_TYPE_UBYTE` that pair is `0` and `UCHAR_MAX`, which is `255` on a
platform with 8-bit bytes; and on conforming limits the pair of every type
satisfies `valid_min < valid_max`. -/
theorem absent_range_is_type_default (limits : LimitsH) (volume_type : mitype_t)
    (hl : limits.conforming) (hu : limits.UCHAR_MAX = 255) :
    miread_valid_range limits none volume_type = miinit_default_range limits volume_type ∧
    (miread_valid_range limits none mitype_t.MI_TYPE_UBYTE).valid_min = 0 ∧
    (miread_valid_range limits none mitype_t.MI_TYPE_UBYTE).valid_max = 255 ∧
    (miinit_default_range limits volume_type).valid_min <
      (miinit_default_range limits volume_type).valid_max := by
  obtain ⟨h1, h2, h3, h4, h5, h6, h7, h8⟩ := hl
  refine ⟨rfl, rfl, hu, ?_⟩
  cases volume_type <;> simp only [miinit_default_range] <;>
    first
      | assumption
      | exact zero_lt_one
      | linarith

theorem absent_range_is_type_default_witness :
    miread_valid_range standardLimits none mitype_t.MI_TYPE_SHORT =
      miinit_default_range standardLimits mitype_t.MI_TYPE_SHORT ∧
    (miread_valid_range standardLimits none mitype_t.MI_TYPE_UBYTE).valid_min = 0 ∧
    (miread_valid_range standardLimits none mitype_t.MI_TYPE_UBYTE).valid_max = 255 ∧
    (miinit_default_range standardLimits mitype_t.MI_TYPE_SHORT).valid_min <
      (miinit_default_range standardLimits mitype_t.MI_TYPE_SHORT).valid_max :=
  absent_range_is_type_default standardLimits mitype_t.MI_TYPE_SHORT
    (by simp only [LimitsH.conforming, standardLimits]; norm_num) rfl

/-! ## The negotiated type and sign -/

/-- C19: without colour conversion, a volume that requests no data type takes
the file's stored type; the sign is signed exactly when the `signtype`
attribute, if present, equals `MI_SIGNED`, and without the attribute it is
unsigned exactly when the file type is `NC_BYTE`; the first call on the volume
is `set_volume_type` with that type and sign, and the conversion descriptor
gets the same type and sign.  A volume that specifies a type keeps its type and
sign: no `set_volume_type` call is made, and the descriptor gets the volume's
type and sign. -/
theorem adopts_file_type_and_sign {Vol : Type} (env : HeaderConstants) (ops : VolumeOps Vol)
    (attrs : ImageAttributes) (icv_norm : ℚ × ℚ) (options : minc_input_options)
    (volume : Vol) :
    (ops.has_no_data_type volume = true →
      (negotiate_conversion env ops attrs icv_norm options false volume).converted_type =
        attrs.file_datatype ∧
      (∀ s, attrs.signtype = some s →
        ((negotiate_conversion env ops attrs icv_norm options false volume).converted_sign = true
          ↔ s = env.MI_SIGNED)) ∧
      (attrs.signtype = none →
        ((negotiate_conversion env ops attrs icv_norm options false volume).converted_sign = false
          ↔ attrs.file_datatype = nc_type.NC_BYTE)) ∧
      (negotiate_conversion env ops attrs icv_norm options false volume).trace.calls.head? =
        some (VolumeCall.set_volume_type attrs.file_datatype
          (negotiate_conversion env ops attrs icv_norm options false volume).converted_sign
          0 0) ∧
      (negotiate_conversion env ops attrs icv_norm options false volume).icv.icv_type =
        attrs.file_datatype ∧
      (negotiate_conversion env ops attrs icv_norm options false volume).icv.icv_sign =
        if (negotiate_conversion env ops attrs icv_norm options false volume).converted_sign
            = true then env.MI_SIGNED else env.MI_UNSIGNED) ∧
    (ops.has_no_data_type volume = false →
      (negotiate_conversion env ops attrs icv_norm options false volume).converted_type =
        (ops.get_volume_nc_data_type volume).1 ∧
      (negotiate_conversion env ops attrs icv_norm options false volume).converted_sign =
        (ops.get_volume_nc_data_type volume).2 ∧
      (∀ ty sg a b, VolumeCall.set_volume_type ty sg a b ∉
        (negotiate_conversion env ops attrs icv_norm options false volume).trace.calls) ∧
      (negotiate_conversion env ops attrs icv_norm options false volume).icv.icv_type =
        (ops.get_volume_nc_data_type volume).1 ∧
      (negotiate_conversion env ops attrs icv_norm options false volume).icv.icv_sign =
        if (ops.get_volume_nc_data_type volume).2 = true then env.MI_SIGNED
        else env.MI_UNSIGNED) := by
  constructor
  · intro hno
    have hs : (negotiate_conversion env ops attrs icv_norm options false volume).converted_sign
        = (decide_type_conversion env ops attrs false true
            { volume := volume, calls := [] }).2.1 := by
      simp only [negotiate_conversion, hno, Bool.not_false, Bool.true_and]
    have ht : (negotiate_conversion env ops attrs icv_norm options false volume).converted_type
        = attrs.file_datatype := by
      simp [negotiate_conversion, decide_type_conversion, hno]
    refine ⟨ht, ?_, ?_, ?_, ht, rfl⟩
    · intro s hsome
      rw [hs]
      simp [decide_type_conversion, hsome]
    · intro hnone
      rw [hs]
      simp [decide_type_conversion, hnone]
    · rw [negotiate_calls_no_type env ops attrs icv_norm options volume hno, hs]
      rfl
  · intro hown
    have ht : (negotiate_conversion env ops attrs icv_norm options false volume).converted_type
        = (ops.get_volume_nc_data_type volume).1 := by
      simp [negotiate_conversion, decide_type_conversion, hown]
    have hs : (negotiate_conversion env ops attrs icv_norm options false volume).converted_sign
        = (ops.get_volume_nc_data_type volume).2 := by
      simp [negotiate_conversion, decide_type_conversion, hown]
    refine ⟨ht, hs, ?_, ht, ?_⟩
    · intro ty sg a b
      rw [negotiate_calls_own_type env ops attrs icv_norm options volume hown]
      split_ifs <;> simp
    · show (if (negotiate_conversion env ops attrs icv_norm options false volume).converted_sign
          = true then env.MI_SIGNED else env.MI_UNSIGNED) = _
      rw [hs]

theorem adopts_file_type_and_sign_witness :
    simpleVolumeOps.has_no_data_type
      { nc_data_type := nc_type.NC_UNSPECIFIED, signed_flag := false, voxel_min := 0,
        voxel_max := 0, real_range := none } = true ∧
    (negotiate_conversion standardHeaders simpleVolumeOps
      { file_datatype := nc_type.NC_BYTE, signtype := none, valid_range := none,
        valid_min := none, valid_max := none }
      (0, 1) set_default_minc_input_options false
      { nc_data_type := nc_type.NC_UNSPECIFIED, signed_flag := false, voxel_min := 0,
        voxel_max := 0, real_range := none }).converted_type = nc_type.NC_BYTE :=
  ⟨by decide,
    ((adopts_file_type_and_sign standardHeaders simpleVolumeOps
      { file_datatype := nc_type.NC_BYTE, signtype := none, valid_range := none,
        valid_min := none, valid_max := none }
      (0, 1) set_default_minc_input_options
      { nc_data_type := nc_type.NC_UNSPECIFIED, signed_flag := false, voxel_min := 0,
        voxel_max := 0, real_range := none }).1 (by decide)).1⟩

/-! ## Colour conversion -/

/-- C20: when the vector-dimension step succeeds on a file whose last dimension
is the vector dimension, with `convert_vector_to_colour_flag` set and the colour
dimension size equal to that dimension's length, colour conversion is active,
and the negotiation then makes exactly one call on the volume,
`set_volume_voxel_range` with `0` and `4294967295 = 2^32 - 1`, whatever the
file's attributes and the volume are; no `set_volume_real_range` call is made. -/
theorem colour_range_is_full_word {Vol : Type} (env : HeaderConstants) (ops : VolumeOps Vol)
    (attrs : ImageAttributes) (icv_norm : ℚ × ℚ) (options : minc_input_options)
    (volume : Vol) (dim_names : List String) (sizes_in_file : List Int)
    (n_file_dimensions : Nat) (converting_to_colour : Bool)
    (hstep : vector_dimension_step env dim_names sizes_in_file options =
      some (n_file_dimensions, converting_to_colour))
    (hvec : dim_names.getD (dim_names.length - 1) "" = env.MIvector_dimension)
    (hflag : options.convert_vector_to_colour_flag = true)
    (hsize : options.dimension_size_for_colour_data =
      sizes_in_file.getD (dim_names.length - 1) 0) :
    converting_to_colour = true ∧
    (negotiate_conversion env ops attrs icv_norm options converting_to_colour
      volume).trace.calls = [VolumeCall.set_volume_voxel_range 0 4294967295] ∧
    (4294967295 : ℚ) = 2 ^ 32 - 1 ∧
    last_voxel_range_set (negotiate_conversion env ops attrs icv_norm options
      converting_to_colour volume).trace.calls = some (0, 2 ^ 32 - 1) ∧
    (negotiate_conversion env ops attrs icv_norm options converting_to_colour
      volume).trace.volume = ops.set_volume_voxel_range volume 0 (2 ^ 32 - 1) ∧
    ∀ a b, VolumeCall.set_volume_real_range a b ∉
      (negotiate_conversion env ops attrs icv_norm options converting_to_colour
        volume).trace.calls := by
  have hc : converting_to_colour = true := by
    unfold vector_dimension_step at hstep
    simp only [hvec, beq_self_eq_true, if_true, hflag, hsize, and_self] at hstep
    split_ifs at hstep
    simp only [Option.some.injEq, Prod.mk.injEq] at hstep
    exact hstep.2.symm
  subst hc
  have hn : (2 : ℚ) * 2 ^ 31 - 1 = 4294967295 := by norm_num
  have hcalls : (negotiate_conversion env ops attrs icv_norm options true
      volume).trace.calls = [VolumeCall.set_volume_voxel_range 0 4294967295] := by
    simp only [negotiate_conversion, decide_type_conversion, search_voxel_range,
      apply_voxel_range, VolumeTrace.perform, Bool.not_true, Bool.false_and, if_true,
      Bool.true_eq_false, false_and, if_false, List.nil_append, hn]
  have hvol : (negotiate_conversion env ops attrs icv_norm options true
      volume).trace.volume = ops.set_volume_voxel_range volume 0 (2 ^ 32 - 1) := by
    simp only [negotiate_conversion, decide_type_conversion, search_voxel_range,
      apply_voxel_range, VolumeTrace.perform, Bool.not_true, Bool.false_and, if_true,
      Bool.true_eq_false, false_and, if_false, List.nil_append, hn]
    norm_num
  refine ⟨rfl, hcalls, by norm_num, ?_, hvol, ?_⟩
  · rw [hcalls]
    simp only [last_voxel_range_set, List.foldl_cons, List.foldl_nil]
    norm_num
  · intro a b
    rw [hcalls]
    simp

theorem colour_range_is_full_word_witness :
    vector_dimension_step standardHeaders ["zspace", "yspace", "xspace", "vector_dimension"]
      [10, 20, 30, 3]
      { promote_invalid_to_min_flag := true, convert_vector_to_scalar_flag := true,
        convert_vector_to_colour_flag := true, dimension_size_for_colour_data := 3,
        rgba_indices := [0, 1, 2, 0] } = some (3, true) ∧
    (negotiate_conversion standardHeaders simpleVolumeOps
      { file_datatype := nc_type.NC_BYTE, signtype := none, valid_range := some [0, 255],
        valid_min := none, valid_max := none }
      (0, 1)
      { promote_invalid_to_min_flag := true, convert_vector_to_scalar_flag := true,
        convert_vector_to_colour_flag := true, dimension_size_for_colour_data := 3,
        rgba_indices := [0, 1, 2, 0] }
      true
      { nc_data_type := nc_type.NC_UNSPECIFIED, signed_flag := false, voxel_min := 0,
        voxel_max := 0, real_range := none }).trace.calls =
      [VolumeCall.set_volume_voxel_range 0 4294967295] :=
  ⟨by decide,
    (colour_range_is_full_word standardHeaders simpleVolumeOps
      { file_datatype := nc_type.NC_BYTE, signtype := none, valid_range := some [0, 255],
        valid_min := none, valid_max := none }
      (0, 1)
      { promote_invalid_to_min_flag := true, convert_vector_to_scalar_flag := true,
        convert_vector_to_colour_flag := true, dimension_size_for_colour_data := 3,
        rgba_indices := [0, 1, 2, 0] }
      { nc_data_type := nc_type.NC_UNSPECIFIED, signed_flag := false, voxel_min := 0,
        voxel_max := 0, real_range := none }
      ["zspace", "yspace", "xspace", "vector_dimension"] [10, 20, 30, 3] 3 true
      (by decide) (by decide) rfl (by decide)).2.1⟩

/-! ## A minimum without a maximum -/

theorem read_range_attributes_min_only (attrs : ImageAttributes) (m : ℚ)
    (hvr : attrs.valid_range = none) (hmin : attrs.valid_min = some m)
    (hmax : attrs.valid_max = none) :
    read_range_attributes attrs =
      { min_voxel_found := true, max_voxel_found := false, valid_range0 := m,
        valid_range1 := 0 } := by
  unfold read_range_attributes
  rw [hvr, hmin, hmax]
  rfl

/-- C26: without colour conversion, for a volume that requests no type, when
the `valid_range` attribute is absent, `valid_min` is present with value `m` and
`valid_max` is absent, the calls made on the volume are `set_volume_type`, the
reset `set_volume_voxel_range 0 0`, then `set_volume_voxel_range m default_max`
and `set_volume_real_range`, where `default_max` is the upper bound that
`get_volume_voxel_range` reports right after the reset; so the voxel range
handed to the volume is `[m, default_max]`. -/
theorem min_only_range_uses_default_max {Vol : Type} (env : HeaderConstants)
    (ops : VolumeOps Vol) (attrs : ImageAttributes) (icv_norm : ℚ × ℚ)
    (options : minc_input_options) (volume : Vol) (m : ℚ)
    (hno : ops.has_no_data_type volume = true)
    (hvr : attrs.valid_range = none) (hmin : attrs.valid_min = some m)
    (hmax : attrs.valid_max = none) :
    (negotiate_conversion env ops attrs icv_norm options false volume).trace.calls =
      [VolumeCall.set_volume_type attrs.file_datatype
          (negotiate_conversion env ops attrs icv_norm options false volume).converted_sign
          0 0,
        VolumeCall.set_volume_voxel_range 0 0,
        VolumeCall.set_volume_voxel_range m
          (ops.get_volume_voxel_range
            (ops.set_volume_voxel_range
              (ops.set_volume_type volume attrs.file_datatype
                (negotiate_conversion env ops attrs icv_norm options false
                  volume).converted_sign 0 0) 0 0)).2,
        VolumeCall.set_volume_real_range icv_norm.1 icv_norm.2] ∧
    last_voxel_range_set
      (negotiate_conversion env ops attrs icv_norm options false volume).trace.calls =
      some (m,
        (ops.get_volume_voxel_range
          (ops.set_volume_voxel_range
            (ops.set_volume_type volume attrs.file_datatype
              (negotiate_conversion env ops attrs icv_norm options false
                volume).converted_sign 0 0) 0 0)).2) := by
  have hs : (negotiate_conversion env ops attrs icv_norm options false volume).converted_sign
      = (decide_type_conversion env ops attrs false true
          { volume := volume, calls := [] }).2.1 := by
    simp only [negotiate_conversion, hno, Bool.not_false, Bool.true_and]
  have hcalls := negotiate_calls_no_type env ops attrs icv_norm options volume hno
  rw [read_range_attributes_min_only attrs m hvr hmin hmax, ← hs] at hcalls
  simp only [Bool.false_eq_true, and_false, if_false, and_self, if_true,
    List.cons_append, List.nil_append] at hcalls
  refine ⟨hcalls, ?_⟩
  rw [hcalls]
  simp [last_voxel_range_set]

theorem min_only_range_uses_default_max_witness :
    simpleVolumeOps.has_no_data_type
      { nc_data_type := nc_type.NC_UNSPECIFIED, signed_flag := false, voxel_min := 0,
        voxel_max := 0, real_range := none } = true ∧
    last_voxel_range_set
      (negotiate_conversion standardHeaders simpleVolumeOps
        { file_datatype := nc_type.NC_SHORT, signtype := none, valid_range := none,
          valid_min := some 10, valid_max := none }
        (0, 1) set_default_minc_input_options false
        { nc_data_type := nc_type.NC_UNSPECIFIED, signed_flag := false, voxel_min := 0,
          voxel_max := 0, real_range := none }).trace.calls = some (10, 32767) :=
  ⟨by decide,
    (min_only_range_uses_default_max standardHeaders simpleVolumeOps
      { file_datatype := nc_type.NC_SHORT, signtype := none, valid_range := none,
        valid_min := some 10, valid_max := none }
      (0, 1) set_default_minc_input_options
      { nc_data_type := nc_type.NC_UNSPECIFIED, signed_flag := false, voxel_min := 0,
        voxel_max := 0, real_range := none }
      10 (by decide) rfl rfl rfl).2.trans (by decide)⟩

/-! ## The index of the stores into `volume_start` -/

/-- C30, the code at the failing input: on the session opened on the file that
stacks four volumes along the unmatched dimension `time`, with the cursor of the
freshly opened session, the loop of `input_slab` makes the stores
`volume_start[-1] = 0`, `volume_start[2] = 0`, `volume_start[1] = 0`,
`volume_start[0] = 0`: the first store, made for the unmatched file dimension,
uses the index `INVALID_AXIS = -1`, which lies outside the array. -/
theorem volume_start_store_out_of_bounds :
    initialize_minc_input_from_minc_id standardHeaders stackedFileDims exampleVolume none
      = some stackedSession ∧
    volume_start_stores stackedSession.n_file_dimensions stackedSession.to_volume_index
      stackedSession.indices = [(-1, 0), (2, 0), (1, 0), (0, 0)] ∧
    (∃ s, s ∈ volume_start_stores stackedSession.n_file_dimensions
        stackedSession.to_volume_index stackedSession.indices ∧
      ¬ (0 ≤ s.1 ∧ s.1 < (standardHeaders.MAX_VAR_DIMS : Int))) := by
  refine ⟨by decide, by decide, ⟨(-1, 0), by decide, by decide⟩⟩

/-! ## Rewinding the session -/

theorem foldl_set_length (pos : Nat → Nat) (val : Int) (m : Nat) (idx : List Int) :
    ((List.range m).foldl (fun indices ind => indices.set (pos ind) val) idx).length =
      idx.length := by
  induction m with
  | zero => rfl
  | succ k ih => rw [foldl_range_succ, List.length_set, ih]

theorem foldl_set_zero_all (n m : Nat) (hm : m ≤ n) (idx : List Int) (h : idx.length = n) :
    ∀ d, d < n →
      ((List.range m).foldl (fun indices d => indices.set d 0) idx).getD d 0 =
        if d < m then 0 else idx.getD d 0 := by
  induction m with
  | zero =>
    intro d _
    rfl
  | succ k ih =>
    intro d hd
    rw [foldl_range_succ]
    by_cases hdk : d = k
    · subst hdk
      rw [getD_set_self _ _ _ _ (by rw [foldl_set_length (fun d => d) 0 d idx, h]; exact hd),
        if_pos (Nat.lt_succ_self d)]
    · rw [getD_set_of_ne _ _ _ _ _ (Ne.symm hdk), ih (by omega) d hd]
      by_cases hlt : d < k
      · rw [if_pos hlt, if_pos (by omega)]
      · rw [if_neg hlt, if_neg (by omega)]

theorem reset_indices_eq (n : Nat) (idx : List Int) (h : idx.length = n) :
    (List.range n).foldl (fun indices d => indices.set d 0) idx = List.replicate n 0 := by
  apply List.ext_getElem
  · rw [foldl_set_length (fun d => d) 0 n idx, h, List.length_replicate]
  · intro d h1 h2
    have hd : d < n := by
      rw [foldl_set_length (fun d => d) 0 n idx, h] at h1
      exact h1
    have := foldl_set_zero_all n n (le_refl n) idx h d hd
    rw [if_pos hd, List.getD_eq_getElem _ _ h1] at this
    rw [this, List.getElem_replicate]

theorem advance_slab_body_length (file : minc_file_struct) (d : Nat) (st : AdvanceState) :
    (advance_slab_body file d st).indices.length = st.indices.length := by
  simp only [advance_slab_body]
  split_ifs <;> simp only [List.length_set]

theorem advance_slab_loop_length (file : minc_file_struct) (d : Nat) (st : AdvanceState) :
    (advance_slab_loop file d st).indices.length = st.indices.length := by
  induction d generalizing st with
  | zero => rfl
  | succ k ih => rw [advance_slab_loop, ih, advance_slab_body_length]

theorem advance_volume_loop_length (file : minc_file_struct) (d : Nat) (idx : List Int) :
    (advance_volume_loop file d idx).1.length = idx.length := by
  induction d generalizing idx with
  | zero => rfl
  | succ k ih =>
    simp only [advance_volume_loop]
    split_ifs
    · simp only [List.length_set]
    · rw [ih]
      simp only [List.length_set]
    · exact ih idx

theorem frame_step (file0 g o : minc_file_struct) (idx : List Int) (flag : Bool)
    (ho : o = { g with indices := idx, end_volume_flag := flag })
    (hlen : idx.length = g.indices.length)
    (he : g = { file0 with indices := g.indices, end_volume_flag := g.end_volume_flag })
    (hl : g.indices.length = file0.indices.length) :
    o = { file0 with indices := o.indices, end_volume_flag := o.end_volume_flag } ∧
    o.indices.length = file0.indices.length := by
  subst ho
  refine ⟨?_, by rw [← hl, ← hlen]⟩
  conv_lhs => rw [he]

/-- The calls on a session change only the cursor and the end-of-volume flag,
and the cursor keeps its number of entries. -/
theorem reachable_frame (file0 file : minc_file_struct) (hr : Reachable file0 file) :
    file = { file0 with indices := file.indices, end_volume_flag := file.end_volume_flag } ∧
    file.indices.length = file0.indices.length := by
  induction hr with
  | start => exact ⟨rfl, rfl⟩
  | more fails hprev ih =>
    rename_i g
    obtain ⟨he, hl⟩ := ih
    simp only [input_more_minc_file]
    split_ifs
    · exact frame_step file0 g _ g.indices g.end_volume_flag rfl rfl he hl
    · exact frame_step file0 g _ g.indices true rfl rfl he hl
    · exact frame_step file0 g _ _ true rfl (advance_slab_loop_length g _ _) he hl
    · exact frame_step file0 g _ _ g.end_volume_flag rfl (advance_slab_loop_length g _ _) he hl
  | advance hprev ih =>
    rename_i g
    obtain ⟨he, hl⟩ := ih
    simp only [advance_input_volume]
    split_ifs
    · exact frame_step file0 g _ _ false rfl
        (by rw [foldl_set_length, advance_volume_loop_length]) he hl
    · exact frame_step file0 g _ _ true rfl (advance_volume_loop_length g _ _) he hl
  | reset hprev ih =>
    rename_i g
    obtain ⟨he, hl⟩ := ih
    unfold reset_input_volume
    exact frame_step file0 g _ _ false rfl (foldl_set_length (fun d => d) 0 _ _) he hl

theorem reset_of_reachable (env : HeaderConstants) (file_dims : List (String × Int))
    (volume : Volume) (options : Option minc_input_options) (file0 file : minc_file_struct)
    (h : initialize_minc_input_from_minc_id env file_dims volume options = some file0)
    (hr : Reachable file0 file) : reset_input_volume file = file0 := by
  obtain ⟨_, hlen0, _, hflag0⟩ := opened_session_ready env file_dims volume options file0 h
  have hidx0 : file0.indices = List.replicate file0.n_file_dimensions 0 :=
    (initialize_spec env file_dims volume options file0 h).2.2.2.2.2.2.2.2.2.2.2.1
  obtain ⟨he, hl⟩ := reachable_frame file0 file hr
  have hn : file.n_file_dimensions = file0.n_file_dimensions := by rw [he]
  unfold reset_input_volume
  rw [hn, reset_indices_eq file0.n_file_dimensions file.indices (by rw [hl, hlen0]), he]
  cases file0
  simp only at hidx0 hflag0
  subst hidx0 hflag0
  rfl

/-- C23: from every state that the calls on an opened session reach,
`reset_input_volume` leaves every cursor index at 0 and the end-of-volume flag
clear, and changes nothing else: the session after the reset is the freshly
opened session, with the same dimension mappings, file lengths and slab depth.
So a second reset changes nothing, and every sequence of `input_more_minc_file`
and `advance_input_volume` calls gives after the reset the same results and the
same final session as on the freshly opened session. -/
theorem reset_restores_fresh_session (env : HeaderConstants)
    (file_dims : List (String × Int)) (volume : Volume)
    (options : Option minc_input_options) (file0 file : minc_file_struct)
    (h : initialize_minc_input_from_minc_id env file_dims volume options = some file0)
    (hr : Reachable file0 file) :
    (∀ d, d < file.n_file_dimensions → (reset_input_volume file).indices.getD d 0 = 0) ∧
    (reset_input_volume file).end_volume_flag = false ∧
    (reset_input_volume file).to_volume_index = file.to_volume_index ∧
    (reset_input_volume file).to_file_index = file.to_file_index ∧
    (reset_input_volume file).sizes_in_file = file.sizes_in_file ∧
    (reset_input_volume file).n_slab_dims = file.n_slab_dims ∧
    reset_input_volume file = file0 ∧
    reset_input_volume (reset_input_volume file) = reset_input_volume file ∧
    ∀ calls : List SessionCall,
      run_calls calls (reset_input_volume file) = run_calls calls file0 := by
  have heq := reset_of_reachable env file_dims volume options file0 file h hr
  have hlen : file.indices.length = file.n_file_dimensions := by
    obtain ⟨he, hl⟩ := reachable_frame file0 file hr
    have hn : file.n_file_dimensions = file0.n_file_dimensions := by rw [he]
    rw [hl, hn]
    exact (opened_session_ready env file_dims volume options file0 h).2.1
  refine ⟨?_, rfl, rfl, rfl, rfl, rfl, heq, ?_, ?_⟩
  · intro d hd
    show ((List.range file.n_file_dimensions).foldl (fun indices d => indices.set d 0)
      file.indices).getD d 0 = 0
    rw [reset_indices_eq file.n_file_dimensions file.indices hlen]
    exact getD_replicate_lt _ _ _ _ hd
  · rw [heq]
    exact reset_of_reachable env file_dims volume options file0 file0 h Reachable.start
  · intro calls
    rw [heq]

theorem reset_restores_fresh_session_witness :
    reset_input_volume (advance_input_volume
      (input_more_minc_file (fun _ _ => false) stackedSession).file).1 = stackedSession :=
  (reset_restores_fresh_session standardHeaders stackedFileDims exampleVolume none
    stackedSession
    (advance_input_volume (input_more_minc_file (fun _ _ => false) stackedSession).file).1
    (by decide)
    (Reachable.advance (Reachable.more (fun _ _ => false) Reachable.start))).2.2.2.2.2.2.1

/-! ## The dimension-count checks -/

theorem initialize_eq_with_matcher (env : HeaderConstants) (file_dims : List (String × Int))
    (volume : Volume) (options : Option minc_input_options) :
    initialize_minc_input_from_minc_id env file_dims volume options =
      initialize_with_matcher env (match_dimension_names env) file_dims volume options :=
  rfl

theorem vector_dimension_step_ge (env : HeaderConstants) (names : List String)
    (sizes : List Int) (options : minc_input_options) (n : Nat) (c : Bool)
    (h : vector_dimension_step env names sizes options = some (n, c)) :
    names.length - 1 ≤ n := by
  unfold vector_dimension_step at h
  simp only at h
  split_ifs at h <;> simp only [Option.some.injEq, Prod.mk.injEq] at h <;> omega

theorem initialize_with_matcher_none (env : HeaderConstants)
    (matcher : List String → List String → MatchResult)
    (file_dims : List (String × Int)) (volume : Volume)
    (options : Option minc_input_options) (n : Nat) (c : Bool)
    (hstep : vector_dimension_step env (file_dims.map Prod.fst) (file_dims.map Prod.snd)
      (options.getD set_default_minc_input_options) = some (n, c))
    (hbad : env.MAX_VAR_DIMS < n ∨ n < get_volume_n_dimensions volume) :
    initialize_with_matcher env matcher file_dims volume options = none := by
  unfold initialize_with_matcher
  simp only [hstep]
  by_cases h1 : n < get_volume_n_dimensions volume
  · rw [if_pos h1]
  · rw [if_neg h1]
    rcases hbad with h2 | h2
    · rw [if_pos h2]
    · exact absurd h2 h1

/-- The open returns NULL whenever the file dimension count that remains after
the vector-dimension handling is larger than `MAX_VAR_DIMS` or smaller than the
volume's dimension count, and whenever the file has more than
`MAX_VAR_DIMS + 1` dimensions; the result is then the same for every function
put in the place of `match_dimension_names`. -/
theorem dimension_checks_precede_matching (env : HeaderConstants)
    (file_dims : List (String × Int)) (volume : Volume)
    (options : Option minc_input_options) :
    (∀ (n : Nat) (c : Bool),
      vector_dimension_step env (file_dims.map Prod.fst) (file_dims.map Prod.snd)
        (options.getD set_default_minc_input_options) = some (n, c) →
      (env.MAX_VAR_DIMS < n ∨ n < get_volume_n_dimensions volume) →
      initialize_minc_input_from_minc_id env file_dims volume options = none ∧
      ∀ matcher : List String → List String → MatchResult,
        initialize_with_matcher env matcher file_dims volume options = none) ∧
    (env.MAX_VAR_DIMS + 1 < file_dims.length →
      initialize_minc_input_from_minc_id env file_dims volume options = none ∧
      ∀ matcher : List String → List String → MatchResult,
        initialize_with_matcher env matcher file_dims volume options = none) ∧
    initialize_with_matcher env (match_dimension_names env) file_dims volume options =
      initialize_minc_input_from_minc_id env file_dims volume options := by
  refine ⟨?_, ?_, ?_⟩
  · intro n c hstep hbad
    refine ⟨?_, fun matcher =>
      initialize_with_matcher_none env matcher file_dims volume options n c hstep hbad⟩
    rw [initialize_eq_with_matcher]
    exact initialize_with_matcher_none env _ file_dims volume options n c hstep hbad
  · intro hlen
    have hall : ∀ matcher : List String → List String → MatchResult,
        initialize_with_matcher env matcher file_dims volume options = none := by
      intro matcher
      cases hstep : vector_dimension_step env (file_dims.map Prod.fst)
          (file_dims.map Prod.snd) (options.getD set_default_minc_input_options) with
      | none =>
        unfold initialize_with_matcher
        simp only [hstep]
      | some r =>
        obtain ⟨n, c⟩ := r
        have hge := vector_dimension_step_ge env _ _ _ n c hstep
        rw [List.length_map] at hge
        exact initialize_with_matcher_none env matcher file_dims volume options n c hstep
          (Or.inl (by omega))
    refine ⟨?_, hall⟩
    rw [initialize_eq_with_matcher]
    exact hall _
  · rfl

theorem slab_loop_spec (tvi sizes : List Int) (d : Nat) (acc : Nat × Int)
    (hacc : acc.2 < MIN_SLAB_SIZE) :
    ∃ k, k ≤ (matched_lengths tvi sizes d).length ∧
      slab_loop tvi sizes d acc =
        (acc.1 + k, acc.2 * ((matched_lengths tvi sizes d).take k).prod) ∧
      (∀ k', k' < k →
        acc.2 * ((matched_lengths tvi sizes d).take k').prod < MIN_SLAB_SIZE) ∧
      (MIN_SLAB_SIZE ≤ acc.2 * ((matched_lengths tvi sizes d).take k).prod ∨
        k = (matched_lengths tvi sizes d).length) := by
  induction d generalizing acc with
  | zero =>
    refine ⟨0, le_refl _, ?_, fun k' hk' => absurd hk' (Nat.not_lt_zero k'), Or.inr rfl⟩
    simp [slab_loop, matched_lengths]
  | succ e ih =>
    by_cases hm : tvi.getD e INVALID_AXIS ≠ INVALID_AXIS
    · simp only [slab_loop, matched_lengths, if_pos hm]
      by_cases hstop : acc.2 * sizes.getD e 0 < MIN_SLAB_SIZE
      · obtain ⟨k, hk, heq, hlt, hor⟩ := ih (acc.1 + 1, acc.2 * sizes.getD e 0) hstop
        simp only at heq hlt hor
        refine ⟨k + 1, by simpa using hk, ?_, ?_, ?_⟩
        · by_cases he : 0 < e
          · rw [if_pos ⟨he, hstop⟩, heq, List.take_succ_cons, List.prod_cons]
            congr 1
            · omega
            · ring
          · have he0 : e = 0 := by omega
            subst he0
            have hk0 : k = 0 := by simpa [matched_lengths] using hk
            subst hk0
            rw [if_neg (fun h => he h.1)]
            simp [matched_lengths]
        · intro k' hk'
          cases k' with
          | zero => simpa using hacc
          | succ j =>
            rw [List.take_succ_cons, List.prod_cons, ← mul_assoc]
            exact hlt j (by omega)
        · rcases hor with h1 | h1
          · left
            rw [List.take_succ_cons, List.prod_cons, ← mul_assoc]
            exact h1
          · right
            simp [h1]
      · refine ⟨1, by simp, ?_, ?_, ?_⟩
        · rw [if_neg (fun h => hstop h.2)]
          simp
        · intro k' hk'
          have : k' = 0 := by omega
          subst this
          simpa using hacc
        · left
          simpa using not_lt.mp hstop
    · simp only [slab_loop, matched_lengths, if_neg hm]
      by_cases he : 0 < e
      · rw [if_pos ⟨he, hacc⟩]
        exact ih acc hacc
      · have he0 : e = 0 := by omega
        subst he0
        rw [if_neg (fun h => he h.1)]
        refine ⟨0, le_refl _, ?_, fun k' hk' => absurd hk' (Nat.not_lt_zero k'), Or.inr rfl⟩
        simp [matched_lengths]

theorem matched_lengths_length (tvi sizes : List Int) (d : Nat) :
    (matched_lengths tvi sizes d).length =
      ((Finset.range d).filter (fun e => tvi.getD e INVALID_AXIS ≠ INVALID_AXIS)).card := by
  induction d with
  | zero => rfl
  | succ e ih =>
    rw [Finset.range_succ, Finset.filter_insert]
    by_cases hm : tvi.getD e INVALID_AXIS ≠ INVALID_AXIS
    · rw [matched_lengths, if_pos hm, if_pos hm, List.length_cons, ih,
        Finset.card_insert_of_not_mem (by simp)]
    · rw [matched_lengths, if_neg hm, if_neg hm, ih]

theorem matched_card_le (V F : Nat) (tvi : List Int)
    (hrange : ∀ j, j < F → tvi.getD j INVALID_AXIS = INVALID_AXIS ∨
      (0 ≤ tvi.getD j INVALID_AXIS ∧ tvi.getD j INVALID_AXIS < (V : Int)))
    (huniq : ∀ v, v < V → ∃! j, j < F ∧ tvi.getD j INVALID_AXIS = (v : Int)) :
    ((Finset.range F).filter (fun d => tvi.getD d INVALID_AXIS ≠ INVALID_AXIS)).card ≤ V := by
  have h := Finset.card_le_card_of_injOn (fun j => (tvi.getD j INVALID_AXIS).toNat)
    (s := (Finset.range F).filter (fun d => tvi.getD d INVALID_AXIS ≠ INVALID_AXIS))
    (t := Finset.range V) ?_ ?_
  · simpa using h
  · intro j hj
    rw [Finset.mem_filter, Finset.mem_range] at hj
    rcases hrange j hj.1 with h1 | h1
    · exact absurd h1 hj.2
    · rw [Finset.mem_range]
      show (tvi.getD j INVALID_AXIS).toNat < V
      omega
  · intro j hj j' hj' hjj
    simp only [Finset.coe_filter, Finset.mem_range, Set.mem_setOf_eq] at hj hj'
    rcases hrange j hj.1 with h1 | h1
    · exact absurd h1 hj.2
    · rcases hrange j' hj'.1 with h2 | h2
      · exact absurd h2 hj'.2
      · simp only at hjj
        have hv : (tvi.getD j INVALID_AXIS).toNat < V := by omega
        obtain ⟨j0, _, hu⟩ := huniq _ hv
        have e1 := hu j ⟨hj.1, by omega⟩
        have e2 := hu j' ⟨hj'.1, by omega⟩
        rw [e1, e2]

theorem session_matched_lengths (env : HeaderConstants) (file_dims : List (String × Int))
    (volume : Volume) (options : Option minc_input_options) (file : minc_file_struct)
    (h : initialize_minc_input_from_minc_id env file_dims volume options = some file) :
    (matched_lengths file.to_volume_index file.sizes_in_file file.n_file_dimensions).length =
      get_volume_n_dimensions volume := by
  obtain ⟨_, hrange, huniq⟩ := session_forward_map env file_dims volume options file h
  rw [matched_lengths_length]
  apply le_antisymm
  · exact matched_card_le _ _ _ hrange huniq
  · exact matched_card_ge _ _ _ (fun v hv => (huniq v hv).exists)

/-- The slab depth of an opened session in terms of the matched lengths: the
loop stops at the first `k` whose product reaches `MIN_SLAB_SIZE`, or at the
number of matched dimensions. -/
theorem session_slab_depth (env : HeaderConstants) (file_dims : List (String × Int))
    (volume : Volume) (options : Option minc_input_options) (file : minc_file_struct)
    (h : initialize_minc_input_from_minc_id env file_dims volume options = some file)
    (hV : 1 ≤ get_volume_n_dimensions volume) :
    ∃ k, 1 ≤ k ∧ k ≤ get_volume_n_dimensions volume ∧
      (∀ k', k' < k →
        ((matched_lengths file.to_volume_index file.sizes_in_file
          file.n_file_dimensions).take k').prod < MIN_SLAB_SIZE) ∧
      (MIN_SLAB_SIZE ≤ ((matched_lengths file.to_volume_index file.sizes_in_file
          file.n_file_dimensions).take k).prod ∨ k = get_volume_n_dimensions volume) ∧
      file.n_slab_dims =
        if MAX_SLAB_SIZE < ((matched_lengths file.to_volume_index file.sizes_in_file
            file.n_file_dimensions).take k).prod ∧ 1 < k then k - 1 else k := by
  have hlen := session_matched_lengths env file_dims volume options file h
  have hslab : file.n_slab_dims = compute_n_slab_dims file.n_file_dimensions
      file.to_volume_index file.sizes_in_file :=
    (initialize_spec env file_dims volume options file h).2.2.2.2.2.2.2.2.2.2.2.2.2.1
  obtain ⟨k, hk, heq, hlt, hor⟩ := slab_loop_spec file.to_volume_index file.sizes_in_file
    file.n_file_dimensions (0, 1) (by decide)
  simp only [one_mul, zero_add] at heq hlt hor
  rw [hlen] at hk hor
  have hk1 : 1 ≤ k := by
    rcases hor with h1 | h1
    · by_contra hc
      have hk0 : k = 0 := by omega
      subst hk0
      simp [MIN_SLAB_SIZE] at h1
    · omega
  refine ⟨k, hk1, hk, hlt, hor, ?_⟩
  rw [hslab]
  unfold compute_n_slab_dims
  simp only [heq, gt_iff_lt]

/-- C24: for a successfully opened session with `V >= 1` matched dimensions of
lengths `s_1, ..., s_V` (innermost first), if `k` is the least `k >= 1` with
`s_1 * ... * s_k >= 10000`, or `V` if there is none, and `P = s_1 * ... * s_k`,
then `n_slab_dims` is `k - 1` if `P > 400000` and `k > 1`, and `k` otherwise.
The list of matched lengths has `V` entries and skips the unmatched file
dimensions, so these do not change the result; such a `k` always exists. -/
theorem slab_depth_formula (env : HeaderConstants) (file_dims : List (String × Int))
    (volume : Volume) (options : Option minc_input_options) (file : minc_file_struct)
    (h : initialize_minc_input_from_minc_id env file_dims volume options = some file)
    (hV : 1 ≤ get_volume_n_dimensions volume) :
    (matched_lengths file.to_volume_index file.sizes_in_file file.n_file_dimensions).length =
      get_volume_n_dimensions volume ∧
    (∀ k, 1 ≤ k → k ≤ get_volume_n_dimensions volume →
      (∀ k', 1 ≤ k' → k' < k →
        ((matched_lengths file.to_volume_index file.sizes_in_file
          file.n_file_dimensions).take k').prod < MIN_SLAB_SIZE) →
      (MIN_SLAB_SIZE ≤ ((matched_lengths file.to_volume_index file.sizes_in_file
          file.n_file_dimensions).take k).prod ∨ k = get_volume_n_dimensions volume) →
      file.n_slab_dims =
        if MAX_SLAB_SIZE < ((matched_lengths file.to_volume_index file.sizes_in_file
            file.n_file_dimensions).take k).prod ∧ 1 < k then k - 1 else k) ∧
    (∃ k, 1 ≤ k ∧ k ≤ get_volume_n_dimensions volume ∧
      (∀ k', 1 ≤ k' → k' < k →
        ((matched_lengths file.to_volume_index file.sizes_in_file
          file.n_file_dimensions).take k').prod < MIN_SLAB_SIZE) ∧
      (MIN_SLAB_SIZE ≤ ((matched_lengths file.to_volume_index file.sizes_in_file
          file.n_file_dimensions).take k).prod ∨ k = get_volume_n_dimensions volume)) := by
  obtain ⟨k0, hk1, hkV, hlt, hor, hn⟩ :=
    session_slab_depth env file_dims volume options file h hV
  refine ⟨session_matched_lengths env file_dims volume options file h, ?_,
    ⟨k0, hk1, hkV, fun k' _ hk' => hlt k' hk', hor⟩⟩
  intro k h1 hk hless hreach
  have hkk : k = k0 := by
    rcases Nat.lt_trichotomy k k0 with hc | hc | hc
    · have := hlt k hc
      rcases hreach with h2 | h2
      · exact absurd h2 (not_le.mpr this)
      · omega
    · exact hc
    · have := hless k0 hk1 hc
      rcases hor with h2 | h2
      · exact absurd h2 (not_le.mpr this)
      · omega
  rw [hkk]
  exact hn

theorem slab_depth_formula_witness :
    matched_lengths stackedSession.to_volume_index stackedSession.sizes_in_file
      stackedSession.n_file_dimensions = [1, 20000, 5] ∧
    stackedSession.n_slab_dims = 2 :=
  ⟨by decide,
    ((slab_depth_formula standardHeaders stackedFileDims exampleVolume none stackedSession
      (by decide) (by decide)).2.1 2 (by decide) (by decide)
      (fun k' h1 h2 => by
        have hk : k' = 1 := by omega
        subst hk
        decide)
      (Or.inl (by decide))).trans (by decide)⟩

/-- C28: for a successfully opened session with `V >= 1` matched dimensions,
`1 <= n_slab_dims <= V`; the element count of one slab, the product of the
lengths of the `n_slab_dims` innermost matched dimensions, exceeds
`MAX_SLAB_SIZE = 400000` only if `n_slab_dims = 1` and the innermost matched
dimension alone is longer than 400000; so whenever that dimension has length
at most 400000, the element count of a slab is at most 400000. -/
theorem slab_size_bounded (env : HeaderConstants) (file_dims : List (String × Int))
    (volume : Volume) (options : Option minc_input_options) (file : minc_file_struct)
    (h : initialize_minc_input_from_minc_id env file_dims volume options = some file)
    (hV : 1 ≤ get_volume_n_dimensions volume) :
    1 ≤ file.n_slab_dims ∧ file.n_slab_dims ≤ get_volume_n_dimensions volume ∧
    (MAX_SLAB_SIZE < ((matched_lengths file.to_volume_index file.sizes_in_file
        file.n_file_dimensions).take file.n_slab_dims).prod →
      file.n_slab_dims = 1 ∧
      MAX_SLAB_SIZE < (matched_lengths file.to_volume_index file.sizes_in_file
        file.n_file_dimensions).getD 0 0) ∧
    ((matched_lengths file.to_volume_index file.sizes_in_file
        file.n_file_dimensions).getD 0 0 ≤ MAX_SLAB_SIZE →
      ((matched_lengths file.to_volume_index file.sizes_in_file
        file.n_file_dimensions).take file.n_slab_dims).prod ≤ MAX_SLAB_SIZE) := by
  obtain ⟨k, hk1, hkV, hlt, hor, hn⟩ :=
    session_slab_depth env file_dims volume options file h hV
  have hlen := session_matched_lengths env file_dims volume options file h
  generalize matched_lengths file.to_volume_index file.sizes_in_file
    file.n_file_dimensions = s at hlt hor hn hlen ⊢
  have hone : (s.take 1).prod = s.getD 0 0 := by
    cases s with
    | nil =>
      simp only [List.length_nil] at hlen
      omega
    | cons x xs => simp
  have hmm : MIN_SLAB_SIZE ≤ MAX_SLAB_SIZE := by decide
  by_cases hbig : MAX_SLAB_SIZE < (s.take k).prod ∧ 1 < k
  · rw [if_pos hbig] at hn
    have hsmall := hlt (k - 1) (by omega)
    rw [hn]
    refine ⟨by omega, by omega, ?_, ?_⟩
    · intro hc
      exact absurd hc (not_lt.mpr (le_trans (le_of_lt hsmall) hmm))
    · intro _
      exact le_trans (le_of_lt hsmall) hmm
  · rw [if_neg hbig] at hn
    rw [hn]
    have hcase : MAX_SLAB_SIZE < (s.take k).prod → k = 1 := by
      intro hc
      by_contra hk
      exact hbig ⟨hc, by omega⟩
    refine ⟨hk1, hkV, ?_, ?_⟩
    · intro hc
      have hk := hcase hc
      subst hk
      rw [hone] at hc
      exact ⟨rfl, hc⟩
    · intro hs
      by_contra hc
      have hc2 := not_le.mp hc
      have hk := hcase hc2
      subst hk
      rw [hone] at hc2
      exact absurd hs (not_le.mpr hc2)

theorem slab_size_bounded_witness :
    1 ≤ thinSession.n_slab_dims ∧ thinSession.n_slab_dims ≤ 3 ∧
    ((matched_lengths thinSession.to_volume_index thinSession.sizes_in_file
        thinSession.n_file_dimensions).take thinSession.n_slab_dims).prod ≤ MAX_SLAB_SIZE :=
  ⟨(slab_size_bounded standardHeaders thinFileDims exampleVolume none thinSession
      (by decide) (by decide)).1,
    (slab_size_bounded standardHeaders thinFileDims exampleVolume none thinSession
      (by decide) (by decide)).2.1,
    (slab_size_bounded standardHeaders thinFileDims exampleVolume none thinSession
      (by decide) (by decide)).2.2.2 (by decide)⟩

/-! ## The stack position counts the volumes -/

theorem stack_position_congr (tvi sizes : List Int) (x y : Nat → Int) (d : Nat)
    (h : ∀ e, e < d → tvi.getD e INVALID_AXIS = INVALID_AXIS → x e = y e) :
    stack_position tvi sizes x d = stack_position tvi sizes y d := by
  induction d with
  | zero => rfl
  | succ k ih =>
    have hrec := ih (fun e he => h e (Nat.lt_succ_of_lt he))
    by_cases hu : tvi.getD k INVALID_AXIS = INVALID_AXIS
    · rw [stack_position, stack_position, if_pos hu, if_pos hu, hrec,
        h k (Nat.lt_succ_self k) hu]
    · rw [stack_position, stack_position, if_neg hu, if_neg hu, hrec]

theorem stack_position_bounds (tvi sizes : List Int) (x : Nat → Int) (d : Nat)
    (h : ∀ e, e < d → tvi.getD e INVALID_AXIS = INVALID_AXIS →
      0 ≤ x e ∧ x e < sizes.getD e 0) :
    0 ≤ stack_position tvi sizes x d ∧
    stack_position tvi sizes x d < stack_total tvi sizes d := by
  induction d with
  | zero => exact ⟨le_refl 0, Int.zero_lt_one⟩
  | succ k ih =>
    obtain ⟨h1, h2⟩ := ih (fun e he => h e (Nat.lt_succ_of_lt he))
    by_cases hu : tvi.getD k INVALID_AXIS = INVALID_AXIS
    · obtain ⟨h3, h4⟩ := h k (Nat.lt_succ_self k) hu
      rw [stack_position, stack_total, if_pos hu, if_pos hu]
      constructor
      · have : 0 ≤ sizes.getD k 0 * stack_position tvi sizes x k :=
          mul_nonneg (by omega) h1
        omega
      · have : sizes.getD k 0 * (stack_position tvi sizes x k + 1) ≤
            sizes.getD k 0 * stack_total tvi sizes k :=
          mul_le_mul_of_nonneg_left (by omega) (by omega)
        rw [mul_add, mul_one] at this
        omega
    · rw [stack_position, stack_total, if_neg hu, if_neg hu]
      exact ⟨h1, h2⟩

theorem advance_volume_loop_spec (file : minc_file_struct) (d : Nat) (idx : List Int)
    (hd : d ≤ idx.length)
    (hb : ∀ e, e < d → file.to_volume_index.getD e INVALID_AXIS = INVALID_AXIS →
      0 ≤ idx.getD e 0 ∧ idx.getD e 0 < file.sizes_in_file.getD e 0) :
    (∀ e, (d ≤ e ∨ file.to_volume_index.getD e INVALID_AXIS ≠ INVALID_AXIS) →
      (advance_volume_loop file d idx).1.getD e 0 = idx.getD e 0) ∧
    ((advance_volume_loop file d idx).2 = true →
      stack_position file.to_volume_index file.sizes_in_file
          (fun e => (advance_volume_loop file d idx).1.getD e 0) d =
        stack_position file.to_volume_index file.sizes_in_file (fun e => idx.getD e 0) d + 1 ∧
      ∀ e, e < d → file.to_volume_index.getD e INVALID_AXIS = INVALID_AXIS →
        0 ≤ (advance_volume_loop file d idx).1.getD e 0 ∧
        (advance_volume_loop file d idx).1.getD e 0 < file.sizes_in_file.getD e 0) ∧
    ((advance_volume_loop file d idx).2 = false →
      (∀ e, e < d → file.to_volume_index.getD e INVALID_AXIS = INVALID_AXIS →
        (advance_volume_loop file d idx).1.getD e 0 = 0) ∧
      stack_position file.to_volume_index file.sizes_in_file (fun e => idx.getD e 0) d + 1 =
        stack_total file.to_volume_index file.sizes_in_file d) := by
  induction d generalizing idx with
  | zero =>
    refine ⟨fun e _ => rfl, fun h => ?_, fun _ => ⟨fun e he => absurd he (Nat.not_lt_zero e), rfl⟩⟩
    simp [advance_volume_loop] at h
  | succ k ih =>
    have hk : k < idx.length := hd
    by_cases hu : file.to_volume_index.getD k INVALID_AXIS = INVALID_AXIS
    · obtain ⟨hk0, hk1⟩ := hb k (Nat.lt_succ_self k) hu
      by_cases hlt : idx.getD k 0 + 1 < file.sizes_in_file.getD k 0
      · have hloop : advance_volume_loop file (k + 1) idx =
            (idx.set k (idx.getD k 0 + 1), true) := by
          rw [advance_volume_loop, if_pos hu]
          simp only
          rw [getD_set_self _ _ _ _ hk, if_pos hlt]
        rw [hloop]
        refine ⟨?_, fun _ => ⟨?_, ?_⟩, fun h => by simp at h⟩
        · intro e he
          apply getD_set_of_ne
          rcases he with he | he
          · omega
          · intro hek
            subst hek
            exact he hu
        · simp only
          rw [stack_position, stack_position, if_pos hu, if_pos hu,
            getD_set_self _ _ _ _ hk,
            stack_position_congr _ _ (fun e => (idx.set k (idx.getD k 0 + 1)).getD e 0)
              (fun e => idx.getD e 0) k
              (fun e he _ => getD_set_of_ne _ _ _ _ _ (by omega))]
          ring
        · intro e he hue
          simp only
          by_cases hek : e = k
          · subst hek
            rw [getD_set_self _ _ _ _ hk]
            omega
          · rw [getD_set_of_ne _ _ _ _ _ (Ne.symm hek)]
            exact hb e he hue
      · have hloop : advance_volume_loop file (k + 1) idx =
            advance_volume_loop file k (idx.set k 0) := by
          rw [advance_volume_loop, if_pos hu]
          simp only
          rw [getD_set_self _ _ _ _ hk, if_neg hlt, List.set_set]
        have hb2 : ∀ e, e < k → file.to_volume_index.getD e INVALID_AXIS = INVALID_AXIS →
            0 ≤ (idx.set k 0).getD e 0 ∧ (idx.set k 0).getD e 0 < file.sizes_in_file.getD e 0 := by
          intro e he hue
          rw [getD_set_of_ne _ _ _ _ _ (by omega)]
          exact hb e (by omega) hue
        obtain ⟨i1, i2, i3⟩ := ih (idx.set k 0) (by rw [List.length_set]; omega) hb2
        have hcong : stack_position file.to_volume_index file.sizes_in_file
            (fun e => (idx.set k 0).getD e 0) k =
            stack_position file.to_volume_index file.sizes_in_file (fun e => idx.getD e 0) k :=
          stack_position_congr _ _ _ _ k (fun e he _ => getD_set_of_ne _ _ _ _ _ (by omega))
        have hkk : (advance_volume_loop file k (idx.set k 0)).1.getD k 0 = 0 := by
          rw [i1 k (Or.inl (le_refl k)), getD_set_self _ _ _ _ hk]
        have hmax : idx.getD k 0 + 1 = file.sizes_in_file.getD k 0 := by omega
        rw [hloop]
        refine ⟨?_, fun h => ⟨?_, ?_⟩, fun h => ⟨?_, ?_⟩⟩
        · intro e he
          rw [i1 e (by rcases he with he | he; exact Or.inl (by omega); exact Or.inr he)]
          apply getD_set_of_ne
          rcases he with he | he
          · omega
          · intro hek
            subst hek
            exact he hu
        · obtain ⟨j1, _⟩ := i2 h
          rw [stack_position, stack_position, if_pos hu, if_pos hu, hkk, j1, hcong, ← hmax]
          ring
        · intro e he hue
          by_cases hek : e = k
          · subst hek
            rw [hkk]
            omega
          · exact (i2 h).2 e (by omega) hue
        · intro e he hue
          by_cases hek : e = k
          · subst hek
            exact hkk
          · exact (i3 h).1 e (by omega) hue
        · obtain ⟨_, j2⟩ := i3 h
          rw [hcong] at j2
          rw [stack_position, stack_total, if_pos hu, if_pos hu, ← j2, ← hmax]
          ring
    · have hloop : advance_volume_loop file (k + 1) idx = advance_volume_loop file k idx := by
        rw [advance_volume_loop, if_neg hu]
      obtain ⟨i1, i2, i3⟩ := ih idx (by omega) (fun e he hue => hb e (by omega) hue)
      rw [hloop]
      refine ⟨?_, fun h => ⟨?_, ?_⟩, fun h => ⟨?_, ?_⟩⟩
      · intro e he
        apply i1
        rcases he with he | he
        · exact Or.inl (by omega)
        · exact Or.inr he
      · rw [stack_position, stack_position, if_neg hu, if_neg hu]
        exact (i2 h).1
      · intro e he hue
        have hek : e ≠ k := by
          intro hek
          subst hek
          exact hu hue
        exact (i2 h).2 e (by omega) hue
      · intro e he hue
        have hek : e ≠ k := by
          intro hek
          subst hek
          exact hu hue
        exact (i3 h).1 e (by omega) hue
      · rw [stack_position, stack_total, if_neg hu, if_neg hu]
        exact (i3 h).2

theorem foldl_set_zero_hit (pos : Nat → Nat) (m : Nat) (idx : List Int) (p : Nat)
    (hp : p < m) (hlen : pos p < idx.length) :
    ((List.range m).foldl (fun indices ind => indices.set (pos ind) 0) idx).getD (pos p) 0
      = 0 := by
  induction m with
  | zero => exact absurd hp (Nat.not_lt_zero p)
  | succ k ih =>
    rw [foldl_range_succ]
    by_cases hkp : pos k = pos p
    · rw [hkp]
      exact getD_set_self _ _ _ _ (by rw [foldl_set_length]; exact hlen)
    · rw [getD_set_of_ne _ _ _ _ _ hkp]
      have hpk : p ≠ k := by
        intro e
        subst e
        exact hkp rfl
      exact ih (by omega)

theorem build_valid_file_axes_onto (n : Nat) (tvi : List Int) (m : Nat) (hm : m ≤ n) :
    ((List.range m).foldl
        (fun (acc : List Nat × Nat) d =>
          if tvi.getD d INVALID_AXIS ≠ INVALID_AXIS then (acc.1.set acc.2 d, acc.2 + 1)
          else acc) (List.replicate n 0, 0)).2 ≤ m ∧
    ((List.range m).foldl
        (fun (acc : List Nat × Nat) d =>
          if tvi.getD d INVALID_AXIS ≠ INVALID_AXIS then (acc.1.set acc.2 d, acc.2 + 1)
          else acc) (List.replicate n 0, 0)).1.length = n ∧
    ∀ d, d < m → tvi.getD d INVALID_AXIS ≠ INVALID_AXIS →
      ∃ p, p < ((List.range m).foldl
        (fun (acc : List Nat × Nat) d =>
          if tvi.getD d INVALID_AXIS ≠ INVALID_AXIS then (acc.1.set acc.2 d, acc.2 + 1)
          else acc) (List.replicate n 0, 0)).2 ∧
        ((List.range m).foldl
          (fun (acc : List Nat × Nat) d =>
            if tvi.getD d INVALID_AXIS ≠ INVALID_AXIS then (acc.1.set acc.2 d, acc.2 + 1)
            else acc) (List.replicate n 0, 0)).1.getD p 0 = d := by
  induction m with
  | zero =>
    exact ⟨le_refl 0, List.length_replicate n 0, fun d hd => absurd hd (Nat.not_lt_zero d)⟩
  | succ k ih =>
    obtain ⟨h1, h2, h3⟩ := ih (by omega)
    rw [foldl_range_succ]
    generalize (List.range k).foldl
        (fun (acc : List Nat × Nat) d =>
          if tvi.getD d INVALID_AXIS ≠ INVALID_AXIS then (acc.1.set acc.2 d, acc.2 + 1)
          else acc) (List.replicate n 0, 0) = acc at h1 h2 h3
    by_cases hu : tvi.getD k INVALID_AXIS ≠ INVALID_AXIS
    · rw [if_pos hu]
      refine ⟨by simp only; omega, by simp only [List.length_set]; exact h2, ?_⟩
      intro d hd hdm
      by_cases hdk : d = k
      · subst hdk
        exact ⟨acc.2, Nat.lt_succ_self _, getD_set_self _ _ _ _ (by omega)⟩
      · obtain ⟨p, hp, hpe⟩ := h3 d (by omega) hdm
        refine ⟨p, Nat.lt_succ_of_lt hp, ?_⟩
        simp only
        rw [getD_set_of_ne _ _ _ _ _ (by omega)]
        exact hpe
    · rw [if_neg hu]
      refine ⟨by omega, h2, ?_⟩
      intro d hd hdm
      have hdk : d ≠ k := by
        intro e
        subst e
        exact hu hdm
      exact h3 d (by omega) hdm

theorem session_axes_onto (env : HeaderConstants) (file_dims : List (String × Int))
    (volume : Volume) (options : Option minc_input_options) (file : minc_file_struct)
    (h : initialize_minc_input_from_minc_id env file_dims volume options = some file) :
    ∀ d, d < file.n_file_dimensions →
      file.to_volume_index.getD d INVALID_AXIS ≠ INVALID_AXIS →
      ∃ p, p < get_volume_n_dimensions file.volume ∧ file.valid_file_axes.getD p 0 = d := by
  have haxes : file.valid_file_axes =
      (build_valid_file_axes file.n_file_dimensions file.to_volume_index).1 :=
    (initialize_spec env file_dims volume options file h).2.2.2.2.2.2.2.2.2.1
  have hV := initialize_volume_dims env file_dims volume options file h
  have hcard := session_matched_lengths env file_dims volume options file h
  rw [matched_lengths_length] at hcard
  obtain ⟨hc, _, _⟩ := build_valid_file_axes_spec file.n_file_dimensions
    file.to_volume_index file.n_file_dimensions (le_refl _)
  obtain ⟨_, _, honto⟩ := build_valid_file_axes_onto file.n_file_dimensions
    file.to_volume_index file.n_file_dimensions (le_refl _)
  intro d hd hm
  obtain ⟨p, hp, hpe⟩ := honto d hd hm
  rw [hc, hcard] at hp
  refine ⟨p, by rw [hV]; exact hp, ?_⟩
  rw [haxes]
  exact hpe

theorem advance_input_volume_step (g : minc_file_struct)
    (hb : StackInBounds g g.indices)
    (haxes : ∀ ind, ind < get_volume_n_dimensions g.volume →
      g.to_volume_index.getD (g.valid_file_axes.getD ind 0) INVALID_AXIS ≠ INVALID_AXIS) :
    StackInBounds g (advance_input_volume g).1.indices ∧
    ((advance_volume_loop g g.n_file_dimensions g.indices).2 = true ↔
      stack_position g.to_volume_index g.sizes_in_file (fun e => g.indices.getD e 0)
        g.n_file_dimensions + 1 < stack_total g.to_volume_index g.sizes_in_file
        g.n_file_dimensions) ∧
    ((advance_volume_loop g g.n_file_dimensions g.indices).2 = true →
      (advance_input_volume g).1.end_volume_flag = false ∧
      (advance_input_volume g).1.indices =
        (List.range (get_volume_n_dimensions g.volume)).foldl
          (fun indices ind => indices.set (g.valid_file_axes.getD ind 0) 0)
          (advance_volume_loop g g.n_file_dimensions g.indices).1 ∧
      stack_position g.to_volume_index g.sizes_in_file
          (fun e => (advance_input_volume g).1.indices.getD e 0) g.n_file_dimensions =
        stack_position g.to_volume_index g.sizes_in_file (fun e => g.indices.getD e 0)
          g.n_file_dimensions + 1) ∧
    ((advance_volume_loop g g.n_file_dimensions g.indices).2 = false →
      (advance_input_volume g).1.end_volume_flag = true ∧
      ∀ d, d < g.n_file_dimensions →
        g.to_volume_index.getD d INVALID_AXIS = INVALID_AXIS →
        (advance_input_volume g).1.indices.getD d 0 = 0) := by
  obtain ⟨hlen, hbd⟩ := hb
  obtain ⟨s1, s2, s3⟩ := advance_volume_loop_spec g g.n_file_dimensions g.indices
    (by rw [hlen]) hbd
  have hllen := advance_volume_loop_length g g.n_file_dimensions g.indices
  have hbounds := stack_position_bounds g.to_volume_index g.sizes_in_file
  cases hr : (advance_volume_loop g g.n_file_dimensions g.indices).2 with
  | true =>
    obtain ⟨t1, t2⟩ := s2 hr
    have hidx : (advance_input_volume g).1.indices =
        (List.range (get_volume_n_dimensions g.volume)).foldl
          (fun indices ind => indices.set (g.valid_file_axes.getD ind 0) 0)
          (advance_volume_loop g g.n_file_dimensions g.indices).1 := by
      simp only [advance_input_volume, hr, if_true]
    have hflag : (advance_input_volume g).1.end_volume_flag = false := by
      simp only [advance_input_volume, hr, if_true]
    have hkeep : ∀ d, g.to_volume_index.getD d INVALID_AXIS = INVALID_AXIS →
        (advance_input_volume g).1.indices.getD d 0 =
          (advance_volume_loop g g.n_file_dimensions g.indices).1.getD d 0 := by
      intro d hd
      rw [hidx]
      refine (foldl_set_zero_frame (fun ind => g.valid_file_axes.getD ind 0) d _ _ ?_).1
      intro ind hind e
      have e2 : g.valid_file_axes.getD ind 0 = d := e
      exact haxes ind hind (by rw [e2]; exact hd)
    have hpos : stack_position g.to_volume_index g.sizes_in_file
          (fun e => (advance_input_volume g).1.indices.getD e 0) g.n_file_dimensions =
        stack_position g.to_volume_index g.sizes_in_file (fun e => g.indices.getD e 0)
          g.n_file_dimensions + 1 := by
      rw [← t1]
      exact stack_position_congr _ _ _ _ _ (fun e _ he => hkeep e he)
    refine ⟨⟨?_, ?_⟩, ?_, fun _ => ⟨hflag, hidx, hpos⟩, fun hc => by simp at hc⟩
    · rw [hidx, foldl_set_length, hllen, hlen]
    · intro d hd hu
      rw [hkeep d hu]
      exact t2 d hd hu
    · refine ⟨fun _ => ?_, fun _ => rfl⟩
      rw [← t1]
      exact (hbounds _ _ t2).2
  | false =>
    obtain ⟨t1, t2⟩ := s3 hr
    have hidx : (advance_input_volume g).1.indices =
        (advance_volume_loop g g.n_file_dimensions g.indices).1 := by
      simp only [advance_input_volume, hr, Bool.false_eq_true, if_false]
    have hflag : (advance_input_volume g).1.end_volume_flag = true := by
      simp only [advance_input_volume, hr, Bool.false_eq_true, if_false]
    refine ⟨⟨by rw [hidx, hllen, hlen], ?_⟩, ?_, fun hc => by simp at hc, fun _ => ⟨hflag, ?_⟩⟩
    · intro d hd hu
      rw [hidx, t1 d hd hu]
      have := hbd d hd hu
      omega
    · refine ⟨fun hc => by simp at hc, fun hc => ?_⟩
      rw [t2] at hc
      exact absurd hc (lt_irrefl _)
    · intro d hd hu
      rw [hidx]
      exact t1 d hd hu

theorem reachable_fields (file0 file : minc_file_struct) (hr : Reachable file0 file) :
    file.n_file_dimensions = file0.n_file_dimensions ∧
    file.to_volume_index = file0.to_volume_index ∧
    file.sizes_in_file = file0.sizes_in_file ∧
    file.valid_file_axes = file0.valid_file_axes ∧
    file.volume = file0.volume ∧
    file.n_volumes_in_file = file0.n_volumes_in_file := by
  obtain ⟨he, _⟩ := reachable_frame file0 file hr
  refine ⟨?_, ?_, ?_, ?_, ?_, ?_⟩ <;> rw [he]

theorem advance_slab_body_unmatched (file : minc_file_struct) (d : Nat) (st : AdvanceState)
    (e : Nat) (hu : file.to_volume_index.getD e INVALID_AXIS = INVALID_AXIS) :
    (advance_slab_body file d st).indices.getD e 0 = st.indices.getD e 0 := by
  by_cases hd : file.to_volume_index.getD d INVALID_AXIS ≠ INVALID_AXIS
  · have hne : d ≠ e := by
      intro hde
      subst hde
      exact hd hu
    simp only [advance_slab_body]
    split_ifs <;>
      first
        | rfl
        | simp only [getD_set_of_ne _ _ _ _ _ hne]
  · simp only [advance_slab_body, hd, and_false, if_false]

theorem advance_slab_loop_unmatched (file : minc_file_struct) (d : Nat) (st : AdvanceState)
    (e : Nat) (hu : file.to_volume_index.getD e INVALID_AXIS = INVALID_AXIS) :
    (advance_slab_loop file d st).indices.getD e 0 = st.indices.getD e 0 := by
  induction d generalizing st with
  | zero => rfl
  | succ k ih => rw [advance_slab_loop, ih, advance_slab_body_unmatched file k st e hu]

theorem input_more_unmatched (fails : List Int → List Int → Bool) (g : minc_file_struct) :
    (input_more_minc_file fails g).file.indices.length = g.indices.length ∧
    ∀ e, g.to_volume_index.getD e INVALID_AXIS = INVALID_AXIS →
      (input_more_minc_file fails g).file.indices.getD e 0 = g.indices.getD e 0 := by
  simp only [input_more_minc_file]
  split_ifs
  · exact ⟨rfl, fun e _ => rfl⟩
  · exact ⟨rfl, fun e _ => rfl⟩
  · exact ⟨advance_slab_loop_length g _ _, fun e hu => advance_slab_loop_unmatched g _ _ e hu⟩
  · exact ⟨advance_slab_loop_length g _ _, fun e hu => advance_slab_loop_unmatched g _ _ e hu⟩

/-- Every state that the calls on an opened session reach keeps the unmatched
entries of the cursor inside their dimensions, when every unmatched dimension
has length at least 1. -/
theorem reachable_stack_inBounds (env : HeaderConstants) (file_dims : List (String × Int))
    (volume : Volume) (options : Option minc_input_options) (file0 : minc_file_struct)
    (h : initialize_minc_input_from_minc_id env file_dims volume options = some file0)
    (hs : ∀ d, d < file0.n_file_dimensions →
      file0.to_volume_index.getD d INVALID_AXIS = INVALID_AXIS →
      1 ≤ file0.sizes_in_file.getD d 0)
    (file : minc_file_struct) (hr : Reachable file0 file) :
    StackInBounds file0 file.indices := by
  obtain ⟨_, hlen0, hz0, _⟩ := opened_session_ready env file_dims volume options file0 h
  induction hr with
  | start =>
    refine ⟨hlen0, fun d hd hu => ?_⟩
    rw [hz0 d hd]
    have := hs d hd hu
    omega
  | more fails hprev ih =>
    rename_i g
    obtain ⟨hl, hb⟩ := ih
    obtain ⟨_, ftvi, _, _, _, _⟩ := reachable_fields file0 g hprev
    obtain ⟨m1, m2⟩ := input_more_unmatched fails g
    refine ⟨by rw [m1, hl], fun d hd hu => ?_⟩
    rw [m2 d (by rw [ftvi]; exact hu)]
    exact hb d hd hu
  | advance hprev ih =>
    rename_i g
    obtain ⟨fn, ftvi, fsz, fax, fvol, _⟩ := reachable_fields file0 g hprev
    have hg : StackInBounds g g.indices := by
      unfold StackInBounds
      rw [fn, ftvi, fsz]
      exact ih
    have haxes : ∀ ind, ind < get_volume_n_dimensions g.volume →
        g.to_volume_index.getD (g.valid_file_axes.getD ind 0) INVALID_AXIS ≠ INVALID_AXIS := by
      rw [fvol, ftvi, fax]
      exact session_valid_file_axes env file_dims volume options file0 h
    have hstep := (advance_input_volume_step g hg haxes).1
    unfold StackInBounds at hstep
    rw [fn, ftvi, fsz] at hstep
    exact hstep
  | reset hprev ih =>
    rename_i g
    obtain ⟨hl, _⟩ := ih
    obtain ⟨fn, _, _, _, _, _⟩ := reachable_fields file0 g hprev
    have hidx : (reset_input_volume g).indices = List.replicate file0.n_file_dimensions 0 := by
      unfold reset_input_volume
      simp only
      rw [fn]
      exact reset_indices_eq _ _ hl
    rw [hidx]
    refine ⟨List.length_replicate _ _, fun d hd hu => ?_⟩
    rw [getD_replicate_lt _ _ _ _ hd]
    have := hs d hd hu
    omega

/-- C25, counterexample: the file has the unmatched dimensions `time` of length
3 and `echo` of length 0.  On the freshly opened session the loop of
`advance_input_volume` is left by `break` (at `time`), the flag is clear and the
cursor is `[1, 0, 0]` afterwards, but the unmatched indices read as a
mixed-radix number are 0 before the call and 0 after it: the digit of `time`
has the weight 0, the length of `echo`. -/
theorem zero_length_stack_keeps_position :
    initialize_minc_input_from_minc_id standardHeaders emptyStackFileDims lineVolume none
      = some emptyStackSession ∧
    (advance_volume_loop emptyStackSession emptyStackSession.n_file_dimensions
      emptyStackSession.indices).2 = true ∧
    (advance_input_volume emptyStackSession).1.end_volume_flag = false ∧
    (advance_input_volume emptyStackSession).1.indices = [1, 0, 0] ∧
    stack_position emptyStackSession.to_volume_index emptyStackSession.sizes_in_file
      (fun e => emptyStackSession.indices.getD e 0) emptyStackSession.n_file_dimensions = 0 ∧
    stack_position emptyStackSession.to_volume_index emptyStackSession.sizes_in_file
      (fun e => (advance_input_volume emptyStackSession).1.indices.getD e 0)
      emptyStackSession.n_file_dimensions = 0 := by
  refine ⟨by decide, by decide, by decide, by decide, by decide, by decide⟩

/-- C25, amended: from every state that the calls on an opened session reach,
every unmatched file dimension having length at least 1, whenever the loop of
`advance_input_volume` over the unmatched dimensions is left by `break`, that
is, the carry stops before running out, the session after the call has the
cursor index of every matched file dimension at 0 and the end-of-volume flag
clear (which is also the value returned), and its unmatched indices, read as a
mixed-radix number with the innermost unmatched dimension as least significant
digit, are exactly one more than before the call and stay below the number of
volumes in the file. -/
theorem advance_success_increments_stack (env : HeaderConstants)
    (file_dims : List (String × Int)) (volume : Volume)
    (options : Option minc_input_options) (file0 file : minc_file_struct)
    (h : initialize_minc_input_from_minc_id env file_dims volume options = some file0)
    (hs : ∀ d, d < file0.n_file_dimensions →
      file0.to_volume_index.getD d INVALID_AXIS = INVALID_AXIS →
      1 ≤ file0.sizes_in_file.getD d 0)
    (hr : Reachable file0 file)
    (hbreak : (advance_volume_loop file file.n_file_dimensions file.indices).2 = true) :
    (∀ d, d < file.n_file_dimensions →
      file.to_volume_index.getD d INVALID_AXIS ≠ INVALID_AXIS →
      (advance_input_volume file).1.indices.getD d 0 = 0) ∧
    (advance_input_volume file).1.end_volume_flag = false ∧
    (advance_input_volume file).2 = false ∧
    stack_position file.to_volume_index file.sizes_in_file
        (fun e => (advance_input_volume file).1.indices.getD e 0) file.n_file_dimensions =
      stack_position file.to_volume_index file.sizes_in_file
        (fun e => file.indices.getD e 0) file.n_file_dimensions + 1 ∧
    stack_position file.to_volume_index file.sizes_in_file
        (fun e => (advance_input_volume file).1.indices.getD e 0) file.n_file_dimensions <
      stack_total file.to_volume_index file.sizes_in_file file.n_file_dimensions := by
  obtain ⟨fn, ftvi, fsz, fax, fvol, fnv⟩ := reachable_fields file0 file hr
  have hinv := reachable_stack_inBounds env file_dims volume options file0 h hs file hr
  have hg : StackInBounds file file.indices := by
    unfold StackInBounds
    rw [fn, ftvi, fsz]
    exact hinv
  have haxes : ∀ ind, ind < get_volume_n_dimensions file.volume →
      file.to_volume_index.getD (file.valid_file_axes.getD ind 0) INVALID_AXIS
        ≠ INVALID_AXIS := by
    rw [fvol, ftvi, fax]
    exact session_valid_file_axes env file_dims volume options file0 h
  obtain ⟨⟨hlen', _⟩, hiff, hyes, _⟩ := advance_input_volume_step file hg haxes
  obtain ⟨hflag, hidx, hpos⟩ := hyes hbreak
  refine ⟨?_, hflag, ?_, hpos, ?_⟩
  · intro d hd hm
    obtain ⟨p, hp, hpe⟩ := session_axes_onto env file_dims volume options file0 h d
      (by rw [← fn]; exact hd) (by rw [← ftvi]; exact hm)
    rw [hidx, ← hpe, fax]
    refine foldl_set_zero_hit (fun ind => file0.valid_file_axes.getD ind 0) _ _ p
      (by rw [fvol]; exact hp) ?_
    show file0.valid_file_axes.getD p 0 < _
    rw [hpe, advance_volume_loop_length, hg.1]
    exact hd
  · show (advance_input_volume file).1.end_volume_flag = false
    exact hflag
  · rw [hpos]
    exact hiff.mp hbreak

theorem advance_success_increments_stack_witness :
    (advance_input_volume
        (input_more_minc_file (fun _ _ => false) stackedSession).file).1.end_volume_flag
      = false ∧
    stack_position stackedSession.to_volume_index stackedSession.sizes_in_file
      (fun e => (advance_input_volume
        (input_more_minc_file (fun _ _ => false) stackedSession).file).1.indices.getD e 0)
      4 = 1 :=
  ⟨(advance_success_increments_stack standardHeaders stackedFileDims exampleVolume none
      stackedSession (input_more_minc_file (fun _ _ => false) stackedSession).file
      (by decide) (by decide) (Reachable.more (fun _ _ => false) Reachable.start)
      (by decide)).2.1,
    (advance_success_increments_stack standardHeaders stackedFileDims exampleVolume none
      stackedSession (input_more_minc_file (fun _ _ => false) stackedSession).file
      (by decide) (by decide) (Reachable.more (fun _ _ => false) Reachable.start)
      (by decide)).2.2.2.1.trans (by decide)⟩

/-! ## Counting the volumes with `advance_input_volume` -/

theorem string_eq_empty_of_length (s : String) (h : s.length = 0) : s = "" := by
  cases s with
  | mk l =>
    have hl : l = [] := List.length_eq_zero.mp h
    subst hl
    rfl

theorem pair_allowed_of_match (env : HeaderConstants) (r : Nat) (v f : String)
    (h : dims_match env r v f = true) : pair_allowed env v f := by
  unfold dims_match at h
  split at h
  · exact Or.inl (eq_of_beq h)
  · rw [Bool.and_eq_true] at h
    exact Or.inr (Or.inl ⟨eq_of_beq h.1, h.2⟩)
  · exact Or.inr (Or.inr (by simpa using h))
  · exact absurd h (by simp)

theorem exchange_allowed (env : HeaderConstants)
    (hsp : env.convert_dim_name_to_spatial_axis "" = false) (r : Nat) (a b fj fk : String)
    (hm : dims_match env r a fj = true) (hb : pair_allowed env b fj)
    (ha : pair_allowed env a fk)
    (hsat : ∀ r', r' < r → dims_match env r' b fj = false) :
    pair_allowed env b fk := by
  rcases hb with hb | hb | hb
  · -- the names of `b` and `fj` are equal
    match r, hm, hsat with
    | 0, hm, _ =>
      have hab : a = b := by
        have : a = fj := eq_of_beq hm
        rw [this, hb]
      rw [← hab]
      exact ha
    | r + 1, _, hsat =>
      have h0 := hsat 0 (Nat.succ_pos r)
      simp only [dims_match] at h0
      rw [hb] at h0
      simp at h0
  · -- `b` is the wildcard and `fj` is spatial
    obtain ⟨hbw, hfj⟩ := hb
    match r, hm, hsat with
    | 0, hm, _ =>
      have hafj : a = fj := eq_of_beq hm
      rcases ha with ha | ha | ha
      · exact Or.inr (Or.inl ⟨hbw, by rw [← ha, hafj]; exact hfj⟩)
      · exact Or.inr (Or.inl ⟨hbw, ha.2⟩)
      · have he := string_eq_empty_of_length a ha
        rw [← hafj, he, hsp] at hfj
        exact absurd hfj (by simp)
    | 1, hm, _ =>
      simp only [dims_match, Bool.and_eq_true] at hm
      have haw : a = env.ANY_SPATIAL_DIMENSION := eq_of_beq hm.1
      have hab : a = b := by rw [haw, hbw]
      rw [← hab]
      exact ha
    | r + 2, _, hsat =>
      have h1 := hsat 1 (by omega)
      simp only [dims_match] at h1
      rw [hbw, hfj] at h1
      simp at h1
  · exact Or.inr (Or.inr hb)

theorem later_refl (F : Nat) (st : MatchState) : Later F st st :=
  ⟨fun _ h => h, fun _ _ h => h⟩

theorem later_trans (F : Nat) (st1 st2 st3 : MatchState) (h12 : Later F st1 st2)
    (h23 : Later F st2 st3) : Later F st1 st3 :=
  ⟨fun i h => h23.1 i (h12.1 i h), fun j hj h => h12.2 j hj (h23.2 j hj h)⟩

theorem later_update (F : Nat) (st : MatchState) (i j : Nat)
    (hj : j < st.to_volume_index.length) :
    Later F st
      { to_volume_index := st.to_volume_index.set j (i : Int)
        to_file_index := st.to_file_index.set i (j : Int)
        volume_dim_found := st.volume_dim_found.set i true
        n_matches := st.n_matches + 1 } := by
  refine ⟨fun k h => getD_set_true_of_true _ _ _ h, ?_⟩
  intro k _ h
  simp only at h
  by_cases hkj : k = j
  · subst hkj
    rw [getD_set_self _ _ _ _ hj] at h
    unfold INVALID_AXIS at h
    omega
  · rw [getD_set_of_ne _ _ _ _ _ (Ne.symm hkj)] at h
    exact h

theorem saturated_later (env : HeaderConstants) (vn fn : List String) (r : Nat)
    (st1 st2 : MatchState) (h : Saturated env vn fn r st1) (hl : Later fn.length st1 st2) :
    Saturated env vn fn r st2 := by
  intro i j hi hj hf hu
  apply h i j hi hj ?_ (hl.2 j hj hu)
  cases hc : st1.volume_dim_found.getD i false with
  | false => rfl
  | true =>
    rw [hl.1 i hc] at hf
    exact absurd hf (by simp)

theorem extends_update (env : HeaderConstants) (vn fn : List String)
    (hsp : env.convert_dim_name_to_spatial_axis "" = false) (r : Nat) (st : MatchState)
    (inv : MatchInv vn.length fn.length st) (assign : Nat → Nat)
    (hext : Extends env vn fn assign st) (i j : Nat) (hi : i < vn.length)
    (hj : j < fn.length) (hfree : st.to_volume_index.getD j INVALID_AXIS = INVALID_AXIS)
    (hm : dims_match env r (vn.getD i "") (fn.getD j "") = true)
    (hsat : ∀ r', r' < r → Saturated env vn fn r' st) :
    ∃ assign2, Extends env vn fn assign2
      { to_volume_index := st.to_volume_index.set j (i : Int)
        to_file_index := st.to_file_index.set i (j : Int)
        volume_dim_found := st.volume_dim_found.set i true
        n_matches := st.n_matches + 1 } := by
  have hitfi : i < st.to_file_index.length := by rw [inv.len_tfi]; exact hi
  by_cases hex : ∃ k, k < vn.length ∧ assign k = j
  · obtain ⟨k, hk, hkj⟩ := hex
    have hunf : st.volume_dim_found.getD k false = false := by
      cases hc : st.volume_dim_found.getD k false with
      | false => rfl
      | true =>
        have h1 := hext.agree k hk hc
        obtain ⟨j2, _, h2, h3⟩ := inv.bwd k hk hc
        rw [h1] at h2
        have hjj : assign k = j2 := by exact_mod_cast h2
        rw [← hjj, hkj, hfree] at h3
        unfold INVALID_AXIS at h3
        omega
    refine ⟨fun x => assign (Equiv.swap i k x), ?_, ?_, ?_, ?_⟩
    · intro x hx
      apply hext.range
      rw [Equiv.swap_apply_def]
      split_ifs <;> assumption
    · intro x y hx hy hxy
      have hsx : Equiv.swap i k x < vn.length := by
        rw [Equiv.swap_apply_def]
        split_ifs <;> assumption
      have hsy : Equiv.swap i k y < vn.length := by
        rw [Equiv.swap_apply_def]
        split_ifs <;> assumption
      exact (Equiv.swap i k).injective (hext.inj _ _ hsx hsy hxy)
    · intro x hx
      by_cases hxi : x = i
      · subst hxi
        rw [Equiv.swap_apply_left, hkj]
        exact pair_allowed_of_match env r _ _ hm
      · by_cases hxk : x = k
        · subst hxk
          rw [Equiv.swap_apply_right]
          refine exchange_allowed env hsp r (vn.getD i "") (vn.getD x "") (fn.getD j "")
            (fn.getD (assign i) "") hm ?_ (hext.ok i hi) ?_
          · rw [← hkj]
            exact hext.ok x hx
          · intro r' hr'
            exact hsat r' hr' x j hx hj hunf hfree
        · rw [Equiv.swap_apply_of_ne_of_ne hxi hxk]
          exact hext.ok x hx
    · intro x hx hfx
      simp only at hfx ⊢
      by_cases hxi : x = i
      · subst hxi
        rw [getD_set_self _ _ _ _ hitfi, Equiv.swap_apply_left, hkj]
      · rw [getD_set_of_ne _ _ _ _ _ (Ne.symm hxi)] at hfx
        have hxk : x ≠ k := by
          intro e
          subst e
          rw [hunf] at hfx
          exact absurd hfx (by simp)
        rw [getD_set_of_ne _ _ _ _ _ (Ne.symm hxi), Equiv.swap_apply_of_ne_of_ne hxi hxk]
        exact hext.agree x hx hfx
  · refine ⟨fun x => if x = i then j else assign x, ?_, ?_, ?_, ?_⟩
    · intro x hx
      split_ifs
      · exact hj
      · exact hext.range x hx
    · intro x y hx hy hxy
      simp only at hxy
      by_cases hxi : x = i
      · by_cases hyi : y = i
        · rw [hxi, hyi]
        · rw [if_pos hxi, if_neg hyi] at hxy
          exact absurd ⟨y, hy, hxy.symm⟩ hex
      · by_cases hyi : y = i
        · rw [if_neg hxi, if_pos hyi] at hxy
          exact absurd ⟨x, hx, hxy⟩ hex
        · rw [if_neg hxi, if_neg hyi] at hxy
          exact hext.inj x y hx hy hxy
    · intro x hx
      by_cases hxi : x = i
      · subst hxi
        rw [if_pos rfl]
        exact pair_allowed_of_match env r _ _ hm
      · rw [if_neg hxi]
        exact hext.ok x hx
    · intro x hx hfx
      simp only at hfx ⊢
      by_cases hxi : x = i
      · subst hxi
        rw [getD_set_self _ _ _ _ hitfi, if_pos rfl]
      · rw [getD_set_of_ne _ _ _ _ _ (Ne.symm hxi)] at hfx
        rw [getD_set_of_ne _ _ _ _ _ (Ne.symm hxi), if_neg hxi]
        exact hext.agree x hx hfx

theorem match_file_loop_complete (env : HeaderConstants) (vn fn : List String)
    (hsp : env.convert_dim_name_to_spatial_axis "" = false) (r : Nat) (st : MatchState)
    (inv : MatchInv vn.length fn.length st)
    (hext : ∃ assign, Extends env vn fn assign st) (i : Nat) (hi : i < vn.length)
    (hsat : ∀ r', r' < r → Saturated env vn fn r' st) :
    (∃ assign, Extends env vn fn assign (match_file_loop env r i vn fn fn.length st)) ∧
    Later fn.length st (match_file_loop env r i vn fn fn.length st) ∧
    ((match_file_loop env r i vn fn fn.length st).volume_dim_found.getD i false = true ∨
      ∀ j, j < fn.length →
        (match_file_loop env r i vn fn fn.length st).to_volume_index.getD j INVALID_AXIS
          = INVALID_AXIS →
        dims_match env r (vn.getD i "") (fn.getD j "") = false) := by
  obtain ⟨assign, ha⟩ := hext
  rcases match_file_loop_highest env r i vn fn st fn.length with
    ⟨j, hj, ⟨hfree, hm⟩, _, heq⟩ | ⟨hnone, heq⟩
  · rw [heq]
    refine ⟨extends_update env vn fn hsp r st inv assign ha i j hi hj hfree hm hsat,
      later_update _ st i j (by rw [inv.len_tvi]; exact hj), Or.inl ?_⟩
    exact getD_set_self _ _ _ _ (by rw [inv.len_found]; exact hi)
  · rw [heq]
    refine ⟨⟨assign, ha⟩, later_refl _ st, Or.inr ?_⟩
    intro j hj hfree
    cases hc : dims_match env r (vn.getD i "") (fn.getD j "") with
    | false => rfl
    | true => exact absurd ⟨hfree, hc⟩ (hnone j hj)

theorem match_volume_loop_complete (env : HeaderConstants) (vn fn : List String)
    (hsp : env.convert_dim_name_to_spatial_axis "" = false) (r m : Nat)
    (hm : m ≤ vn.length) (st : MatchState) (inv : MatchInv vn.length fn.length st)
    (hext : ∃ assign, Extends env vn fn assign st)
    (hsat : ∀ r', r' < r → Saturated env vn fn r' st) :
    (∃ assign, Extends env vn fn assign (match_volume_loop env r vn fn m st)) ∧
    Later fn.length st (match_volume_loop env r vn fn m st) ∧
    ∀ i, i < m →
      ((match_volume_loop env r vn fn m st).volume_dim_found.getD i false = true ∨
        ∀ j, j < fn.length →
          (match_volume_loop env r vn fn m st).to_volume_index.getD j INVALID_AXIS
            = INVALID_AXIS →
          dims_match env r (vn.getD i "") (fn.getD j "") = false) := by
  induction m generalizing st with
  | zero => exact ⟨hext, later_refl _ st, fun i hi => absurd hi (Nat.not_lt_zero i)⟩
  | succ k ih =>
    rw [match_volume_loop]
    have hstep : ∃ st1, st1 = (if st.volume_dim_found.getD k false = false then
          match_file_loop env r k vn fn fn.length st else st) ∧
        MatchInv vn.length fn.length st1 ∧
        (∃ assign, Extends env vn fn assign st1) ∧ Later fn.length st st1 ∧
        (st1.volume_dim_found.getD k false = true ∨
          ∀ j, j < fn.length → st1.to_volume_index.getD j INVALID_AXIS = INVALID_AXIS →
            dims_match env r (vn.getD k "") (fn.getD j "") = false) := by
      by_cases hf : st.volume_dim_found.getD k false = false
      · rw [if_pos hf]
        obtain ⟨c1, c2, c3⟩ := match_file_loop_complete env vn fn hsp r st inv hext k
          (by omega) hsat
        exact ⟨_, rfl, match_file_loop_inv env r k vn fn (by omega) fn.length (le_refl _)
          st inv hf, c1, c2, c3⟩
      · rw [if_neg hf]
        refine ⟨_, rfl, inv, hext, later_refl _ st, Or.inl ?_⟩
        cases hc : st.volume_dim_found.getD k false with
        | false => exact absurd hc hf
        | true => rfl
    obtain ⟨st1, hst1, inv1, ext1, later1, satk⟩ := hstep
    rw [← hst1]
    obtain ⟨e1, e2, e3⟩ := ih (by omega) st1 inv1 ext1
      (fun r' hr' => saturated_later env vn fn r' st st1 (hsat r' hr') later1)
    refine ⟨e1, later_trans _ st st1 _ later1 e2, ?_⟩
    intro i hi
    by_cases hik : i = k
    · subst hik
      rcases satk with h1 | h1
      · exact Or.inl (e2.1 i h1)
      · exact Or.inr (fun j hj hfree => h1 j hj (e2.2 j hj hfree))
    · exact e3 i (by omega)

theorem match_pass_complete (env : HeaderConstants) (vn fn : List String)
    (hsp : env.convert_dim_name_to_spatial_axis "" = false) (r : Nat)
    (st : MatchState) (inv : MatchInv vn.length fn.length st)
    (hext : ∃ assign, Extends env vn fn assign st)
    (hsat : ∀ r', r' < r → Saturated env vn fn r' st) :
    MatchInv vn.length fn.length (match_volume_loop env r vn fn vn.length st) ∧
    (∃ assign, Extends env vn fn assign (match_volume_loop env r vn fn vn.length st)) ∧
    ∀ r', r' < r + 1 →
      Saturated env vn fn r' (match_volume_loop env r vn fn vn.length st) := by
  obtain ⟨c1, c2, c3⟩ := match_volume_loop_complete env vn fn hsp r vn.length (le_refl _)
    st inv hext hsat
  refine ⟨match_volume_loop_inv env r vn fn vn.length (le_refl _) st inv, c1, ?_⟩
  intro r' hr'
  by_cases hrr : r' = r
  · subst hrr
    intro i j hi hj hf hfree
    rcases c3 i hi with h1 | h1
    · rw [h1] at hf
      exact absurd hf (by simp)
    · exact h1 j hj hfree
  · exact saturated_later env vn fn r' st _ (hsat r' (by omega)) c2

theorem match_passes_unfold (env : HeaderConstants) (vn fn : List String) :
    match_passes env vn fn =
      match_volume_loop env 2 vn fn vn.length
        (match_volume_loop env 1 vn fn vn.length
          (match_volume_loop env 0 vn fn vn.length (match_init vn.length fn.length))) :=
  rfl

theorem match_of_pair_allowed (env : HeaderConstants) (v f : String)
    (h : pair_allowed env v f) : ∃ r, r < 3 ∧ dims_match env r v f = true := by
  rcases h with h | h | h
  · exact ⟨0, by omega, by simp [dims_match, h]⟩
  · exact ⟨1, by omega, by simp [dims_match, h.1, h.2]⟩
  · exact ⟨2, by omega, by simp [dims_match, h]⟩

/-- C27: the three-pass matcher is complete.  If some map sends every volume
dimension to a file dimension, no two to the same one, such that every pair
satisfies one of the three rules (equal names; the volume name is
`ANY_SPATIAL_DIMENSION` and the file name is a recognised spatial axis name;
the volume name is empty), then `match_dimension_names` returns TRUE.  The
header function `convert_dim_name_to_spatial_axis` is assumed not to recognise
the empty string as a spatial axis name. -/
theorem matcher_is_complete (env : HeaderConstants) (vn fn : List String)
    (hsp : env.convert_dim_name_to_spatial_axis "" = false) (assign : Nat → Nat)
    (hrange : ∀ i, i < vn.length → assign i < fn.length)
    (hinj : ∀ i, i < vn.length → ∀ k, k < vn.length → assign i = assign k → i = k)
    (hok : ∀ i, i < vn.length → pair_allowed env (vn.getD i "") (fn.getD (assign i) "")) :
    (match_dimension_names env vn fn).matched = true := by
  have h0 : Extends env vn fn assign (match_init vn.length fn.length) := by
    refine ⟨hrange, fun i k hi hk => hinj i hi k hk, hok, ?_⟩
    intro i hi hf
    unfold match_init at hf
    simp only at hf
    rw [getD_replicate_lt _ _ _ _ hi] at hf
    exact absurd hf (by simp)
  obtain ⟨inv1, ext1, sat1⟩ := match_pass_complete env vn fn hsp 0 _
    (match_init_inv vn.length fn.length) ⟨assign, h0⟩
    (fun r' hr' => absurd hr' (Nat.not_lt_zero r'))
  obtain ⟨inv2, ext2, sat2⟩ := match_pass_complete env vn fn hsp 1 _ inv1 ext1 sat1
  obtain ⟨inv3, ⟨assign3, ext3⟩, sat3⟩ :=
    match_pass_complete env vn fn hsp 2 _ inv2 ext2 sat2
  rw [← match_passes_unfold] at inv3 ext3 sat3
  have hall : ∀ i, i < vn.length →
      (match_passes env vn fn).volume_dim_found.getD i false = true := by
    intro i hi
    cases hc : (match_passes env vn fn).volume_dim_found.getD i false with
    | true => rfl
    | false =>
      exfalso
      have hj := ext3.range i hi
      have hfree : (match_passes env vn fn).to_volume_index.getD (assign3 i) INVALID_AXIS
          = INVALID_AXIS := by
        rcases inv3.fwd (assign3 i) hj with h1 | ⟨i2, hi2, _, hf2, ht2⟩
        · exact h1
        · have hag := ext3.agree i2 hi2 hf2
          rw [ht2] at hag
          have he : assign3 i = assign3 i2 := by exact_mod_cast hag
          have hii := ext3.inj i i2 hi hi2 he
          rw [← hii, hc] at hf2
          exact absurd hf2 (by simp)
      obtain ⟨r, hr, hm⟩ := match_of_pair_allowed env _ _ (ext3.ok i hi)
      have := sat3 r hr i (assign3 i) hi hj hc hfree
      rw [hm] at this
      exact absurd this (by simp)
  have hcount : (match_passes env vn fn).volume_dim_found.count true = vn.length := by
    rw [← inv3.len_found, List.count_eq_length]
    intro b hb
    obtain ⟨i, hi, rfl⟩ := List.getElem_of_mem hb
    have := hall i (by rw [← inv3.len_found]; exact hi)
    rw [List.getD_eq_getElem _ _ hi] at this
    exact this.symm
  unfold match_dimension_names
  simp only [decide_eq_true_eq]
  rw [inv3.cnt, hcount]

theorem matcher_is_complete_witness :
    (match_dimension_names standardHeaders ["", "any_spatial_dimension", "xspace"]
      ["xspace", "yspace", "time"]).matched = true :=
  matcher_is_complete standardHeaders ["", "any_spatial_dimension", "xspace"]
    ["xspace", "yspace", "time"] (by decide) (fun i => 2 - i) (by decide) (by decide)
    (by unfold pair_allowed; decide)

end MincInput
